import Mathlib

/-!
# macos-dmg-creator: a shallow embedding of the disk-image assembly pipeline

The Go packages `dmg`, `hdiutil` and `validate` are embedded as Lean
definitions that keep the names of the Go functions.

* A Go `string` is a Lean `String`; the path functions work on its list of
  characters. The separator `/` and the suffixes involved are ASCII, so the
  byte-wise Go functions and the character-wise Lean ones agree on every
  well-formed UTF-8 string.
* A Go `error` is `Option GoError`: `none` is `nil`.
* The swappable providers (`fsOpsProvider`, `sipsUtilityProvider`,
  `iconUtilProvider`, `hdiutilProvider`) are a record of functions over an
  arbitrary world state; every call made through a provider is logged with
  its arguments and what it returned.
* The progress spinner only writes to the terminal and is left out.
-/

/-! ## Go errors -/

/-- A Go error value: its message (what `Error()` returns) and whether
`os.IsNotExist` holds of it. -/
structure GoError where
  msg : String
  notExist : Bool
deriving DecidableEq, Repr

namespace errors

/-- The function `errors.New` / `errors.Errorf` of `github.com/pkg/errors`
once the message is formatted. -/
def New (message : String) : GoError := ⟨message, false⟩

/-- The function `errors.Wrap`: the message is `message: cause`. The
wrapper is not an error of package `os`, so `os.IsNotExist` is false of it. -/
def Wrap (err : GoError) (message : String) : GoError :=
  ⟨message ++ ": " ++ err.msg, false⟩

end errors

/-! ## The standard-library string and path functions (Unix) -/

namespace strings

/-- Go `strings.HasSuffix`. -/
def HasSuffix (s suffix : String) : Bool := suffix.data.isSuffixOf s.data

/-- Go `strings.TrimSuffix`: `s` without the trailing `suffix`, or `s`
itself when it does not end in `suffix`. -/
def TrimSuffix (s suffix : String) : String :=
  if HasSuffix s suffix then ⟨s.data.take (s.data.length - suffix.data.length)⟩ else s

/-- Go `strings.Join`. -/
def Join : List String → String → String
  | [], _ => ""
  | [a], _ => a
  | a :: b :: rest, sep => a ++ sep ++ Join (b :: rest) sep

/-- The replacements of `Replace` for a non-empty `old`: non-overlapping
occurrences are replaced from left to right, at most `limit` of them;
`skip` counts the characters of an occurrence still to be passed over. -/
def replaceChars (old new : List Char) : List Char → Nat → Nat → List Char
  | [], _, _ => []
  | _ :: cs, skip + 1, limit => replaceChars old new cs skip limit
  | c :: cs, 0, 0 => c :: replaceChars old new cs 0 0
  | c :: cs, 0, limit + 1 =>
    if old.isPrefixOf (c :: cs) then new ++ replaceChars old new cs (old.length - 1) limit
    else c :: replaceChars old new cs 0 (limit + 1)

/-- The replacements of `Replace` for an empty `old`: `new` is inserted
before the first character and after each character, at most `limit` times. -/
def replaceEmpty (new : List Char) : List Char → Nat → List Char
  | s, 0 => s
  | [], _ + 1 => new
  | c :: cs, limit + 1 => new ++ c :: replaceEmpty new cs limit

/-- Go `strings.Replace`: `s` with the first `n` non-overlapping instances
of `old` replaced by `new`; no limit when `n < 0`. -/
def Replace (s old new : String) (n : Int) : String :=
  if old = new ∨ n = 0 then s
  else
    let limit := if n < 0 then s.data.length + 1 else n.toNat
    if old.data = [] then ⟨replaceEmpty new.data s.data limit⟩
    else ⟨replaceChars old.data new.data s.data 0 limit⟩

end strings

namespace filepath

/-- The path elements of a path: the pieces between separators (empty
pieces included). -/
def splitSep : List Char → List (List Char)
  | [] => [[]]
  | c :: cs =>
    if c = '/' then [] :: splitSep cs
    else match splitSep cs with
      | [] => [[c]]
      | h :: t => (c :: h) :: t

/-- One step of `Clean` on the elements kept so far: an empty element and
`.` are dropped; `..` removes the preceding real element when there is one,
is dropped at the root of a rooted path and is kept otherwise; any other
element is kept. -/
def cleanStep (rooted : Bool) (out : List (List Char)) (e : List Char) : List (List Char) :=
  if e = [] ∨ e = ['.'] then out
  else if e = ['.', '.'] then
    match out.getLast? with
    | none => if rooted then out else out ++ [e]
    | some l => if l = ['.', '.'] then out ++ [e] else out.dropLast
  else out ++ [e]

/-- The elements of the cleaned path. -/
def cleanElems (rooted : Bool) (elems : List (List Char)) : List (List Char) :=
  elems.foldl (cleanStep rooted) []

/-- The elements joined by single separators. -/
def joinSep : List (List Char) → List Char
  | [] => []
  | [e] => e
  | e :: f :: rest => e ++ '/' :: joinSep (f :: rest)

/-- Go `filepath.Clean` on Unix, on the characters of the path. -/
def cleanChars (path : List Char) : List Char :=
  match path with
  | [] => ['.']
  | c :: _ =>
    let rooted : Bool := c = '/'
    let body := joinSep (cleanElems rooted (splitSep path))
    let out := if rooted then '/' :: body else body
    if out = [] then ['.'] else out

/-- Go `filepath.Clean` (Unix): the shortest path equivalent to `path` by
purely lexical processing. -/
def Clean (path : String) : String := ⟨cleanChars path.data⟩

/-- Go `filepath.Join` (Unix): leading empty elements are ignored, the rest
is joined by the separator and cleaned; the result is empty when every
element is empty. -/
def Join : List String → String
  | [] => ""
  | e :: rest => if e = "" then Join rest else Clean (strings.Join (e :: rest) "/")

/-- The characters after the last separator. -/
def lastElem (path : List Char) : List Char :=
  (path.reverse.takeWhile (fun c => c ≠ '/')).reverse

/-- The path without its trailing separators. -/
def stripTrailing (path : List Char) : List Char :=
  (path.reverse.dropWhile (fun c => c = '/')).reverse

/-- Go `filepath.Base` (Unix): the last element of the path, after trailing
separators are removed; `.` for the empty path and `/` for a path of
separators only. -/
def Base (path : String) : String :=
  if path = "" then "."
  else
    let last := lastElem (stripTrailing path.data)
    if last = [] then "/" else ⟨last⟩

end filepath

/-! ## Effects: a world state and a log of the calls made -/

/-- The outcome of a computation: its value, the world after it and the
calls it made, oldest first. -/
structure Out (σ ε α : Type) where
  val : α
  st : σ
  log : List ε

/-- A computation over a world of type `σ` that logs events of type `ε`. -/
def Eff (σ ε α : Type) : Type := σ → Out σ ε α

namespace Eff

/-- A computation that returns `a` and makes no call. -/
def ret {σ ε α : Type} (a : α) : Eff σ ε α := fun s => ⟨a, s, []⟩

/-- Sequencing: the calls of the first computation, then those of the second. -/
def andThen {σ ε α β : Type} (m : Eff σ ε α) (f : α → Eff σ ε β) : Eff σ ε β :=
  fun s =>
    let r := m s
    let q := f r.val r.st
    ⟨q.val, q.st, r.log ++ q.log⟩

instance {σ ε : Type} : Monad (Eff σ ε) where
  pure := ret
  bind := andThen

end Eff

/-! ## Package validate -/

namespace validate

/-- The struct `FieldError`: an error with a specific request field. -/
structure FieldError where
  Field : String
  Error : String
deriving DecidableEq, Repr

/-- The type `FieldErrors`: a collection of field errors. -/
abbrev FieldErrors : Type := List FieldError

/-- The method `FieldErrors.Error`: every entry is written as
`Field: Error`, and `; ` follows each entry but the last. -/
def FieldErrors.Error (fe : FieldErrors) : String :=
  fe.enum.foldl
    (fun sb p =>
      let sb := sb ++ (p.2.Field ++ ": " ++ p.2.Error)
      if p.1 < fe.length - 1 then sb ++ "; " else sb)
    ""

end validate

/-! ## Package dmg: parameters, providers and the calls they log -/

namespace dmg

/-- The struct `CreateParams`, the input of `Create`; every field carries
the tag `validate:"required"`. -/
structure CreateParams where
  AppName : String
  AppBinaryPath : String
  BundleIdentifier : String
  IconPath : String
  OutputDir : String
deriving DecidableEq, Repr

end dmg

namespace validate

/-- The fields of `CreateParams` with their values, in declaration order. -/
def requiredFields (params : dmg.CreateParams) : List (String × String) :=
  [("AppName", params.AppName),
   ("AppBinaryPath", params.AppBinaryPath),
   ("BundleIdentifier", params.BundleIdentifier),
   ("IconPath", params.IconPath),
   ("OutputDir", params.OutputDir)]

/-- Modelled from the spec: the function `validate.Check` is not among the
sources (only `validate/errors.go` is). Every field tagged `required` must
be non-empty; a failure is a `FieldErrors` value with one entry per empty
field, in declaration order, whose text is `<Field> is a required field`
(the text the test of `Create` expects). -/
def Check (params : dmg.CreateParams) : Option GoError :=
  let fe : FieldErrors :=
    ((requiredFields params).filter (fun f => f.2 = "")).map
      (fun f => ⟨f.1, f.1 ++ " is a required field"⟩)
  if fe = [] then none else some ⟨FieldErrors.Error fe, false⟩

end validate

namespace os

/-- Go `os.ModePerm`, the permission bits `0777`. -/
def ModePerm : Nat := 511

end os

namespace dmg

/-- A call through one of the providers of package `dmg`, with its
arguments: the methods of the interfaces `fsOps`, `sipsOps`, `iconUtilOps`
and `hdiutilOps`. -/
inductive Call where
  | MkdirAll (path : String) (perm : Nat)
  | CopyFile (src dst : String)
  | FileExists (path : String)
  | CopyDir (src dst : String)
  | DeleteDir (path : String)
  | WriteFile (name data : String) (perm : Nat)
  | CreateSymlink (src dst : String)
  | GenerateIcons (iconPath outputDir : String) (sizes : List Int)
  | GenerateIconSet (iconsDir outputDir : String)
  | CreateDMG (size fs volName layout output : String)
  | MoundDMG (dmgVolName dmgPath : String)
  | UnmountDMG (volName : String)
  | ConvertDMG (dmgPath dmgOutputFileName : String)
deriving DecidableEq, Repr

/-- The method a call invokes, without its arguments. -/
inductive Op where
  | MkdirAll | CopyFile | FileExists | CopyDir | DeleteDir | WriteFile | CreateSymlink
  | GenerateIcons | GenerateIconSet | CreateDMG | MoundDMG | UnmountDMG | ConvertDMG
deriving DecidableEq, Repr

/-- The method of a call. -/
def Call.op : Call → Op
  | .MkdirAll _ _ => .MkdirAll
  | .CopyFile _ _ => .CopyFile
  | .FileExists _ => .FileExists
  | .CopyDir _ _ => .CopyDir
  | .DeleteDir _ => .DeleteDir
  | .WriteFile _ _ _ => .WriteFile
  | .CreateSymlink _ _ => .CreateSymlink
  | .GenerateIcons _ _ _ => .GenerateIcons
  | .GenerateIconSet _ _ => .GenerateIconSet
  | .CreateDMG _ _ _ _ _ => .CreateDMG
  | .MoundDMG _ _ => .MoundDMG
  | .UnmountDMG _ => .UnmountDMG
  | .ConvertDMG _ _ => .ConvertDMG

/-- A logged call: the call, the boolean it returned (`FileExists` only,
`false` for the other methods) and the error it returned. -/
structure Event where
  call : Call
  found : Bool
  err : Option GoError
deriving DecidableEq, Repr

/-- A call that makes its caller give up: it returned an error, or it is
the existence check and reported that the file exists. -/
def Event.failed (e : Event) : Bool := e.err.isSome || e.found

/-- The providers of package `dmg` (`fsOpsProvider`, `sipsUtilityProvider`,
`iconUtilProvider`, `hdiutilProvider`): each method maps its arguments and
the world to what it returns and the world after the call. -/
structure Providers (σ : Type) where
  MkdirAll : String → Nat → σ → Option GoError × σ
  CopyFile : String → String → σ → Option GoError × σ
  FileExists : String → σ → (Bool × Option GoError) × σ
  CopyDir : String → String → σ → Option GoError × σ
  DeleteDir : String → σ → Option GoError × σ
  WriteFile : String → String → Nat → σ → Option GoError × σ
  CreateSymlink : String → String → σ → Option GoError × σ
  GenerateIcons : String → String → List Int → σ → Option GoError × σ
  GenerateIconSet : String → String → σ → Option GoError × σ
  CreateDMG : String → String → String → String → String → σ → Option GoError × σ
  MoundDMG : String → String → σ → Option GoError × σ
  UnmountDMG : String → σ → Option GoError × σ
  ConvertDMG : String → String → σ → Option GoError × σ

/-- A provider call that returns an error: it is run on the world and logged. -/
def perform {σ : Type} (c : Call) (f : σ → Option GoError × σ) : Eff σ Event (Option GoError) :=
  fun s => ⟨(f s).1, (f s).2, [⟨c, false, (f s).1⟩]⟩

/-- The provider call `FileExists`, which also returns a boolean. -/
def performExists {σ : Type} (c : Call) (f : σ → (Bool × Option GoError) × σ) :
    Eff σ Event (Bool × Option GoError) :=
  fun s => ⟨(f s).1, (f s).2, [⟨c, (f s).1.1, (f s).1.2⟩]⟩

end dmg

namespace dmg

namespace Providers

variable {σ : Type} (P : Providers σ)

/-- The logged call `fsOpsProvider.MkdirAll(path, perm)`. -/
def mkdirAll (path : String) (perm : Nat) : Eff σ Event (Option GoError) :=
  perform (.MkdirAll path perm) (P.MkdirAll path perm)

/-- The logged call `fsOpsProvider.CopyFile(src, dst)`. -/
def copyFile (src dst : String) : Eff σ Event (Option GoError) :=
  perform (.CopyFile src dst) (P.CopyFile src dst)

/-- The logged call `fsOpsProvider.FileExists(path)`. -/
def fileExists (path : String) : Eff σ Event (Bool × Option GoError) :=
  performExists (.FileExists path) (P.FileExists path)

/-- The logged call `fsOpsProvider.CopyDir(src, dst)`. -/
def copyDir (src dst : String) : Eff σ Event (Option GoError) :=
  perform (.CopyDir src dst) (P.CopyDir src dst)

/-- The logged call `fsOpsProvider.DeleteDir(path)`. -/
def deleteDir (path : String) : Eff σ Event (Option GoError) :=
  perform (.DeleteDir path) (P.DeleteDir path)

/-- The logged call `fsOpsProvider.WriteFile(name, data, perm)`. -/
def writeFile (name data : String) (perm : Nat) : Eff σ Event (Option GoError) :=
  perform (.WriteFile name data perm) (P.WriteFile name data perm)

/-- The logged call `fsOpsProvider.CreateSymlink(src, dst)`. -/
def createSymlink (src dst : String) : Eff σ Event (Option GoError) :=
  perform (.CreateSymlink src dst) (P.CreateSymlink src dst)

/-- The logged call `sipsUtilityProvider.GenerateIcons(iconPath, outputDir, sizes...)`. -/
def generateIcons (iconPath outputDir : String) (sizes : List Int) :
    Eff σ Event (Option GoError) :=
  perform (.GenerateIcons iconPath outputDir sizes) (P.GenerateIcons iconPath outputDir sizes)

/-- The logged call `iconUtilProvider.GenerateIconSet(iconsDir, outputDir)`. -/
def generateIconSet (iconsDir outputDir : String) : Eff σ Event (Option GoError) :=
  perform (.GenerateIconSet iconsDir outputDir) (P.GenerateIconSet iconsDir outputDir)

/-- The logged call `hdiutilProvider.CreateDMG(size, fs, volName, layout, output)`. -/
def createDMG (size fs volName layout output : String) : Eff σ Event (Option GoError) :=
  perform (.CreateDMG size fs volName layout output) (P.CreateDMG size fs volName layout output)

/-- The logged call `hdiutilProvider.MoundDMG(dmgVolName, dmgPath)`. -/
def moundDMG (dmgVolName dmgPath : String) : Eff σ Event (Option GoError) :=
  perform (.MoundDMG dmgVolName dmgPath) (P.MoundDMG dmgVolName dmgPath)

/-- The logged call `hdiutilProvider.UnmountDMG(volName)`. -/
def unmountDMG (volName : String) : Eff σ Event (Option GoError) :=
  perform (.UnmountDMG volName) (P.UnmountDMG volName)

/-- The logged call `hdiutilProvider.ConvertDMG(dmgPath, dmgOutputFileName)`. -/
def convertDMG (dmgPath dmgOutputFileName : String) : Eff σ Event (Option GoError) :=
  perform (.ConvertDMG dmgPath dmgOutputFileName) (P.ConvertDMG dmgPath dmgOutputFileName)

end Providers

/-! ## Package dmg: the functions of dmg.go -/

/-- The constant `contentsDir`. -/
def contentsDir : String := "Contents"

/-- The constant `macOsDir`. -/
def macOsDir : String := "Contents/MacOS"

/-- The constant `resourcesDir`. -/
def resourcesDir : String := "Contents/Resources"

/-- The constant `iconSetDir`. -/
def iconSetDir : String := "icon.iconset"

/-- The constant `infoPlistTpl` of infoplist.go. -/
def infoPlistTpl : String :=
  "<?xml version=\"1.0\" encoding=\"UTF-8\"?>\n" ++
  "<!DOCTYPE plist PUBLIC \"-//Apple//DTD PLIST 1.0//EN\" \"http://www.apple.com/DTDs/PropertyList-1.0.dtd\">\n" ++
  "<plist version=\"1.0\">\n" ++
  "<dict>\n" ++
  "\t<key>CFBundleExecutable</key>\n" ++
  "\t<string>\x7b\x7b.AppName\x7d\x7d</string>\n" ++
  "\t<key>CFBundleIconFile</key>\n" ++
  "\t<string>icon.icns</string>\n" ++
  "\t<key>CFBundleIdentifier</key>\n" ++
  "\t<string>\x7b\x7b.BundleIdentifier\x7d\x7d</string>\n" ++
  "\t<key>NSHighResolutionCapable</key>\n" ++
  "\t<true/>\n" ++
  "\t<key>LSUIElement</key>\n" ++
  "\t<true/>\n" ++
  "</dict>\n" ++
  "</plist>\n"

variable {σ : Type}

/-- The loop of `createAppBundleDirectories` over the directories still to
be created: it stops at the first `MkdirAll` that fails. -/
def createDirs (P : Providers σ) : List String → Eff σ Event (Option GoError)
  | [] => pure none
  | dirName :: rest => do
    match ← P.mkdirAll dirName os.ModePerm with
    | some err =>
      pure (some (errors.Wrap err ("error when creating directory [" ++ dirName ++ "]")))
    | none => createDirs P rest

/-- The function `createAppBundleDirectories`: creates the necessary
directories for the application bundle. -/
def createAppBundleDirectories (P : Providers σ) (appBundleDirName outputDir : String) :
    Eff σ Event (Option GoError) :=
  createDirs P
    [filepath.Join [outputDir, appBundleDirName],
     filepath.Join [outputDir, iconSetDir],
     filepath.Join [outputDir, appBundleDirName, macOsDir],
     filepath.Join [outputDir, appBundleDirName, resourcesDir]]

/-- The function `createIconSet`: creates the icon set directory structure. -/
def createIconSet (P : Providers σ) (iconPath appleBundleDirName appBundleDirPath : String) :
    Eff σ Event (Option GoError) := do
  let iconSizes : List Int := [16, 32, 64, 128, 256, 512, 1024]
  let iconSetDirPath := filepath.Join [appBundleDirPath, iconSetDir]
  match ← P.generateIcons iconPath iconSetDirPath iconSizes with
  | some err => pure (some (errors.Wrap err "error when generating icons"))
  | none =>
    let resourcesDirPath := filepath.Join [appBundleDirPath, appleBundleDirName, resourcesDir]
    match ← P.generateIconSet iconSetDirPath resourcesDirPath with
    | some err => pure (some (errors.Wrap err "error when generating icon set"))
    | none => pure none

/-- The function `copyAppBinary`: copies the application binary to the
MacOS directory within the app bundle. -/
def copyAppBinary (P : Providers σ) (appBinaryPath appBundleDirPath : String) :
    Eff σ Event (Option GoError) := do
  let macOsDirPath := filepath.Join [appBundleDirPath, macOsDir]
  match ← P.copyFile appBinaryPath macOsDirPath with
  | some err =>
    pure (some (errors.Wrap err
      ("error when copying file [" ++ appBinaryPath ++ "] to [" ++ macOsDirPath ++ "]")))
  | none => pure none

/-- The function `createInfoPlistFile`: creates the Info.plist file. -/
def createInfoPlistFile (P : Providers σ)
    (appBinaryPath appleBundleDirName appBundleDirPath bundleIdentifier : String) :
    Eff σ Event (Option GoError) := do
  let infoPlist :=
    strings.Replace infoPlistTpl "\x7b\x7b.AppName\x7d\x7d" (filepath.Base appBinaryPath) (-1)
  let infoPlist :=
    strings.Replace infoPlist "\x7b\x7b.BundleIdentifier\x7d\x7d" bundleIdentifier (-1)
  let contentsDirPath := filepath.Join [appBundleDirPath, appleBundleDirName, contentsDir]
  let infoPlistPath := filepath.Join [contentsDirPath, "Info.plist"]
  match ← P.writeFile infoPlistPath infoPlist os.ModePerm with
  | some err =>
    pure (some (errors.Wrap err
      ("error when writing Info.plist file to [" ++ infoPlistPath ++ "]")))
  | none => pure none

/-- The function `createAppBundle`: creates the application bundle. -/
def createAppBundle (P : Providers σ)
    (appName appBinaryPath iconPath bundleIdentifier outputDir : String) :
    Eff σ Event (String × Option GoError) := do
  let appBundleDirName := appName ++ ".app"
  let appBundleDirPath := filepath.Join [outputDir, appBundleDirName]
  match ← createAppBundleDirectories P appBundleDirName outputDir with
  | some err => pure ("", some (errors.Wrap err "error when creating app bundle directories"))
  | none =>
    match ← createIconSet P iconPath appBundleDirName outputDir with
    | some err => pure ("", some (errors.Wrap err "error when creating icon set"))
    | none =>
      match ← copyAppBinary P appBinaryPath appBundleDirPath with
      | some err => pure ("", some (errors.Wrap err "error when copying app binary"))
      | none =>
        match ← createInfoPlistFile P appBinaryPath appBundleDirName outputDir
            bundleIdentifier with
        | some err => pure ("", some (errors.Wrap err "error when creating Info.plist file"))
        | none => pure (appBundleDirPath, none)

/-- The function `checkIfFinalDMGAlreadyExists`: checks if the final DMG
file already exists in the output directory. -/
def checkIfFinalDMGAlreadyExists (P : Providers σ) (dmgName outputDir : String) :
    Eff σ Event (Option GoError) := do
  let dmgPath := filepath.Join [outputDir, dmgName ++ ".dmg"]
  match ← P.fileExists dmgPath with
  | (_, some err) =>
    pure (some (errors.Wrap err
      ("error when checking if DMG file already exists at [" ++ dmgPath ++ "]")))
  | (true, none) => pure (some (errors.New ("DMG file already exists: [" ++ dmgPath ++ "]")))
  | (false, none) => pure none

/-- The function `createDMGTemplate`: creates a DMG template for the
application bundle. -/
def createDMGTemplate (P : Providers σ) (dmgTemplateVolName outputDir : String) :
    Eff σ Event (String × Option GoError) := do
  let dmgTemplateFileName := dmgTemplateVolName ++ "-template.dmg"
  let dmgTemplatePath := filepath.Join [outputDir, dmgTemplateFileName]
  match ← P.createDMG "100m" "APFS" dmgTemplateVolName "GPTSPUD" dmgTemplatePath with
  | some err => pure ("", some err)
  | none => pure (dmgTemplatePath, none)

/-- The function `mountDMGTemplate`: mounts the DMG template. -/
def mountDMGTemplate (P : Providers σ) (dmgTemplateVolName dmgTemplatePath : String) :
    Eff σ Event (String × Option GoError) := do
  match ← P.moundDMG dmgTemplateVolName dmgTemplatePath with
  | some err => pure ("", some err)
  | none =>
    let mountedDmgTemplatePath := "/Volumes/" ++ dmgTemplateVolName
    pure (mountedDmgTemplatePath, none)

/-- The function `createMacOsApplicationFolderSymlink`: creates a symlink
to the Applications folder in the mounted DMG template. -/
def createMacOsApplicationFolderSymlink (P : Providers σ) (mountedDmgTemplatePath : String) :
    Eff σ Event (Option GoError) := do
  let symlinkName := "/Applications"
  match ← P.createSymlink symlinkName mountedDmgTemplatePath with
  | some err => pure (some err)
  | none => pure none

/-- The function `copyAppBundle`: copies the application bundle to the
mounted DMG template. -/
def copyAppBundle (P : Providers σ) (createdAppBundleDirPath mountedDmgTemplatePath : String) :
    Eff σ Event (Option GoError) := do
  match ← P.copyDir createdAppBundleDirPath mountedDmgTemplatePath with
  | some err => pure (some err)
  | none => pure none

/-- The function `setupDMGTemplate`: sets up the mounted DMG template with
the application bundle. -/
def setupDMGTemplate (P : Providers σ) (mountedDmgTemplatePath createdAppBundleDirPath : String) :
    Eff σ Event (Option GoError) := do
  match ← createMacOsApplicationFolderSymlink P mountedDmgTemplatePath with
  | some err => pure (some (errors.Wrap err "error when creating symlink for Applications folder"))
  | none =>
    match ← copyAppBundle P createdAppBundleDirPath mountedDmgTemplatePath with
    | some err =>
      pure (some (errors.Wrap err
        ("error when copying app bundle to mounted DMG template at [" ++
          mountedDmgTemplatePath ++ "]")))
    | none => pure none

/-- The function `unmountDMGTemplate`: unmounts the mounted DMG template. -/
def unmountDMGTemplate (P : Providers σ) (mountedDmgTemplatePath : String) :
    Eff σ Event (Option GoError) := do
  match ← P.unmountDMG mountedDmgTemplatePath with
  | some err => pure (some err)
  | none => pure none

/-- The function `convertDmg`: converts the DMG template to the final DMG file. -/
def convertDmg (P : Providers σ) (createdAppBundleDirPath createdDmgTemplatePath outputDir : String) :
    Eff σ Event (String × Option GoError) := do
  let appDMGPath := filepath.Join
    [outputDir, filepath.Base (strings.TrimSuffix createdAppBundleDirPath ".app") ++ ".dmg"]
  match ← P.convertDMG createdDmgTemplatePath appDMGPath with
  | some err =>
    pure ("", some (errors.Wrap err "error when converting DMG template to final DMG"))
  | none => pure (appDMGPath, none)

/-- The function `createAppDmg`: creates the DMG file for the application bundle. -/
def createAppDmg (P : Providers σ) (appBundlePath tmpWorkDir outputDir : String) :
    Eff σ Event (String × Option GoError) := do
  let dmgName := strings.TrimSuffix (filepath.Base appBundlePath) ".app"
  match ← checkIfFinalDMGAlreadyExists P dmgName outputDir with
  | some err => pure ("", some err)
  | none =>
    match ← createDMGTemplate P dmgName tmpWorkDir with
    | (_, some err) => pure ("", some (errors.Wrap err "error when creating DMG template"))
    | (dmgTemplatePath, none) =>
      match ← mountDMGTemplate P dmgName dmgTemplatePath with
      | (_, some err) => pure ("", some (errors.Wrap err "error when mounting DMG template"))
      | (mountPoint, none) =>
        match ← setupDMGTemplate P mountPoint appBundlePath with
        | some err => pure ("", some (errors.Wrap err "error when setting up DMG template"))
        | none =>
          match ← unmountDMGTemplate P mountPoint with
          | some err => pure ("", some (errors.Wrap err "error when unmounting DMG template"))
          | none => convertDmg P appBundlePath dmgTemplatePath outputDir

/-- The statements of `Create` that run between the registration of the
deferred cleanup and the return: the bundle is assembled, then wrapped
into the DMG. -/
def createSteps (P : Providers σ) (params : CreateParams) (tmpWorkDir : String) :
    Eff σ Event (String × Option GoError) := do
  match ← createAppBundle P params.AppName params.AppBinaryPath params.IconPath
      params.BundleIdentifier tmpWorkDir with
  | (_, some err) => pure ("", some (errors.Wrap err "error when creating app bundle"))
  | (createdAppBundleDirPath, none) =>
    match ← createAppDmg P createdAppBundleDirPath tmpWorkDir params.OutputDir with
    | (_, some err) => pure ("", some (errors.Wrap err "error when creating app DMG"))
    | (createdAppDmgPath, none) => pure (createdAppDmgPath, none)

/-- The function `Create`: creates a DMG file with the specified
parameters. The deferred function, registered once the temporary working
directory exists, calls `DeleteDir` on it when `Create` returns and drops
what `DeleteDir` returns. -/
def Create (P : Providers σ) (params : CreateParams) : Eff σ Event (String × Option GoError) :=
  match validate.Check params with
  | some err => pure ("", some (errors.Wrap err "error when validating input parameters"))
  | none => do
    let tmpWorkDir := filepath.Join [params.OutputDir, "tmp"]
    match ← P.mkdirAll tmpWorkDir os.ModePerm with
    | some err => pure ("", some (errors.Wrap err "error when creating temp working directory"))
    | none =>
      let result ← createSteps P params tmpWorkDir
      let _ ← P.deleteDir tmpWorkDir
      pure result

end dmg

/-! ## The providers of the tests -/

namespace dmg

/-- The mocks of dmg_test.go (`mockFsOpsProvider`, `mockSipsUtilityProvider`,
`mockIconUtilProvider`, `mockHdiutilProvider`): what each method returns,
whatever its arguments. -/
structure Mock where
  expectedFileExists : Bool := false
  expectedFileExistsErr : Option GoError := none
  expectedMkdirAllErr : Option GoError := none
  expectedCopyFileErr : Option GoError := none
  expectedCopyDirErr : Option GoError := none
  expectedWriteFileErr : Option GoError := none
  expectedCreateSymlinkErr : Option GoError := none
  expectedDeleteDirErr : Option GoError := none
  expectedGenerateIconsErr : Option GoError := none
  expectedGenerateIconSetErr : Option GoError := none
  expectedCreateDMGErr : Option GoError := none
  expectedConvertDMGErr : Option GoError := none
  expectedMountDMGErr : Option GoError := none
  expectedUnmountDMGErr : Option GoError := none

/-- The providers a mock stands for; the world is trivial. -/
def Mock.providers (m : Mock) : Providers Unit where
  MkdirAll := fun _ _ s => (m.expectedMkdirAllErr, s)
  CopyFile := fun _ _ s => (m.expectedCopyFileErr, s)
  FileExists := fun _ s => ((m.expectedFileExists, m.expectedFileExistsErr), s)
  CopyDir := fun _ _ s => (m.expectedCopyDirErr, s)
  DeleteDir := fun _ s => (m.expectedDeleteDirErr, s)
  WriteFile := fun _ _ _ s => (m.expectedWriteFileErr, s)
  CreateSymlink := fun _ _ s => (m.expectedCreateSymlinkErr, s)
  GenerateIcons := fun _ _ _ s => (m.expectedGenerateIconsErr, s)
  GenerateIconSet := fun _ _ s => (m.expectedGenerateIconSetErr, s)
  CreateDMG := fun _ _ _ _ _ s => (m.expectedCreateDMGErr, s)
  MoundDMG := fun _ _ s => (m.expectedMountDMGErr, s)
  UnmountDMG := fun _ s => (m.expectedUnmountDMGErr, s)
  ConvertDMG := fun _ _ s => (m.expectedConvertDMGErr, s)

/-- Go `os.ErrPermission`, whose message is `permission denied`. -/
def ErrPermission : GoError := ⟨"permission denied", false⟩

/-- The parameters of the happy path of `TestCreate`. -/
def testParams : CreateParams :=
  ⟨"testAppName", "testAppBinaryPath", "testBundleIdentifier", "testIconPath", "outputDir"⟩

end dmg

/-! ## Package hdiutil: the driver of the disk-image utility -/

namespace os

/-- Go `os.IsNotExist`: false of `nil`, and of an error exactly when the
error reports that a file or directory does not exist. -/
def IsNotExist : Option GoError → Bool
  | none => false
  | some e => e.notExist

/-- Go `os.ErrNotExist`. -/
def ErrNotExist : GoError := ⟨"file does not exist", true⟩

end os

namespace retry

/-- The linear backoff strategy of the retry package: the initial delay and
the increment in milliseconds, and the maximum number of attempts. -/
structure LinearBackoff where
  initialDelay : Nat
  increment : Nat
  maxAttempts : Nat
deriving DecidableEq, Repr

/-- The constructor `retry.NewLinearBackoff`. -/
def NewLinearBackoff (initialDelay increment maxAttempts : Nat) : LinearBackoff :=
  ⟨initialDelay, increment, maxAttempts⟩

/-- Modelled from the spec: the delay of the linear backoff after the failed
attempt number `attempt`, counted from 1: the initial delay after the
first attempt, and the increment more after each further one. -/
def LinearBackoff.delay (b : LinearBackoff) (attempt : Nat) : Nat :=
  b.initialDelay + (attempt - 1) * b.increment

/-- Modelled from the spec: the attempts of `Do`. `fn` is run; a `nil`
result ends the loop with success; an error is returned when no attempt is
left, and otherwise the loop sleeps for the delay of the strategy and
retries (`more` attempts are left). `attempts` counts the runs of `fn`; `sleep` is the sleep of the
world the loop runs in. -/
def doLoop {σ ε : Type} (sleep : Nat → Eff σ ε Unit) (strategy : LinearBackoff)
    (fn : Eff σ ε (Option GoError)) : Nat → Nat → Eff σ ε (Nat × Option GoError)
  | 0, attempts => do
    match ← fn with
    | none => pure (attempts, none)
    | some err => pure (attempts, some err)
  | more + 1, attempts => do
    match ← fn with
    | none => pure (attempts, none)
    | some _ => do
      sleep (strategy.delay attempts)
      doLoop sleep strategy fn more (attempts + 1)

/-- Modelled from the spec: the package `github.com/tiagomelo/go-retry` is
not among the sources. `Do` is the bounded poll of the spec, with a
sleep-based backoff: it runs `fn` until it returns `nil`, at most
`maxAttempts` times, sleeps between two attempts for the delay of the
strategy, and returns the number of runs and the last error. -/
def Do {σ ε : Type} (sleep : Nat → Eff σ ε Unit) (fn : Eff σ ε (Option GoError))
    (strategy : LinearBackoff) : Eff σ ε (Nat × Option GoError) :=
  doLoop sleep strategy fn (strategy.maxAttempts - 1) 1

end retry

namespace hdiutil

/-- What `os.Stat` reports of an existing entry. -/
structure FileInfo where
  name : String
  isDir : Bool
deriving DecidableEq, Repr

/-- A call of package `hdiutil` to the operating system: an external
command through `osCommandExecutorProvider`, `osStat`, or the sleep of
the retry package between two polls, in milliseconds. -/
inductive OsCall where
  | ExecCommand (name : String) (arg : List String)
  | osStat (name : String)
  | timeSleep (ms : Nat)
deriving DecidableEq, Repr

/-- A logged call to the operating system and the error it returned. -/
structure OsEvent where
  call : OsCall
  err : Option GoError
deriving DecidableEq, Repr

/-- The operating system as package `hdiutil` sees it: the two swappable
variables `osCommandExecutorProvider` and `osStat`, and `timeSleep`, the
passing of the time the retry package sleeps between two polls. -/
structure Os (σ : Type) where
  ExecCommand : String → List String → σ → (String × Option GoError) × σ
  osStat : String → σ → (Option FileInfo × Option GoError) × σ
  timeSleep : Nat → σ → σ

variable {σ : Type}

/-- The logged call `osCommandExecutorProvider.ExecCommand(name, arg...)`. -/
def Os.execCommand (O : Os σ) (name : String) (arg : List String) :
    Eff σ OsEvent (String × Option GoError) :=
  fun s =>
    ⟨(O.ExecCommand name arg s).1, (O.ExecCommand name arg s).2,
      [⟨.ExecCommand name arg, (O.ExecCommand name arg s).1.2⟩]⟩

/-- The logged call `osStat(name)`. -/
def Os.stat (O : Os σ) (name : String) : Eff σ OsEvent (Option FileInfo × Option GoError) :=
  fun s => ⟨(O.osStat name s).1, (O.osStat name s).2, [⟨.osStat name, (O.osStat name s).1.2⟩]⟩

/-- Modelled from the spec: the sleep of the sleep-based backoff of the poll
loop, logged with its length of `ms` milliseconds. -/
def Os.sleep (O : Os σ) (ms : Nat) : Eff σ OsEvent Unit :=
  fun s => ⟨(), O.timeSleep ms s, [⟨.timeSleep ms, none⟩]⟩

/-- The function `CreateDMG`: creates a dmg file. -/
def CreateDMG (O : Os σ) (size fs volName layout output : String) :
    Eff σ OsEvent (Option GoError) := do
  match ← O.execCommand "hdiutil"
      ["create", "-size", size, "-fs", fs, "-volname", volName, "-layout", layout, "-o", output] with
  | (_, some err) => pure (some (errors.Wrap err ("error when creating dmg with name " ++ volName)))
  | (_, none) => pure none

/-- The function `MountDMG`: mounts a dmg file; the image is mounted at
`/Volumes/volName`. -/
def MountDMG (O : Os σ) (dmgVolName dmgPath : String) : Eff σ OsEvent (Option GoError) := do
  match ← O.execCommand "hdiutil" ["attach", dmgPath] with
  | (_, some err) => pure (some (errors.Wrap err ("error when attaching dmg with name " ++ dmgPath)))
  | (_, none) =>
    let dmgVolName := "/Volumes/" ++ dmgVolName
    let linearBackoffStrategy := retry.NewLinearBackoff 100 1000 10
    let fn : Eff σ OsEvent (Option GoError) := do
      match ← O.stat dmgVolName with
      | (_, some err) => pure (some err)
      | (_, none) => pure none
    match ← retry.Do O.sleep fn linearBackoffStrategy with
    | (_, some err) =>
      pure (some (errors.Wrap err ("error when waiting for volume " ++ dmgPath ++ " to be mounted")))
    | (_, none) => pure none

/-- The function `UnmountDMG`: unmounts a dmg file that was previously
attached to `/Volumes/volName`. The polled function returns `nil` when
`os.IsNotExist` holds of the error of `osStat`, and that error otherwise. -/
def UnmountDMG (O : Os σ) (volName : String) : Eff σ OsEvent (Option GoError) := do
  match ← O.execCommand "hdiutil" ["detach", volName] with
  | (_, some err) => pure (some (errors.Wrap err ("error when detaching dmg with name " ++ volName)))
  | (_, none) =>
    let strategy := retry.NewLinearBackoff 100 1000 10
    let fn : Eff σ OsEvent (Option GoError) := do
      let (_, err) ← O.stat volName
      if os.IsNotExist err then pure none else pure err
    match ← retry.Do O.sleep fn strategy with
    | (_, some err) =>
      pure (some (errors.Wrap err ("error when waiting for volume " ++ volName ++ " to be unmounted")))
    | (_, none) => pure none

/-- The function `ConvertDMG`: converts a dmg file to the compressed format. -/
def ConvertDMG (O : Os σ) (dmgPath dmgOutputFileName : String) : Eff σ OsEvent (Option GoError) := do
  match ← O.execCommand "hdiutil" ["convert", dmgPath, "-format", "UDZO", "-o", dmgOutputFileName] with
  | (_, some err) => pure (some (errors.Wrap err ("error when converting dmg file " ++ dmgPath)))
  | (_, none) => pure none

/-- The mocks of hdiutil_test.go: the command returns the configured error
and `osStat` the configured result, whatever their arguments. -/
def mockOs (execErr : Option GoError) (statResult : Option FileInfo × Option GoError) : Os Unit where
  ExecCommand := fun _ _ s => (("", execErr), s)
  osStat := fun _ s => (statResult, s)
  timeSleep := fun _ s => s

end hdiutil

/-! ## Notions used to state the properties -/

namespace filepath

/-- A real path element: not empty, not `.` and not `..`, without separator. -/
def RealElem (e : List Char) : Prop :=
  '/' ∉ e ∧ e ≠ [] ∧ e ≠ ['.'] ∧ e ≠ ['.', '.']

/-- A list of characters that is empty or ends in a separator. -/
def DirPrefix (x : List Char) : Prop := x = [] ∨ ∃ y, x = y ++ ['/']

end filepath

namespace dmg

/-- An application name without path separator and not empty. -/
def PlainName (n : String) : Prop := n ≠ "" ∧ '/' ∉ n.data

/-- The log `l` follows the script `cs` and stops at its first failing
call: its calls are the first calls of the script, no call but the last one
failed, on a failed run the last call failed while a run that did not fail
made every call of the script, and only the existence check reports a file. -/
def Stops (cs : List Call) (l : List Event) (failed : Bool) : Prop :=
  l.map Event.call <+: cs ∧ (∀ e ∈ l.dropLast, e.failed = false) ∧
    (if failed then ∃ e, l.getLast? = some e ∧ e.failed = true
     else l.map Event.call = cs ∧ ∀ e ∈ l, e.failed = false) ∧
    (∀ e ∈ l, e.found = true → e.call.op = .FileExists)

/-- The order of the calls of `createAppDmg`. -/
def pipelineOps : List Op :=
  [.FileExists, .CreateDMG, .MoundDMG, .CreateSymlink, .CopyDir, .UnmountDMG, .ConvertDMG]

/-- The calls of `createAppBundle`, in order. -/
def bundleCalls (appName appBinaryPath iconPath bundleIdentifier outputDir : String) : List Call :=
  [.MkdirAll (filepath.Join [outputDir, appName ++ ".app"]) os.ModePerm,
   .MkdirAll (filepath.Join [outputDir, iconSetDir]) os.ModePerm,
   .MkdirAll (filepath.Join [outputDir, appName ++ ".app", macOsDir]) os.ModePerm,
   .MkdirAll (filepath.Join [outputDir, appName ++ ".app", resourcesDir]) os.ModePerm,
   .GenerateIcons iconPath (filepath.Join [outputDir, iconSetDir]) [16, 32, 64, 128, 256, 512, 1024],
   .GenerateIconSet (filepath.Join [outputDir, iconSetDir])
     (filepath.Join [outputDir, appName ++ ".app", resourcesDir]),
   .CopyFile appBinaryPath (filepath.Join [filepath.Join [outputDir, appName ++ ".app"], macOsDir]),
   .WriteFile
     (filepath.Join [filepath.Join [outputDir, appName ++ ".app", contentsDir], "Info.plist"])
     (strings.Replace
       (strings.Replace infoPlistTpl "\x7b\x7b.AppName\x7d\x7d" (filepath.Base appBinaryPath) (-1))
       "\x7b\x7b.BundleIdentifier\x7d\x7d" bundleIdentifier (-1))
     os.ModePerm]

/-- The calls of `createAppDmg`, in order. -/
def dmgCalls (appBundlePath tmpWorkDir outputDir : String) : List Call :=
  [.FileExists
     (filepath.Join [outputDir, strings.TrimSuffix (filepath.Base appBundlePath) ".app" ++ ".dmg"]),
   .CreateDMG "100m" "APFS" (strings.TrimSuffix (filepath.Base appBundlePath) ".app") "GPTSPUD"
     (filepath.Join
       [tmpWorkDir, strings.TrimSuffix (filepath.Base appBundlePath) ".app" ++ "-template.dmg"]),
   .MoundDMG (strings.TrimSuffix (filepath.Base appBundlePath) ".app")
     (filepath.Join
       [tmpWorkDir, strings.TrimSuffix (filepath.Base appBundlePath) ".app" ++ "-template.dmg"]),
   .CreateSymlink "/Applications"
     ("/Volumes/" ++ strings.TrimSuffix (filepath.Base appBundlePath) ".app"),
   .CopyDir appBundlePath ("/Volumes/" ++ strings.TrimSuffix (filepath.Base appBundlePath) ".app"),
   .UnmountDMG ("/Volumes/" ++ strings.TrimSuffix (filepath.Base appBundlePath) ".app"),
   .ConvertDMG
     (filepath.Join
       [tmpWorkDir, strings.TrimSuffix (filepath.Base appBundlePath) ".app" ++ "-template.dmg"])
     (filepath.Join
       [outputDir, filepath.Base (strings.TrimSuffix appBundlePath ".app") ++ ".dmg"])]

/-- Whether a function that returns a path and an error failed. -/
def failedV (r : String × Option GoError) : Bool := r.2.isSome

end dmg

/-! ## Inputs of the tests and of the counterexamples -/

namespace dmg

/-- The mock of the happy paths: every method succeeds and no file exists. -/
def happy : Mock := {}

/-- The mock of the test case `error setting up DMG template`: creating
the symlink fails. -/
def symlinkFails : Mock := { expectedCreateSymlinkErr := some ErrPermission }

/-- The mock of the test case `error mounting DMG template`: the attach
fails. -/
def mountFails : Mock := { expectedMountDMGErr := some ErrPermission }

/-- A mock whose existence check reports that the file exists. -/
def artifactExists : Mock := { expectedFileExists := true }

/-- A mock whose `DeleteDir` fails. -/
def deleteFails : Mock := { expectedDeleteDirErr := some ErrPermission }

/-- The mock of the test case `error when creating app bundle`: rendering
the icons fails. -/
def iconsFail : Mock := { expectedGenerateIconsErr := some ErrPermission }

/-- The parameters of the test case `error when validating input
parameters`: the application name is missing. -/
def missingName : CreateParams := { testParams with AppName := "" }

/-- Parameters whose application name holds a path separator. -/
def nestedName : CreateParams := { testParams with AppName := "a/b" }

/-- Providers for which exactly the file at `p` exists and every other
method succeeds. -/
def existsAt (p : String) : Providers Unit :=
  { happy.providers with FileExists := fun path s => ((decide (path = p), none), s) }

end dmg

namespace strings

/-- Go `strings.HasPrefix`. -/
def HasPrefix (s pre : String) : Bool := pre.data.isPrefixOf s.data

end strings

namespace filepath

/-- Go `filepath.IsAbs` (Unix): a path is absolute when it begins with the
separator. -/
def IsAbs (path : String) : Bool := strings.HasPrefix path "/"

/-- The path element `..`. -/
def dotdot : List Char := ['.', '.']

/-- The elements of a cleaned path: none is empty, holds a separator or is
`.`, and the elements `..` come first; a rooted path has none of them. -/
def NormElems (rooted : Bool) (l : List (List Char)) : Prop :=
  (∀ e ∈ l, e ≠ [] ∧ '/' ∉ e ∧ e ≠ ['.']) ∧
    ∃ k reals, l = List.replicate k dotdot ++ reals ∧ dotdot ∉ reals ∧ (rooted = true → k = 0)

/-- A path whose cleaned form has at least one element. -/
def Solid (p : List Char) : Prop :=
  ∃ c rest, p = c :: rest ∧ cleanElems (decide (c = '/')) (splitSep p) ≠ []

end filepath

namespace filepath

/-- The elements written one after the other, each behind a separator. -/
def sepJoin : List (List Char) → List Char
  | [] => []
  | f :: rest => '/' :: f ++ sepJoin rest

end filepath

namespace filepath

/-- A path that is the cleaned form of a path with at least one element. -/
def Cleaned (j : String) : Prop := ∃ p, Solid p ∧ j.data = cleanChars p

end filepath

namespace dmg

/-- Parameters whose application name ends in a path separator. -/
def trailingSep : CreateParams := { testParams with AppName := "a/" }

/-- The parameters of the happy path with an absolute output directory. -/
def absoluteOut : CreateParams := { testParams with OutputDir := "/out" }

end dmg

namespace hdiutil
variable {σ : Type}

/-- The function literal that `MountDMG` hands to `retry.Do`: one `osStat`
of the volume, of which only the error is kept. -/
def mountedPoll (O : Os σ) (dmgVolName : String) : Eff σ OsEvent (Option GoError) := do
  match ← O.stat dmgVolName with
  | (_, some err) => pure (some err)
  | (_, none) => pure none

end hdiutil

/-! ## Packages fs, sips and iconutil: the drivers of the other tools -/

namespace fs

/-- The function `FileExists`: checks if a file exists. `osStat` is the
swappable variable of the package. A `nil` error together with a `nil`
info makes `info.IsDir()` dereference `nil`: the result is `none`. -/
def FileExists (osStat : String → Option hdiutil.FileInfo × Option GoError) (path : String) :
    Option (Bool × Option GoError) :=
  match osStat path with
  | (_, some err) =>
    if os.IsNotExist (some err) then some (false, none)
    else some (false, some (errors.Wrap err ("error when checking if [" ++ path ++ "] exists")))
  | (some info, none) =>
    if info.isDir then some (false, some (errors.New ("[" ++ path ++ "] is a directory, not a file")))
    else some (true, none)
  | (none, none) => none

end fs

namespace fmt

/-- The verb `%d` of `fmt.Sprintf` at an `int`: the decimal digits, after a
minus sign when the number is negative. -/
def d : Int → String
  | .ofNat n => Nat.repr n
  | .negSucc n => "-" ++ Nat.repr (n + 1)

end fmt

namespace syscall

/-- A logged external command and the error it returned. -/
structure ExecEvent where
  name : String
  arg : List String
  err : Option GoError
deriving DecidableEq, Repr

/-- The interface `osCommandExecutor` of the packages `sips` and
`iconutil`: the method `ExecCommand(name, arg...)` over a world `σ`. -/
def Executor (σ : Type) : Type := String → List String → σ → (String × Option GoError) × σ

/-- The logged call `osCommandExecutorProvider.ExecCommand(name, arg...)`. -/
def Executor.run {σ : Type} (X : Executor σ) (name : String) (arg : List String) :
    Eff σ ExecEvent (String × Option GoError) :=
  fun s => ⟨(X name arg s).1, (X name arg s).2, [⟨name, arg, (X name arg s).1.2⟩]⟩

/-- The mock executor of sips_test.go and iconutil_test.go: every command
returns the configured error. -/
def mockOsCommandExecutor (err : Option GoError) : Executor Unit :=
  fun _ _ s => (("", err), s)

end syscall

namespace sips
variable {σ : Type}

/-- The function `GenerateIcons`: generates icons with the specified sizes.
The loop over `sizes` returns at the first command that fails. -/
def GenerateIcons (X : syscall.Executor σ) (iconPath outputDir : String) :
    List Int → Eff σ syscall.ExecEvent (Option GoError)
  | [] => pure none
  | size :: sizes => do
    match ← X.run "sips" ["-z", fmt.d size, fmt.d size, iconPath, "--out",
        outputDir ++ "/icon_" ++ fmt.d size ++ "x" ++ fmt.d size ++ ".png"] with
    | (_, some err) =>
      pure (some (errors.Wrap err ("error when generating icon with size " ++ fmt.d size)))
    | (_, none) => GenerateIcons X iconPath outputDir sizes

end sips

namespace iconutil
variable {σ : Type}

/-- The function `GenerateIconSet`: generates an icon set from the
specified icons directory. -/
def GenerateIconSet (X : syscall.Executor σ) (iconsDir outputDir : String) :
    Eff σ syscall.ExecEvent (Option GoError) := do
  let outputDir := outputDir ++ "/icon.icns"
  match ← X.run "iconutil" ["-c", "icns", "-o", outputDir, iconsDir] with
  | (_, some err) => pure (some (errors.Wrap err "error when generating icon set"))
  | (_, none) => pure none

end iconutil

namespace sips

/-- The arguments of the `sips` command for one size. -/
def sipsArgs (iconPath outputDir : String) (size : Int) : List String :=
  ["-z", fmt.d size, fmt.d size, iconPath, "--out",
    outputDir ++ "/icon_" ++ fmt.d size ++ "x" ++ fmt.d size ++ ".png"]

/-- The executor that fails from the command of the given size on. -/
def failsAt (size : Int) : syscall.Executor Unit :=
  fun _ arg s => (("", if arg.get? 1 = some (fmt.d size) then some ⟨"some error", false⟩ else none), s)

end sips

namespace strings

/-- Go `strings.Contains`: whether `substr` is within `s`. -/
def Contains (s substr : String) : Bool :=
  s.data.tails.any (fun t => substr.data.isPrefixOf t)

end strings

namespace dmg

/-- The text of `infoPlistTpl` before the token of the executable name. -/
def plistPrefix : String :=
  "<?xml version=\"1.0\" encoding=\"UTF-8\"?>\n" ++
  "<!DOCTYPE plist PUBLIC \"-//Apple//DTD PLIST 1.0//EN\" \"http://www.apple.com/DTDs/PropertyList-1.0.dtd\">\n" ++
  "<plist version=\"1.0\">\n" ++
  "<dict>\n" ++
  "\t<key>CFBundleExecutable</key>\n" ++
  "\t<string>"

/-- The text of `infoPlistTpl` between its two tokens. -/
def plistMiddle : String :=
  "</string>\n" ++
  "\t<key>CFBundleIconFile</key>\n" ++
  "\t<string>icon.icns</string>\n" ++
  "\t<key>CFBundleIdentifier</key>\n" ++
  "\t<string>"

/-- The text of `infoPlistTpl` after the token of the bundle identifier. -/
def plistSuffix : String :=
  "</string>\n" ++
  "\t<key>NSHighResolutionCapable</key>\n" ++
  "\t<true/>\n" ++
  "\t<key>LSUIElement</key>\n" ++
  "\t<true/>\n" ++
  "</dict>\n" ++
  "</plist>\n"

end dmg

namespace dmg

/-- The result `v` blames the log `l`: whenever a call of `l` returned an
error, `v` is an error whose message ends with the message of that error. -/
def Blames (l : List Event) (v : Option GoError) : Prop :=
  ∀ e ∈ l, ∀ cause, e.err = some cause →
    ∃ r, v = some r ∧ strings.HasSuffix r.msg cause.msg = true

/-- The four messages with which `Create` wraps an error, each followed by
the separator of `errors.Wrap`. -/
def stagePrefixes : List String :=
  ["error when validating input parameters: ",
   "error when creating temp working directory: ",
   "error when creating app bundle: ",
   "error when creating app DMG: "]

end dmg

/-! ## Packages syscall and gui -/

namespace fmt

/-- The verb `%v` of `fmt.Sprintf` at a `[]string`: the elements between
brackets, separated by one blank. -/
def vStrings (a : List String) : String := "[" ++ strings.Join a " " ++ "]"

end fmt

namespace syscall

/-- The function `ExecCommand`: executes a command with arguments.
`execCommand` is the swappable variable of the package; it returns the
combined output of the command and an error. -/
def ExecCommand (execCommand : String → List String → String × Option GoError)
    (cmd : String) (args : List String) : String × Option GoError :=
  match execCommand cmd args with
  | (output, some err) =>
    ("", some (errors.Wrap err
      ("error when executing command [" ++ cmd ++ "] with args " ++ fmt.vStrings args ++
        ": output: [" ++ output ++ "]")))
  | (output, none) => (output, none)

end syscall

namespace gui

/-- The validator `notEmpty`: checks if the input string is empty. -/
def notEmpty (s : String) : Option GoError :=
  if s = "" then some (errors.New "cannot be blank") else none

/-- The validator `noSpaces`: checks that the input does not contain any
space characters. -/
def noSpaces (input : String) : Option GoError :=
  if strings.Contains input " " then some (errors.New "cannot contain spaces")
  else notEmpty input

/-- The validator `optionalNoSpaces`: an empty input is allowed; any other
input goes through `noSpaces`. -/
def optionalNoSpaces (input : String) : Option GoError :=
  if input = "" then none else noSpaces input

end gui

namespace validate

/-- The rendering of a `FieldErrors` value in the words of the
specification: the entries written as `Field: Error` and joined by `; `. -/
def FieldErrors.joined (fe : FieldErrors) : String :=
  strings.Join (fe.map (fun f => f.Field ++ ": " ++ f.Error)) "; "

end validate

namespace hdiutil
variable {σ : Type}

/-- The function literal that `UnmountDMG` hands to `retry.Do`: one
`osStat` of the volume; a not-exist error counts as success. -/
def unmountedPoll (O : Os σ) (volName : String) : Eff σ OsEvent (Option GoError) := do
  let (_, err) ← O.stat volName
  if os.IsNotExist err then pure none else pure err

/-- Whether a call to the operating system is an external command. -/
def OsCall.isExec : OsCall → Bool
  | .ExecCommand _ _ => true
  | .osStat _ => false
  | .timeSleep _ => false

/-- The calls of a poll loop in which every `osStat` of `name` fails, with
`more` attempts left after attempt number `attempt`: one `osStat` for each
attempt, and between two of them the sleep of the strategy. -/
def pollCalls (name : String) (strategy : retry.LinearBackoff) : Nat → Nat → List OsCall
  | 0, _ => [.osStat name]
  | more + 1, attempt =>
    .osStat name :: .timeSleep (strategy.delay attempt) ::
      pollCalls name strategy more (attempt + 1)

end hdiutil

namespace dmg

/-- The parameters of `TestCreate` with another application name. -/
def otherName : CreateParams := { testParams with AppName := "otherApp" }

end dmg

namespace dmg

/-- The message with which `createAppBundle` wraps the error of the step
that makes a call of the given method. -/
def bundleStepLabel : Op → String
  | .MkdirAll => "error when creating app bundle directories"
  | .GenerateIcons => "error when creating icon set"
  | .GenerateIconSet => "error when creating icon set"
  | .CopyFile => "error when copying app binary"
  | .WriteFile => "error when creating Info.plist file"
  | _ => ""

/-- A mock whose `CopyFile` fails, as in the test case `error when copying
app binary`. -/
def copyFileFails : Mock := { expectedCopyFileErr := some ErrPermission }

end dmg

namespace xml

/-- An item of the text of an XML document: a tag, with the text between
`<` and `>`, a run of character data, or a comment, with the text between
`<!--` and `-->`. -/
inductive Item where
  | tag (s : String)
  | chars (s : String)
  | comment (s : String)
deriving DecidableEq, Repr

/-- What the scan of a document is inside of. -/
inductive Mode where
  | chars
  | tag
  | comment
deriving DecidableEq, Repr

/-- The item of a run of character data, none for an empty run. -/
def charData (run : List Char) : List Item :=
  if run = [] then [] else [.chars ⟨run⟩]

/-- The items of a text, read from left to right; `acc` holds, last
character first, the characters of the item being read. Character data
ends at `<`, a tag at `>`, and a tag that begins with `!--` is a comment,
which ends at the first `-->`. Quoted attribute values and CDATA sections
are not told apart from the text of a tag. -/
def scan : Mode → List Char → List Char → List Item
  | .chars, acc, [] => charData acc.reverse
  | .chars, acc, c :: cs =>
    if c = '<' then charData acc.reverse ++ scan .tag [] cs else scan .chars (c :: acc) cs
  | .tag, acc, [] => [.tag ⟨acc.reverse⟩]
  | .tag, acc, c :: cs =>
    if c = '>' then .tag ⟨acc.reverse⟩ :: scan .chars [] cs
    else if c :: acc = ['-', '-', '!'] then scan .comment [] cs
    else scan .tag (c :: acc) cs
  | .comment, acc, [] => [.comment ⟨acc.reverse⟩]
  | .comment, acc, c :: cs =>
    if c = '>' ∧ acc.take 2 = ['-', '-'] then
      .comment ⟨(acc.drop 2).reverse⟩ :: scan .chars [] cs
    else scan .comment (c :: acc) cs

/-- The items of a document. -/
def items (s : String) : List Item := scan .chars [] s.data

end xml

/-! # Properties -/

/-! ## The path functions on the cases of the Go test tables -/

namespace filepath

/-- The model of `Clean` on cases of Go's own test table. -/
theorem Clean_table :
    [Clean "abc", Clean "abc/def", Clean ".", Clean "..", Clean "../..", Clean "../../abc",
      Clean "/abc", Clean "/", Clean "", Clean "abc/", Clean "a/b/c/", Clean "./", Clean "../",
      Clean "../../", Clean "/abc/", Clean "abc//def//ghi", Clean "abc//", Clean "abc/./def",
      Clean "/./abc/def", Clean "abc/.", Clean "abc/def/ghi/../jkl", Clean "abc/def/../ghi/../jkl",
      Clean "abc/def/..", Clean "abc/def/../..", Clean "/abc/def/../..", Clean "abc/def/../../..",
      Clean "/abc/def/../../..", Clean "abc/def/../../../ghi/jkl/../../../mno", Clean "/../abc",
      Clean "a/../b:/../../c", Clean "abc/./../def", Clean "abc//./../def",
      Clean "abc/../../././../def", Clean "//abc", Clean "///abc", Clean "//abc//"] =
    ["abc", "abc/def", ".", "..", "../..", "../../abc",
      "/abc", "/", ".", "abc", "a/b/c", ".", "..",
      "../..", "/abc", "abc/def/ghi", "abc", "abc/def",
      "/abc/def", "abc", "abc/def/jkl", "abc/jkl",
      "abc", ".", "/", "..",
      "/", "../../mno", "/abc",
      "../c", "def", "def",
      "../../def", "/abc", "/abc", "/abc"] := by
  decide

/-- The model of `Join` on cases of Go's own test table. -/
theorem Join_table :
    [Join [], Join [""], Join ["/"], Join ["a"], Join ["a", "b"], Join ["a", ""], Join ["", "b"],
      Join ["/", "a"], Join ["/", "a/b"], Join ["/", ""], Join ["/a", "b"], Join ["a", "/b"],
      Join ["/a", "/b"], Join ["a/", "b"], Join ["a/", ""], Join ["", ""], Join ["/", "a", "b"],
      Join ["//", "a"]] =
    ["", "", "/", "a", "a/b", "a", "b",
      "/a", "/a/b", "/", "/a/b", "a/b",
      "/a/b", "a/b", "a", "", "/a/b",
      "/a"] := by
  decide

/-- The model of `Base` on cases of Go's own test table. -/
theorem Base_table :
    [Base "", Base ".", Base "/.", Base "/", Base "////", Base "x/", Base "abc", Base "abc/def",
      Base "a/b/.x", Base "a/b/c.", Base "a/b/c.x"] =
    [".", ".", ".", "/", "/", "x", "abc", "def", ".x", "c.", "c.x"] := by
  decide

end filepath

/-! ## Lemmas on the path functions -/

namespace filepath

theorem splitSep_ne_nil (p : List Char) : splitSep p ≠ [] := by
  cases p with
  | nil => simp [splitSep]
  | cons c cs =>
    unfold splitSep
    split
    · simp
    · split <;> simp

theorem splitSep_of_no_sep (e : List Char) (h : '/' ∉ e) : splitSep e = [e] := by
  induction e with
  | nil => rfl
  | cons c cs ih =>
    have hc : c ≠ '/' := fun hc => h (by simp [hc])
    have hcs : '/' ∉ cs := fun hcs => h (by simp [hcs])
    simp [splitSep, hc, ih hcs]

theorem splitSep_append_sep (a b : List Char) :
    splitSep (a ++ '/' :: b) = splitSep a ++ splitSep b := by
  induction a with
  | nil => simp [splitSep]
  | cons c cs ih =>
    by_cases hc : c = '/'
    · simp [splitSep, hc, ih]
    · simp only [List.cons_append, splitSep, hc, if_false, ih]
      cases hs : splitSep cs with
      | nil => exact absurd hs (splitSep_ne_nil cs)
      | cons h t => simp [ih, hs]

theorem joinSep_append_singleton (ys : List (List Char)) (e : List Char) :
    joinSep (ys ++ [e]) = if ys = [] then e else joinSep ys ++ '/' :: e := by
  induction ys with
  | nil => simp [joinSep]
  | cons y rest ih =>
    cases rest with
    | nil => simp [joinSep]
    | cons z zs =>
      simp only [List.cons_append, joinSep, reduceCtorEq, if_false] at ih ⊢
      simp [ih]

theorem cleanStep_real (rooted : Bool) (out : List (List Char)) (e : List Char)
    (h : RealElem e) : cleanStep rooted out e = out ++ [e] := by
  obtain ⟨_, h1, h2, h3⟩ := h
  simp [cleanStep, h1, h2, h3]

theorem cleanChars_append_real (t e : List Char) (h : RealElem e) :
    ∃ x, DirPrefix x ∧ cleanChars (t ++ '/' :: e) = x ++ e := by
  have hsplit : splitSep (t ++ '/' :: e) = splitSep t ++ [e] := by
    rw [splitSep_append_sep, splitSep_of_no_sep e h.1]
  have hne : e ≠ [] := h.2.1
  cases hp : t ++ '/' :: e with
  | nil => simp at hp
  | cons c rest =>
    rw [← hp]
    have hclean : ∀ r, cleanElems r (splitSep (t ++ '/' :: e)) = cleanElems r (splitSep t) ++ [e] := by
      intro r
      rw [hsplit]
      simp [cleanElems, List.foldl_append, cleanStep_real _ _ _ h]
    have hunf : cleanChars (t ++ '/' :: e) =
        (let rooted : Bool := c = '/'
         let body := joinSep (cleanElems rooted (splitSep (t ++ '/' :: e)))
         let out := if rooted then '/' :: body else body
         if out = [] then ['.'] else out) := by
      rw [hp]; rfl
    rw [hunf]
    simp only [hclean, joinSep_append_singleton]
    by_cases hr : c = '/'
    · by_cases hy : cleanElems true (splitSep t) = []
      · refine ⟨['/'], Or.inr ⟨[], rfl⟩, ?_⟩
        simp [hr, hy]
      · refine ⟨'/' :: joinSep (cleanElems true (splitSep t)) ++ ['/'], Or.inr ⟨_, rfl⟩, ?_⟩
        simp [hr, hy]
    · by_cases hy : cleanElems false (splitSep t) = []
      · refine ⟨[], Or.inl rfl, ?_⟩
        simp [hr, hy, hne]
      · refine ⟨joinSep (cleanElems false (splitSep t)) ++ ['/'], Or.inr ⟨_, rfl⟩, ?_⟩
        simp [hr, hy]

theorem cleanChars_real (e : List Char) (h : RealElem e) : cleanChars e = e := by
  obtain ⟨h0, h1, h2, h3⟩ := h
  cases e with
  | nil => exact absurd rfl h1
  | cons c cs =>
    have hc : c ≠ '/' := fun hc => h0 (by simp [hc])
    have hs := splitSep_of_no_sep (c :: cs) h0
    simp [cleanChars, hc, hs, cleanElems, cleanStep, h2, h3, joinSep]

theorem lastElem_dir_append (x e : List Char) (hx : DirPrefix x) (he : '/' ∉ e) :
    lastElem (x ++ e) = e := by
  have hall : ∀ c ∈ e.reverse, (decide (c ≠ '/')) = true := by
    intro c hc
    have : c ∈ e := by simpa using hc
    simp only [decide_eq_true_eq]
    intro h
    exact he (h ▸ this)
  have htake : e.reverse.takeWhile (fun c => decide (c ≠ '/')) = e.reverse :=
    List.takeWhile_eq_self_iff.mpr hall
  rcases hx with rfl | ⟨y, rfl⟩
  · unfold lastElem
    rw [List.nil_append, htake, List.reverse_reverse]
  · unfold lastElem
    rw [List.reverse_append, List.takeWhile_append, htake]
    simp

theorem stripTrailing_append (x e : List Char) (he : '/' ∉ e) (hne : e ≠ []) :
    stripTrailing (x ++ e) = x ++ e := by
  obtain ⟨c, cs, hrev⟩ : ∃ c cs, e.reverse = c :: cs := by
    cases h : e.reverse with
    | nil => exact absurd (List.reverse_eq_nil_iff.mp h) hne
    | cons c cs => exact ⟨c, cs, rfl⟩
  have hc : c ≠ '/' := by
    intro h
    have : c ∈ e := by
      have : c ∈ e.reverse := by simp [hrev]
      simpa using this
    exact he (h ▸ this)
  have : (x ++ e).reverse = c :: (cs ++ x.reverse) := by simp [hrev]
  unfold stripTrailing
  rw [this, List.dropWhile_cons_of_neg (by simpa using hc), ← this, List.reverse_reverse]

theorem Base_dir_append (x e : List Char) (hx : DirPrefix x) (he : '/' ∉ e) (hne : e ≠ []) :
    Base ⟨x ++ e⟩ = ⟨e⟩ := by
  have h1 : (⟨x ++ e⟩ : String) ≠ "" := by
    intro h
    have := congrArg String.data h
    simp at this
    exact hne this.2
  simp [Base, h1, stripTrailing_append x e he hne, lastElem_dir_append x e hx he, hne]

theorem Join_pair_real (t e : String) (h : RealElem e.data) :
    ∃ x, DirPrefix x ∧ (Join [t, e]).data = x ++ e.data := by
  have hne : e ≠ "" := by
    intro he
    exact h.2.1 (by simp [he])
  by_cases ht : t = ""
  · refine ⟨[], Or.inl rfl, ?_⟩
    simp [Join, ht, hne, strings.Join, Clean, cleanChars_real e.data h]
  · obtain ⟨x, hx, hc⟩ := cleanChars_append_real t.data e.data h
    refine ⟨x, hx, ?_⟩
    simp [Join, ht, strings.Join, Clean, hc]

end filepath

namespace strings

theorem TrimSuffix_append (a suffix : String) : TrimSuffix (a ++ suffix) suffix = a := by
  have h : HasSuffix (a ++ suffix) suffix = true := by
    simp [HasSuffix, List.isSuffixOf_iff_suffix]
  simp only [TrimSuffix, h, if_true]
  apply String.ext
  simp

theorem TrimSuffix_data_append (x : List Char) (a suffix : String) :
    TrimSuffix ⟨x ++ (a ++ suffix).data⟩ suffix = ⟨x ++ a.data⟩ := by
  have h : (⟨x ++ (a ++ suffix).data⟩ : String) = ⟨x ++ a.data⟩ ++ suffix := by
    apply String.ext
    simp
  rw [h, TrimSuffix_append]

end strings

namespace dmg

theorem realElem_app (n : String) (h : PlainName n) : filepath.RealElem (n ++ ".app").data := by
  obtain ⟨h1, h2⟩ := h
  refine ⟨?_, ?_, ?_, ?_⟩
  · simp only [String.data_append, List.mem_append, not_or]
    exact ⟨h2, by decide⟩
  · intro h; have := congrArg List.length h; simp at this
  · intro h; have := congrArg List.length h; simp at this
  · intro h; have := congrArg List.length h; simp at this

/-- The name under which `createAppDmg` checks the final artifact. -/
theorem dmgName_of_bundle (t n : String) (h : PlainName n) :
    strings.TrimSuffix (filepath.Base (filepath.Join [t, n ++ ".app"])) ".app" = n := by
  obtain ⟨x, hx, hj⟩ := filepath.Join_pair_real t (n ++ ".app") (realElem_app n h)
  have hb : filepath.Base (filepath.Join [t, n ++ ".app"]) = n ++ ".app" := by
    have : filepath.Join [t, n ++ ".app"] = ⟨x ++ (n ++ ".app").data⟩ := String.ext hj
    rw [this, filepath.Base_dir_append x _ hx (realElem_app n h).1 (realElem_app n h).2.1]
  rw [hb, strings.TrimSuffix_append]

/-- The name under which `convertDmg` writes the final artifact. -/
theorem convertName_of_bundle (t n : String) (h : PlainName n) :
    filepath.Base (strings.TrimSuffix (filepath.Join [t, n ++ ".app"]) ".app") = n := by
  obtain ⟨x, hx, hj⟩ := filepath.Join_pair_real t (n ++ ".app") (realElem_app n h)
  have h1 : filepath.Join [t, n ++ ".app"] = ⟨x ++ (n ++ ".app").data⟩ := String.ext hj
  have hne : n.data ≠ [] := fun hn => h.1 (String.ext hn)
  rw [h1, strings.TrimSuffix_data_append, filepath.Base_dir_append x _ hx h.2 hne]

end dmg

namespace Eff
variable {σ ε α β : Type}
@[simp] theorem pure_val (a : α) (s : σ) : ((pure a : Eff σ ε α) s).val = a := rfl
@[simp] theorem pure_st (a : α) (s : σ) : ((pure a : Eff σ ε α) s).st = s := rfl
@[simp] theorem pure_log (a : α) (s : σ) : ((pure a : Eff σ ε α) s).log = [] := rfl
@[simp] theorem bind_val (m : Eff σ ε α) (f : α → Eff σ ε β) (s : σ) :
    ((m >>= f) s).val = (f (m s).val (m s).st).val := rfl
@[simp] theorem bind_st (m : Eff σ ε α) (f : α → Eff σ ε β) (s : σ) :
    ((m >>= f) s).st = (f (m s).val (m s).st).st := rfl
@[simp] theorem bind_log (m : Eff σ ε α) (f : α → Eff σ ε β) (s : σ) :
    ((m >>= f) s).log = (m s).log ++ (f (m s).val (m s).st).log := rfl
end Eff

namespace dmg
variable {σ : Type}

@[simp] theorem perform_val (c : Call) (f : σ → Option GoError × σ) (s : σ) :
    (perform c f s).val = (f s).1 := rfl
@[simp] theorem perform_st (c : Call) (f : σ → Option GoError × σ) (s : σ) :
    (perform c f s).st = (f s).2 := rfl
@[simp] theorem perform_log (c : Call) (f : σ → Option GoError × σ) (s : σ) :
    (perform c f s).log = [⟨c, false, (f s).1⟩] := rfl
@[simp] theorem performExists_val (c : Call) (f : σ → (Bool × Option GoError) × σ) (s : σ) :
    (performExists c f s).val = (f s).1 := rfl
@[simp] theorem performExists_st (c : Call) (f : σ → (Bool × Option GoError) × σ) (s : σ) :
    (performExists c f s).st = (f s).2 := rfl
@[simp] theorem performExists_log (c : Call) (f : σ → (Bool × Option GoError) × σ) (s : σ) :
    (performExists c f s).log = [⟨c, (f s).1.1, (f s).1.2⟩] := rfl

theorem Stops.nil : Stops [] [] false := by
  simp [Stops]

theorem Stops.single (e : Event) (hf : e.found = true → e.call.op = .FileExists) :
    Stops [e.call] [e] e.failed := by
  cases h : e.failed <;> simp [Stops, h] <;> exact hf

theorem Stops.append_failed {cs1 cs2 : List Call} {l1 : List Event}
    (h : Stops cs1 l1 true) : Stops (cs1 ++ cs2) l1 true := by
  obtain ⟨h1, h2, h3, h4⟩ := h
  exact ⟨h1.trans (List.prefix_append cs1 cs2), h2, h3, h4⟩

theorem Stops.append_ok {cs1 cs2 : List Call} {l1 l2 : List Event} {b : Bool}
    (h : Stops cs1 l1 false) (k : Stops cs2 l2 b) : Stops (cs1 ++ cs2) (l1 ++ l2) b := by
  obtain ⟨_, _, h3, h4⟩ := h
  simp only [Bool.false_eq_true, if_false] at h3
  obtain ⟨hc, hok⟩ := h3
  obtain ⟨k1, k2, k3, k4⟩ := k
  refine ⟨?_, ?_, ?_, ?_⟩
  rotate_right
  · intro e he
    rcases List.mem_append.mp he with he | he
    · exact h4 e he
    · exact k4 e he
  · rw [List.map_append, hc]
    exact (List.prefix_append_right_inj cs1).mpr k1
  · intro e he
    by_cases hl : l2 = []
    · subst hl
      rw [List.append_nil] at he
      exact hok e (List.mem_of_mem_dropLast he)
    · rw [List.dropLast_append_of_ne_nil _ hl] at he
      rcases List.mem_append.mp he with he | he
      · exact hok e he
      · exact k2 e he
  · cases b with
    | true =>
      simp only [if_true] at k3 ⊢
      obtain ⟨e, he, hf⟩ := k3
      refine ⟨e, ?_, hf⟩
      rw [List.getLast?_append, he]
      rfl
    | false =>
      simp only [Bool.false_eq_true, if_false] at k3 ⊢
      refine ⟨by rw [List.map_append, hc, k3.1], ?_⟩
      intro e he
      rcases List.mem_append.mp he with he | he
      · exact hok e he
      · exact k3.2 e he

theorem Stops.ok_iff {cs : List Call} {l : List Event} {b : Bool} (h : Stops cs l b) :
    b = false ↔ ∀ e ∈ l, e.failed = false := by
  obtain ⟨_, _, h3, _⟩ := h
  cases b with
  | true =>
    simp only [if_true] at h3
    obtain ⟨e, he, hf⟩ := h3
    constructor
    · intro h; cases h
    · intro hall
      have := hall e (List.mem_of_getLast?_eq_some he)
      rw [hf] at this
      cases this
  | false =>
    simp only [Bool.false_eq_true, if_false] at h3
    simpa using h3.2

theorem Stops.call (c : Call) (found : Bool) (err : Option GoError)
    (hf : found = true → c.op = .FileExists) :
    Stops [c] [⟨c, found, err⟩] (err.isSome || found) :=
  Stops.single ⟨c, found, err⟩ hf

theorem createDirs_stops (P : Providers σ) (dirs : List String) (s : σ) :
    Stops (dirs.map (fun d => Call.MkdirAll d os.ModePerm)) (createDirs P dirs s).log
      (createDirs P dirs s).val.isSome := by
  induction dirs generalizing s with
  | nil => exact Stops.nil
  | cons d rest ih =>
    simp only [createDirs, Providers.mkdirAll, Eff.bind_log, Eff.bind_val, perform_val,
      perform_log, perform_st, List.map_cons]
    have h1 := Stops.call (.MkdirAll d os.ModePerm) false (P.MkdirAll d os.ModePerm s).1
      (by simp)
    cases hr : (P.MkdirAll d os.ModePerm s).1 with
    | some err =>
      rw [hr] at h1
      simpa using Stops.append_failed h1
    | none =>
      rw [hr] at h1
      simpa using Stops.append_ok h1 (ih (P.MkdirAll d os.ModePerm s).2)

end dmg

namespace dmg
variable {σ : Type}

/-- Sequencing of two fail-fast blocks: when the first block fails the
continuation makes no call and fails too; otherwise the continuation follows
its own script. -/
theorem Stops.seq {α β : Type} (fa : α → Bool) (fb : β → Bool)
    (m : Eff σ Event α) (k : α → Eff σ Event β) (cs1 cs2 : List Call) (s : σ)
    (h1 : Stops cs1 (m s).log (fa (m s).val))
    (h2 : fa (m s).val = true →
      (k (m s).val (m s).st).log = [] ∧ fb (k (m s).val (m s).st).val = true)
    (h3 : fa (m s).val = false →
      Stops cs2 (k (m s).val (m s).st).log (fb (k (m s).val (m s).st).val)) :
    Stops (cs1 ++ cs2) ((m >>= k) s).log (fb ((m >>= k) s).val) := by
  rw [Eff.bind_log, Eff.bind_val]
  cases hf : fa (m s).val with
  | true =>
    rw [hf] at h1
    obtain ⟨hl, hb⟩ := h2 hf
    rw [hl, hb, List.append_nil]
    exact Stops.append_failed h1
  | false =>
    rw [hf] at h1
    exact Stops.append_ok h1 (h3 hf)

/-- A block followed by a continuation that makes no call and fails
exactly when the block failed. -/
theorem Stops.map {α β : Type} (fa : α → Bool) (fb : β → Bool)
    (m : Eff σ Event α) (k : α → Eff σ Event β) (cs : List Call) (s : σ)
    (h1 : Stops cs (m s).log (fa (m s).val))
    (h2 : ∀ a s1, (k a s1).log = [] ∧ fb (k a s1).val = fa a) :
    Stops cs ((m >>= k) s).log (fb ((m >>= k) s).val) := by
  rw [Eff.bind_log, Eff.bind_val, (h2 _ _).1, (h2 _ _).2, List.append_nil]
  exact h1

theorem perform_stops (c : Call) (f : σ → Option GoError × σ) (s : σ) :
    Stops [c] (perform c f s).log (perform c f s).val.isSome := by
  simpa using Stops.call c false (f s).1 (by simp)

theorem createAppBundleDirectories_stops (P : Providers σ) (n d : String) (s : σ) :
    Stops
      [.MkdirAll (filepath.Join [d, n]) os.ModePerm,
       .MkdirAll (filepath.Join [d, iconSetDir]) os.ModePerm,
       .MkdirAll (filepath.Join [d, n, macOsDir]) os.ModePerm,
       .MkdirAll (filepath.Join [d, n, resourcesDir]) os.ModePerm]
      (createAppBundleDirectories P n d s).log (createAppBundleDirectories P n d s).val.isSome :=
  createDirs_stops P _ s

theorem createIconSet_stops (P : Providers σ) (i n d : String) (s : σ) :
    Stops
      [.GenerateIcons i (filepath.Join [d, iconSetDir]) [16, 32, 64, 128, 256, 512, 1024],
       .GenerateIconSet (filepath.Join [d, iconSetDir]) (filepath.Join [d, n, resourcesDir])]
      (createIconSet P i n d s).log (createIconSet P i n d s).val.isSome := by
  unfold createIconSet
  refine Stops.seq Option.isSome Option.isSome _ _ [_] [_] s (perform_stops _ _ s) ?_ ?_
  · intro ha
    generalize (P.generateIcons _ _ _ s).val = v at ha ⊢
    cases v <;> simp_all
  · intro ha
    generalize (P.generateIcons _ _ _ s).st = s1 at ha ⊢
    generalize (P.generateIcons _ _ _ s).val = v at ha ⊢
    cases v with
    | some e => simp at ha
    | none =>
      refine Stops.map Option.isSome Option.isSome _ _ [_] _ (perform_stops _ _ _) ?_
      intro a s1
      cases a <;> simp

theorem copyAppBinary_stops (P : Providers σ) (b d : String) (s : σ) :
    Stops [.CopyFile b (filepath.Join [d, macOsDir])]
      (copyAppBinary P b d s).log (copyAppBinary P b d s).val.isSome := by
  unfold copyAppBinary
  refine Stops.map Option.isSome Option.isSome _ _ [_] _ (perform_stops _ _ _) ?_
  intro a s1
  cases a <;> simp

theorem createInfoPlistFile_stops (P : Providers σ) (b n d i : String) (s : σ) :
    Stops
      [.WriteFile (filepath.Join [filepath.Join [d, n, contentsDir], "Info.plist"])
        (strings.Replace
          (strings.Replace infoPlistTpl "\x7b\x7b.AppName\x7d\x7d" (filepath.Base b) (-1))
          "\x7b\x7b.BundleIdentifier\x7d\x7d" i (-1))
        os.ModePerm]
      (createInfoPlistFile P b n d i s).log (createInfoPlistFile P b n d i s).val.isSome := by
  unfold createInfoPlistFile
  refine Stops.map Option.isSome Option.isSome _ _ [_] _ (perform_stops _ _ _) ?_
  intro a s1
  cases a <;> simp

theorem createAppBundle_stops (P : Providers σ) (n b i id d : String) (s : σ) :
    Stops (bundleCalls n b i id d) (createAppBundle P n b i id d s).log
      (failedV (createAppBundle P n b i id d s).val) := by
  unfold createAppBundle
  refine Stops.seq Option.isSome failedV _ _ [_, _, _, _] [_, _, _, _] s
    (createAppBundleDirectories_stops P _ d s) ?_ ?_
  · intro ha
    generalize (createAppBundleDirectories P _ d s).val = v at ha ⊢
    cases v <;> simp_all [failedV]
  · intro ha
    generalize (createAppBundleDirectories P _ d s).st = s1 at ha ⊢
    generalize (createAppBundleDirectories P _ d s).val = v at ha ⊢
    cases v with
    | some e => simp at ha
    | none =>
      refine Stops.seq Option.isSome failedV _ _ [_, _] [_, _] _
        (createIconSet_stops P i _ d _) ?_ ?_
      · intro ha
        generalize (createIconSet P i _ d _).val = v at ha ⊢
        cases v <;> simp_all [failedV]
      · intro ha
        generalize (createIconSet P i _ d _).st = s2 at ha ⊢
        generalize (createIconSet P i _ d _).val = v at ha ⊢
        cases v with
        | some e => simp at ha
        | none =>
          refine Stops.seq Option.isSome failedV _ _ [_] [_] _
            (copyAppBinary_stops P b _ _) ?_ ?_
          · intro ha
            generalize (copyAppBinary P b _ _).val = v at ha ⊢
            cases v <;> simp_all [failedV]
          · intro ha
            generalize (copyAppBinary P b _ _).st = s3 at ha ⊢
            generalize (copyAppBinary P b _ _).val = v at ha ⊢
            cases v with
            | some e => simp at ha
            | none =>
              refine Stops.map Option.isSome failedV _ _ [_] _
                (createInfoPlistFile_stops P b _ d id _) ?_
              intro a s1
              cases a <;> simp [failedV]

end dmg
namespace dmg
variable {σ : Type}

theorem createAppBundle_val (P : Providers σ) (n b i id d : String) (s : σ) :
    (createAppBundle P n b i id d s).val = (filepath.Join [d, n ++ ".app"], none) ∨
      ∃ e, (createAppBundle P n b i id d s).val = ("", some e) := by
  simp only [createAppBundle, Eff.bind_val, Eff.bind_st]
  generalize (createAppBundleDirectories P _ d s).st = s1
  generalize (createAppBundleDirectories P _ d s).val = v1
  cases v1 with
  | some e => simp
  | none =>
    simp only [Eff.bind_val, Eff.bind_st]
    generalize (createIconSet P i _ d s1).st = s2
    generalize (createIconSet P i _ d s1).val = v2
    cases v2 with
    | some e => simp
    | none =>
      simp only [Eff.bind_val, Eff.bind_st]
      generalize (copyAppBinary P b _ s2).st = s3
      generalize (copyAppBinary P b _ s2).val = v3
      cases v3 with
      | some e => simp
      | none =>
        simp only [Eff.bind_val, Eff.bind_st]
        generalize (createInfoPlistFile P b _ d id s3).val = v4
        cases v4 <;> simp

theorem checkIfFinalDMGAlreadyExists_stops (P : Providers σ) (n o : String) (s : σ) :
    Stops [.FileExists (filepath.Join [o, n ++ ".dmg"])]
      (checkIfFinalDMGAlreadyExists P n o s).log
      (checkIfFinalDMGAlreadyExists P n o s).val.isSome := by
  simp only [checkIfFinalDMGAlreadyExists, Providers.fileExists, Eff.bind_log, Eff.bind_val,
    performExists_val, performExists_log, performExists_st]
  have h := Stops.call (.FileExists (filepath.Join [o, n ++ ".dmg"]))
    (P.FileExists (filepath.Join [o, n ++ ".dmg"]) s).1.1
    (P.FileExists (filepath.Join [o, n ++ ".dmg"]) s).1.2 (fun _ => rfl)
  generalize P.FileExists (filepath.Join [o, n ++ ".dmg"]) s = r at h ⊢
  rcases r with ⟨⟨f, _ | e⟩, s1⟩
  · cases f <;> simpa using h
  · simpa using h

theorem createDMGTemplate_stops (P : Providers σ) (v d : String) (s : σ) :
    Stops [.CreateDMG "100m" "APFS" v "GPTSPUD" (filepath.Join [d, v ++ "-template.dmg"])]
      (createDMGTemplate P v d s).log (failedV (createDMGTemplate P v d s).val) := by
  unfold createDMGTemplate
  refine Stops.map Option.isSome failedV _ _ [_] _ (perform_stops _ _ _) ?_
  intro a s1
  cases a <;> simp [failedV]

theorem createDMGTemplate_val (P : Providers σ) (v d : String) (s : σ) :
    (createDMGTemplate P v d s).val = (filepath.Join [d, v ++ "-template.dmg"], none) ∨
      ∃ e, (createDMGTemplate P v d s).val = ("", some e) := by
  simp only [createDMGTemplate, Eff.bind_val, Eff.bind_st]
  generalize (P.createDMG _ _ _ _ _ s).val = r
  cases r <;> simp

theorem mountDMGTemplate_stops (P : Providers σ) (v p : String) (s : σ) :
    Stops [.MoundDMG v p] (mountDMGTemplate P v p s).log
      (failedV (mountDMGTemplate P v p s).val) := by
  unfold mountDMGTemplate
  refine Stops.map Option.isSome failedV _ _ [_] _ (perform_stops _ _ _) ?_
  intro a s1
  cases a <;> simp [failedV]

theorem mountDMGTemplate_val (P : Providers σ) (v p : String) (s : σ) :
    (mountDMGTemplate P v p s).val = ("/Volumes/" ++ v, none) ∨
      ∃ e, (mountDMGTemplate P v p s).val = ("", some e) := by
  simp only [mountDMGTemplate, Eff.bind_val, Eff.bind_st]
  generalize (P.moundDMG _ _ s).val = r
  cases r <;> simp

theorem createMacOsApplicationFolderSymlink_stops (P : Providers σ) (m : String) (s : σ) :
    Stops [.CreateSymlink "/Applications" m] (createMacOsApplicationFolderSymlink P m s).log
      (createMacOsApplicationFolderSymlink P m s).val.isSome := by
  unfold createMacOsApplicationFolderSymlink
  refine Stops.map Option.isSome Option.isSome _ _ [_] _ (perform_stops _ _ _) ?_
  intro a s1
  cases a <;> simp

theorem copyAppBundle_stops (P : Providers σ) (b m : String) (s : σ) :
    Stops [.CopyDir b m] (copyAppBundle P b m s).log (copyAppBundle P b m s).val.isSome := by
  unfold copyAppBundle
  refine Stops.map Option.isSome Option.isSome _ _ [_] _ (perform_stops _ _ _) ?_
  intro a s1
  cases a <;> simp

theorem setupDMGTemplate_stops (P : Providers σ) (m b : String) (s : σ) :
    Stops [.CreateSymlink "/Applications" m, .CopyDir b m] (setupDMGTemplate P m b s).log
      (setupDMGTemplate P m b s).val.isSome := by
  unfold setupDMGTemplate
  refine Stops.seq Option.isSome Option.isSome _ _ [_] [_] s
    (createMacOsApplicationFolderSymlink_stops P m s) ?_ ?_
  · intro ha
    generalize (createMacOsApplicationFolderSymlink P m s).val = v at ha ⊢
    cases v <;> simp_all
  · intro ha
    generalize (createMacOsApplicationFolderSymlink P m s).st = s1 at ha ⊢
    generalize (createMacOsApplicationFolderSymlink P m s).val = v at ha ⊢
    cases v with
    | some e => simp at ha
    | none =>
      refine Stops.map Option.isSome Option.isSome _ _ [_] _ (copyAppBundle_stops P b m s1) ?_
      intro a s2
      cases a <;> simp

theorem unmountDMGTemplate_stops (P : Providers σ) (m : String) (s : σ) :
    Stops [.UnmountDMG m] (unmountDMGTemplate P m s).log
      (unmountDMGTemplate P m s).val.isSome := by
  unfold unmountDMGTemplate
  refine Stops.map Option.isSome Option.isSome _ _ [_] _ (perform_stops _ _ _) ?_
  intro a s1
  cases a <;> simp

theorem convertDmg_stops (P : Providers σ) (b t o : String) (s : σ) :
    Stops
      [.ConvertDMG t
        (filepath.Join [o, filepath.Base (strings.TrimSuffix b ".app") ++ ".dmg"])]
      (convertDmg P b t o s).log (failedV (convertDmg P b t o s).val) := by
  unfold convertDmg
  refine Stops.map Option.isSome failedV _ _ [_] _ (perform_stops _ _ _) ?_
  intro a s1
  cases a <;> simp [failedV]

theorem convertDmg_val (P : Providers σ) (b t o : String) (s : σ) :
    (convertDmg P b t o s).val =
        (filepath.Join [o, filepath.Base (strings.TrimSuffix b ".app") ++ ".dmg"], none) ∨
      ∃ e, (convertDmg P b t o s).val = ("", some e) := by
  simp only [convertDmg, Eff.bind_val, Eff.bind_st]
  generalize (P.convertDMG _ _ s).val = r
  cases r <;> simp

end dmg

namespace dmg
variable {σ : Type}

theorem createAppDmg_stops (P : Providers σ) (a t o : String) (s : σ) :
    Stops (dmgCalls a t o) (createAppDmg P a t o s).log
      (failedV (createAppDmg P a t o s).val) := by
  unfold createAppDmg
  refine Stops.seq Option.isSome failedV _ _ [_] [_, _, _, _, _, _] s
    (checkIfFinalDMGAlreadyExists_stops P _ o s) ?_ ?_
  · intro ha
    generalize (checkIfFinalDMGAlreadyExists P _ o s).val = v at ha ⊢
    cases v <;> simp_all [failedV]
  · intro ha
    generalize (checkIfFinalDMGAlreadyExists P _ o s).st = s1 at ha ⊢
    generalize (checkIfFinalDMGAlreadyExists P _ o s).val = v at ha ⊢
    cases v with
    | some e => simp at ha
    | none =>
      refine Stops.seq failedV failedV _ _ [_] [_, _, _, _, _] _
        (createDMGTemplate_stops P _ t s1) ?_ ?_
      · intro ha
        rcases createDMGTemplate_val P (strings.TrimSuffix (filepath.Base a) ".app") t s1
          with h | ⟨e, h⟩
        · rw [h] at ha; simp [failedV] at ha
        · rw [h]; simp [failedV]
      · intro ha
        rcases createDMGTemplate_val P (strings.TrimSuffix (filepath.Base a) ".app") t s1
          with h | ⟨e, h⟩
        swap
        · rw [h] at ha; simp [failedV] at ha
        rw [h]
        generalize (createDMGTemplate P _ t s1).st = s2
        refine Stops.seq failedV failedV _ _ [_] [_, _, _, _] _
          (mountDMGTemplate_stops P _ _ s2) ?_ ?_
        · intro ha
          rcases mountDMGTemplate_val P (strings.TrimSuffix (filepath.Base a) ".app")
            (filepath.Join [t, strings.TrimSuffix (filepath.Base a) ".app" ++ "-template.dmg"]) s2
            with h | ⟨e, h⟩
          · rw [h] at ha; simp [failedV] at ha
          · rw [h]; simp [failedV]
        · intro ha
          rcases mountDMGTemplate_val P (strings.TrimSuffix (filepath.Base a) ".app")
            (filepath.Join [t, strings.TrimSuffix (filepath.Base a) ".app" ++ "-template.dmg"]) s2
            with h | ⟨e, h⟩
          swap
          · rw [h] at ha; simp [failedV] at ha
          rw [h]
          generalize (mountDMGTemplate P _ _ s2).st = s3
          refine Stops.seq Option.isSome failedV _ _ [_, _] [_, _] _
            (setupDMGTemplate_stops P _ a s3) ?_ ?_
          · intro ha
            generalize (setupDMGTemplate P _ a s3).val = v at ha ⊢
            cases v <;> simp_all [failedV]
          · intro ha
            generalize (setupDMGTemplate P _ a s3).st = s4 at ha ⊢
            generalize (setupDMGTemplate P _ a s3).val = v at ha ⊢
            cases v with
            | some e => simp at ha
            | none =>
              refine Stops.seq Option.isSome failedV _ _ [_] [_] _
                (unmountDMGTemplate_stops P _ s4) ?_ ?_
              · intro ha
                generalize (unmountDMGTemplate P _ s4).val = v at ha ⊢
                cases v <;> simp_all [failedV]
              · intro ha
                generalize (unmountDMGTemplate P _ s4).st = s5 at ha ⊢
                generalize (unmountDMGTemplate P _ s4).val = v at ha ⊢
                cases v with
                | some e => simp at ha
                | none => exact convertDmg_stops P a _ o s5

theorem createAppDmg_val (P : Providers σ) (a t o : String) (s : σ) :
    (createAppDmg P a t o s).val =
        (filepath.Join [o, filepath.Base (strings.TrimSuffix a ".app") ++ ".dmg"], none) ∨
      ∃ e, (createAppDmg P a t o s).val = ("", some e) := by
  simp only [createAppDmg, Eff.bind_val, Eff.bind_st]
  generalize (checkIfFinalDMGAlreadyExists P _ o s).st = s1
  generalize (checkIfFinalDMGAlreadyExists P _ o s).val = v1
  cases v1 with
  | some e => simp
  | none =>
    simp only [Eff.bind_val, Eff.bind_st]
    generalize (createDMGTemplate P _ t s1).st = s2
    generalize (createDMGTemplate P _ t s1).val = v2
    rcases v2 with ⟨p2, _ | e⟩
    swap
    · simp
    simp only [Eff.bind_val, Eff.bind_st]
    generalize (mountDMGTemplate P _ p2 s2).st = s3
    generalize (mountDMGTemplate P _ p2 s2).val = v3
    rcases v3 with ⟨p3, _ | e⟩
    swap
    · simp
    simp only [Eff.bind_val, Eff.bind_st]
    generalize (setupDMGTemplate P p3 a s3).st = s4
    generalize (setupDMGTemplate P p3 a s3).val = v4
    cases v4 with
    | some e => simp
    | none =>
      simp only [Eff.bind_val, Eff.bind_st]
      generalize (unmountDMGTemplate P p3 s4).st = s5
      generalize (unmountDMGTemplate P p3 s4).val = v5
      cases v5 with
      | some e => simp
      | none => exact convertDmg_val P a p2 o s5

end dmg
namespace validate

theorem Check_eq_none_iff (params : dmg.CreateParams) :
    Check params = none ↔
      params.AppName ≠ "" ∧ params.AppBinaryPath ≠ "" ∧ params.BundleIdentifier ≠ "" ∧
        params.IconPath ≠ "" ∧ params.OutputDir ≠ "" := by
  unfold Check requiredFields
  by_cases h1 : params.AppName = "" <;> by_cases h2 : params.AppBinaryPath = "" <;>
    by_cases h3 : params.BundleIdentifier = "" <;> by_cases h4 : params.IconPath = "" <;>
    by_cases h5 : params.OutputDir = "" <;>
    simp [List.filter, h1, h2, h3, h4, h5]

end validate

namespace dmg
variable {σ : Type}

theorem Event.failed_eq_false_iff (e : Event) :
    e.failed = false ↔ e.err = none ∧ e.found = false := by
  cases e with
  | mk c f err => cases err <;> cases f <;> simp [Event.failed]

theorem createSteps_stops (P : Providers σ) (params : CreateParams) (t : String) (s : σ) :
    Stops
      (bundleCalls params.AppName params.AppBinaryPath params.IconPath
          params.BundleIdentifier t ++
        dmgCalls (filepath.Join [t, params.AppName ++ ".app"]) t params.OutputDir)
      (createSteps P params t s).log (failedV (createSteps P params t s).val) := by
  unfold createSteps
  refine Stops.seq failedV failedV _ _ _ _ s (createAppBundle_stops P _ _ _ _ t s) ?_ ?_
  · intro ha
    rcases createAppBundle_val P params.AppName params.AppBinaryPath params.IconPath
      params.BundleIdentifier t s with h | ⟨e, h⟩
    · rw [h] at ha; simp [failedV] at ha
    · rw [h]; simp [failedV]
  · intro ha
    rcases createAppBundle_val P params.AppName params.AppBinaryPath params.IconPath
      params.BundleIdentifier t s with h | ⟨e, h⟩
    swap
    · rw [h] at ha; simp [failedV] at ha
    rw [h]
    generalize (createAppBundle P _ _ _ _ t s).st = s1
    refine Stops.map failedV failedV _ _ _ _ (createAppDmg_stops P _ t _ s1) ?_
    intro a s2
    rcases a with ⟨p, _ | e⟩ <;> simp [failedV]

theorem createSteps_val (P : Providers σ) (params : CreateParams) (t : String) (s : σ) :
    (createSteps P params t s).val =
        (filepath.Join [params.OutputDir,
          filepath.Base (strings.TrimSuffix (filepath.Join [t, params.AppName ++ ".app"]) ".app")
            ++ ".dmg"], none) ∨
      ∃ e, (createSteps P params t s).val = ("", some e) := by
  simp only [createSteps, Eff.bind_val, Eff.bind_st]
  rcases createAppBundle_val P params.AppName params.AppBinaryPath params.IconPath
    params.BundleIdentifier t s with h | ⟨e, h⟩
  swap
  · rw [h]; simp
  rw [h]
  generalize (createAppBundle P _ _ _ _ t s).st = s1
  simp only [Eff.bind_val, Eff.bind_st]
  rcases createAppDmg_val P (filepath.Join [t, params.AppName ++ ".app"]) t params.OutputDir s1
    with h | ⟨e, h⟩
  · rw [h]; simp
  · rw [h]; simp

/-- What `Create` does on parameters that fail the validation. -/
theorem Create_invalid (P : Providers σ) (params : CreateParams) (s : σ) (err : GoError)
    (h : validate.Check params = some err) :
    (Create P params s).val =
        ("", some (errors.Wrap err "error when validating input parameters")) ∧
      (Create P params s).log = [] ∧ (Create P params s).st = s := by
  simp [Create, h]

/-- What `Create` does when the temporary working directory cannot be created. -/
theorem Create_mkdir_failed (P : Providers σ) (params : CreateParams) (s : σ) (err : GoError)
    (h : validate.Check params = none)
    (hm : (P.MkdirAll (filepath.Join [params.OutputDir, "tmp"]) os.ModePerm s).1 = some err) :
    (Create P params s).val =
        ("", some (errors.Wrap err "error when creating temp working directory")) ∧
      (Create P params s).log =
        [⟨.MkdirAll (filepath.Join [params.OutputDir, "tmp"]) os.ModePerm, false, some err⟩] := by
  simp [Create, h, Providers.mkdirAll, hm]

/-- What `Create` does once the temporary working directory exists: the
steps run, then the deferred `DeleteDir`, and the result of the steps is
returned. -/
theorem Create_steps (P : Providers σ) (params : CreateParams) (s : σ)
    (h : validate.Check params = none)
    (hm : (P.MkdirAll (filepath.Join [params.OutputDir, "tmp"]) os.ModePerm s).1 = none) :
    (Create P params s).val =
        (createSteps P params (filepath.Join [params.OutputDir, "tmp"])
          (P.MkdirAll (filepath.Join [params.OutputDir, "tmp"]) os.ModePerm s).2).val ∧
      (Create P params s).log =
        ⟨.MkdirAll (filepath.Join [params.OutputDir, "tmp"]) os.ModePerm, false, none⟩ ::
          ((createSteps P params (filepath.Join [params.OutputDir, "tmp"])
              (P.MkdirAll (filepath.Join [params.OutputDir, "tmp"]) os.ModePerm s).2).log ++
            [⟨.DeleteDir (filepath.Join [params.OutputDir, "tmp"]), false,
              (P.DeleteDir (filepath.Join [params.OutputDir, "tmp"])
                (createSteps P params (filepath.Join [params.OutputDir, "tmp"])
                  (P.MkdirAll (filepath.Join [params.OutputDir, "tmp"]) os.ModePerm s).2).st).1⟩]) := by
  simp [Create, h, Providers.mkdirAll, Providers.deleteDir, hm]

end dmg
namespace dmg
variable {σ : Type}

theorem Stops.failed_is_last {cs : List Call} {l : List Event} {b : Bool} (h : Stops cs l b)
    (e : Event) (he : e ∈ l) (hf : e.failed = true) : l.getLast? = some e := by
  obtain ⟨_, h2, _, _⟩ := h
  have hne : l ≠ [] := List.ne_nil_of_mem he
  have hl := List.dropLast_append_getLast hne
  rw [← hl] at he
  rcases List.mem_append.mp he with he | he
  · have := h2 e he
    rw [hf] at this
    cases this
  · rw [List.mem_singleton] at he
    rw [he]
    exact List.getLast?_eq_getLast l hne

theorem prefix_pipelineOps (ops : List Op) (h : ops <+: pipelineOps) :
    ops = [] ∨ ops = [.FileExists] ∨ ops = [.FileExists, .CreateDMG] ∨
      ops = [.FileExists, .CreateDMG, .MoundDMG] ∨
      ops = [.FileExists, .CreateDMG, .MoundDMG, .CreateSymlink] ∨
      ops = [.FileExists, .CreateDMG, .MoundDMG, .CreateSymlink, .CopyDir] ∨
      ops = [.FileExists, .CreateDMG, .MoundDMG, .CreateSymlink, .CopyDir, .UnmountDMG] ∨
      ops = pipelineOps := by
  have hlen : ops.length ≤ 7 := h.length_le
  have htake := List.prefix_iff_eq_take.mp h
  rw [htake]
  generalize ops.length = n at hlen
  interval_cases n <;> simp [pipelineOps]

theorem dmgCalls_ops (a t o : String) : (dmgCalls a t o).map Call.op = pipelineOps := rfl

theorem createAppDmg_ops (P : Providers σ) (a t o : String) (s : σ) :
    (createAppDmg P a t o s).log.map (fun e => e.call.op) <+: pipelineOps := by
  have h := (createAppDmg_stops P a t o s).1
  have h2 := h.map Call.op
  rw [List.map_map, dmgCalls_ops] at h2
  exact h2

/-- The ops of a log whose last call has a given method, when the log
follows the pipeline. -/
theorem ops_of_last (l : List Event) (h : l.map (fun e => e.call.op) <+: pipelineOps)
    (e : Event) (he : l.getLast? = some e) :
    (e.call.op = .MoundDMG → l.map (fun e => e.call.op) = [.FileExists, .CreateDMG, .MoundDMG]) ∧
    (e.call.op = .CreateSymlink →
      l.map (fun e => e.call.op) = [.FileExists, .CreateDMG, .MoundDMG, .CreateSymlink]) ∧
    (e.call.op = .CopyDir →
      l.map (fun e => e.call.op) =
        [.FileExists, .CreateDMG, .MoundDMG, .CreateSymlink, .CopyDir]) ∧
    (e.call.op = .UnmountDMG →
      l.map (fun e => e.call.op) =
        [.FileExists, .CreateDMG, .MoundDMG, .CreateSymlink, .CopyDir, .UnmountDMG]) := by
  have hlast : (l.map (fun e => e.call.op)).getLast? = some e.call.op := by
    rw [List.getLast?_map, he]; rfl
  rcases prefix_pipelineOps _ h with h | h | h | h | h | h | h | h <;>
    rw [h] at hlast ⊢ <;> simp [pipelineOps] at hlast <;> simp [← hlast]

end dmg
namespace dmg
variable {σ : Type}

/-- C9: when every call of `createAppDmg` succeeds and the existence check
reports no file, the calls are, once each and in this order, FileExists,
CreateDMG, MoundDMG, CreateSymlink, CopyDir, UnmountDMG, ConvertDMG (with the
arguments listed by `dmgCalls`), and the result is the path handed to
ConvertDMG as its output, with a nil error. -/
theorem createAppDmg_calls_in_order (P : Providers σ) (a t o : String) (s : σ)
    (h : ∀ e ∈ (createAppDmg P a t o s).log, e.err = none ∧ e.found = false) :
    (createAppDmg P a t o s).log.map (fun e => e.call.op) =
        [.FileExists, .CreateDMG, .MoundDMG, .CreateSymlink, .CopyDir, .UnmountDMG,
          .ConvertDMG] ∧
      (createAppDmg P a t o s).log.map Event.call = dmgCalls a t o ∧
      (createAppDmg P a t o s).val =
        (filepath.Join [o, filepath.Base (strings.TrimSuffix a ".app") ++ ".dmg"], none) := by
  have hs := createAppDmg_stops P a t o s
  have hok : failedV (createAppDmg P a t o s).val = false :=
    hs.ok_iff.mpr (fun e he => (Event.failed_eq_false_iff e).mpr (h e he))
  have hcalls : (createAppDmg P a t o s).log.map Event.call = dmgCalls a t o := by
    have := hs.2.2.1
    rw [hok] at this
    exact this.1
  refine ⟨?_, hcalls, ?_⟩
  · have : (createAppDmg P a t o s).log.map (fun e => e.call.op) =
        ((createAppDmg P a t o s).log.map Event.call).map Call.op := by
      rw [List.map_map]; rfl
    rw [this, hcalls]
    rfl
  · rcases createAppDmg_val P a t o s with hv | ⟨e, hv⟩
    · exact hv
    · rw [hv] at hok
      simp [failedV] at hok

/-- Witness of C9: the happy path of `Test_createAppDmg`. -/
theorem createAppDmg_calls_in_order_witness :
    (∀ e ∈ (createAppDmg happy.providers "testAppBundleDirPath" "tmpWorkDir" "outputDir" ()).log,
        e.err = none ∧ e.found = false) ∧
      (createAppDmg happy.providers "testAppBundleDirPath" "tmpWorkDir" "outputDir" ()).val =
        ("outputDir/testAppBundleDirPath.dmg", none) :=
  ⟨by decide,
    (createAppDmg_calls_in_order happy.providers "testAppBundleDirPath" "tmpWorkDir" "outputDir" ()
      (by decide)).2.2⟩

theorem createAppDmg_error_iff (P : Providers σ) (a t o : String) (s : σ) :
    (createAppDmg P a t o s).val.2 ≠ none ↔
      ∃ e ∈ (createAppDmg P a t o s).log, e.failed = true := by
  have h1 := (createAppDmg_stops P a t o s).ok_iff
  constructor
  · intro hne
    by_contra hcon
    push_neg at hcon
    have hall : ∀ e ∈ (createAppDmg P a t o s).log, e.failed = false := by
      intro e he
      have := hcon e he
      simpa using this
    have := h1.mpr hall
    simp only [failedV] at this
    cases hv : (createAppDmg P a t o s).val.2 with
    | none => exact hne hv
    | some err => rw [hv] at this; simp at this
  · rintro ⟨e, he, hf⟩ hnone
    have hfalse : failedV (createAppDmg P a t o s).val = false := by
      simp [failedV, hnone]
    have := h1.mp hfalse e he
    rw [hf] at this
    cases this

theorem createAppDmg_failed_run (P : Providers σ) (a t o : String) (s : σ)
    (h : ∃ e ∈ (createAppDmg P a t o s).log, e.failed = true) :
    (∃ e, (createAppDmg P a t o s).log.getLast? = some e ∧ e.failed = true) ∧
      (createAppDmg P a t o s).val.1 = "" ∧ (createAppDmg P a t o s).val.2 ≠ none := by
  obtain ⟨e, he, hf⟩ := h
  have hne := (createAppDmg_error_iff P a t o s).mpr ⟨e, he, hf⟩
  refine ⟨⟨e, (createAppDmg_stops P a t o s).failed_is_last e he hf, hf⟩, ?_, hne⟩
  rcases createAppDmg_val P a t o s with hv | ⟨err, hv⟩
  · rw [hv] at hne; exact absurd rfl hne
  · rw [hv]

theorem failed_of_err (e : Event) (h : e.err ≠ none) : e.failed = true := by
  cases h2 : e.err with
  | none => exact absurd h2 h
  | some err => simp [Event.failed, h2]

/-- C10: `createAppDmg` stops at the first failing stage. For every input
its calls are the first calls of the pipeline (FileExists, CreateDMG,
MoundDMG, CreateSymlink, CopyDir, UnmountDMG, ConvertDMG); no call but the
last one failed (returned an error, or reported that the artifact exists);
the result carries an error exactly when a call failed, and then the failing
call is the last one and the returned path is empty. In particular a failed
MoundDMG is followed by neither CreateSymlink nor CopyDir, and a failed
UnmountDMG by no ConvertDMG, with an empty path returned. -/
theorem createAppDmg_stops_at_first_failure (P : Providers σ) (a t o : String) (s : σ) :
    (createAppDmg P a t o s).log.map (fun e => e.call.op) <+: pipelineOps ∧
      (∀ e ∈ (createAppDmg P a t o s).log.dropLast, e.err = none ∧ e.found = false) ∧
      ((createAppDmg P a t o s).val.2 ≠ none ↔
        ∃ e ∈ (createAppDmg P a t o s).log, e.failed = true) ∧
      ((∃ e ∈ (createAppDmg P a t o s).log, e.failed = true) →
        (∃ e, (createAppDmg P a t o s).log.getLast? = some e ∧ e.failed = true) ∧
          (createAppDmg P a t o s).val.1 = "" ∧ (createAppDmg P a t o s).val.2 ≠ none) ∧
      (∀ e ∈ (createAppDmg P a t o s).log, e.call.op = .MoundDMG → e.err ≠ none →
        ∀ x ∈ (createAppDmg P a t o s).log,
          x.call.op ≠ .CreateSymlink ∧ x.call.op ≠ .CopyDir) ∧
      (∀ e ∈ (createAppDmg P a t o s).log, e.call.op = .UnmountDMG → e.err ≠ none →
        (∀ x ∈ (createAppDmg P a t o s).log, x.call.op ≠ .ConvertDMG) ∧
          (createAppDmg P a t o s).val.1 = "") := by
  have hs := createAppDmg_stops P a t o s
  have hops := createAppDmg_ops P a t o s
  refine ⟨hops, ?_, createAppDmg_error_iff P a t o s, createAppDmg_failed_run P a t o s, ?_, ?_⟩
  · intro e he
    exact (Event.failed_eq_false_iff e).mp (hs.2.1 e he)
  · intro e he hop herr x hx
    have hf := failed_of_err e herr
    have hl := ((ops_of_last _ hops e (hs.failed_is_last e he hf)).1 hop)
    have hx2 : x.call.op ∈ (createAppDmg P a t o s).log.map (fun e => e.call.op) :=
      List.mem_map.mpr ⟨x, hx, rfl⟩
    rw [hl] at hx2
    constructor <;> intro hc <;> rw [hc] at hx2 <;> simp at hx2
  · intro e he hop herr
    have hf := failed_of_err e herr
    have hl := ((ops_of_last _ hops e (hs.failed_is_last e he hf)).2.2.2 hop)
    refine ⟨?_, (createAppDmg_failed_run P a t o s ⟨e, he, hf⟩).2.1⟩
    intro x hx hc
    have hx2 : x.call.op ∈ (createAppDmg P a t o s).log.map (fun e => e.call.op) :=
      List.mem_map.mpr ⟨x, hx, rfl⟩
    rw [hl, hc] at hx2
    simp at hx2

end dmg

namespace dmg
variable {σ : Type}

/-- Witness of C10: in the test case `error mounting DMG template` the
failed MoundDMG is the last call, and neither CreateSymlink nor CopyDir is
called. -/
theorem createAppDmg_stops_at_first_failure_witness :
    (createAppDmg mountFails.providers "testAppBundleDirPath" "tmpWorkDir" "outputDir" ()).log.map
        (fun e => e.call.op) = [.FileExists, .CreateDMG, .MoundDMG] ∧
    (∀ x ∈ (createAppDmg mountFails.providers "testAppBundleDirPath" "tmpWorkDir" "outputDir"
        ()).log, x.call.op ≠ .CreateSymlink ∧ x.call.op ≠ .CopyDir) :=
  ⟨by decide,
    (createAppDmg_stops_at_first_failure mountFails.providers "testAppBundleDirPath" "tmpWorkDir"
      "outputDir" ()).2.2.2.2.1
        ⟨.MoundDMG "testAppBundleDirPath" "tmpWorkDir/testAppBundleDirPath-template.dmg", false,
          some ErrPermission⟩ (by decide) rfl (by decide)⟩

theorem ops_nodup (l : List Event) (h : l.map (fun e => e.call.op) <+: pipelineOps) :
    (l.map (fun e => e.call.op)).Nodup :=
  List.Nodup.sublist h.sublist (by decide)

/-- In a log that follows the pipeline, two calls of the same method are
the same logged call. -/
theorem same_op_eq (l : List Event) (h : l.map (fun e => e.call.op) <+: pipelineOps)
    (x y : Event) (hx : x ∈ l) (hy : y ∈ l) (hxy : x.call.op = y.call.op) : x = y :=
  List.inj_on_of_nodup_map (ops_nodup l h) hx hy hxy

/-- C5 (counterexample): in the test case `error setting up DMG template`
the container is attached (MoundDMG succeeds), the creation of the symlink
fails, and `createAppDmg` returns the error without any UnmountDMG call. -/
theorem createAppDmg_leaves_container_attached :
    (createAppDmg symlinkFails.providers "testAppBundleDirPath" "tmpWorkDir" "outputDir" ()).log.map
        (fun e => (e.call, e.err.isSome)) =
      [(.FileExists "outputDir/testAppBundleDirPath.dmg", false),
       (.CreateDMG "100m" "APFS" "testAppBundleDirPath" "GPTSPUD"
          "tmpWorkDir/testAppBundleDirPath-template.dmg", false),
       (.MoundDMG "testAppBundleDirPath" "tmpWorkDir/testAppBundleDirPath-template.dmg", false),
       (.CreateSymlink "/Applications" "/Volumes/testAppBundleDirPath", true)] ∧
    (createAppDmg symlinkFails.providers "testAppBundleDirPath" "tmpWorkDir" "outputDir" ()).val =
      ("", some ⟨"error when setting up DMG template: error when creating symlink for " ++
        "Applications folder: permission denied", false⟩) := by
  decide

/-- C5 (amended): `createAppDmg` requests the detach only after the attach,
the symlink and the copy have all succeeded. When MoundDMG, CreateSymlink or
CopyDir returns an error, `createAppDmg` returns an error and makes no
UnmountDMG call; when CopyDir succeeds, UnmountDMG is called on the mount
point `/Volumes/<name>`. -/
theorem createAppDmg_detach_only_after_setup (P : Providers σ) (a t o : String) (s : σ) :
    (∀ e ∈ (createAppDmg P a t o s).log,
      (e.call.op = .MoundDMG ∨ e.call.op = .CreateSymlink ∨ e.call.op = .CopyDir) →
      e.err ≠ none →
        (∀ x ∈ (createAppDmg P a t o s).log, x.call.op ≠ .UnmountDMG) ∧
          (createAppDmg P a t o s).val.2 ≠ none) ∧
    (∀ e ∈ (createAppDmg P a t o s).log, e.call.op = .CopyDir → e.err = none →
      ∃ x ∈ (createAppDmg P a t o s).log,
        x.call = .UnmountDMG ("/Volumes/" ++ strings.TrimSuffix (filepath.Base a) ".app")) := by
  have hs := createAppDmg_stops P a t o s
  have hops := createAppDmg_ops P a t o s
  constructor
  · intro e he hop herr
    have hf := failed_of_err e herr
    refine ⟨?_, (createAppDmg_failed_run P a t o s ⟨e, he, hf⟩).2.2⟩
    intro x hx hc
    have hx2 : x.call.op ∈ (createAppDmg P a t o s).log.map (fun e => e.call.op) :=
      List.mem_map.mpr ⟨x, hx, rfl⟩
    have hl := ops_of_last _ hops e (hs.failed_is_last e he hf)
    rcases hop with hop | hop | hop
    · rw [hl.1 hop, hc] at hx2; simp at hx2
    · rw [hl.2.1 hop, hc] at hx2; simp at hx2
    · rw [hl.2.2.1 hop, hc] at hx2; simp at hx2
  · intro e he hop herr
    have hnf : e.failed = false := by
      rw [Event.failed_eq_false_iff]
      refine ⟨herr, ?_⟩
      cases hfd : e.found with
      | false => rfl
      | true =>
        have := hs.2.2.2 e he hfd
        rw [hop] at this
        cases this
    have hex : ∃ x ∈ (createAppDmg P a t o s).log, x.call.op = .UnmountDMG := by
      by_contra hcon
      push_neg at hcon
      have hmem : Op.CopyDir ∈ (createAppDmg P a t o s).log.map (fun e => e.call.op) :=
        List.mem_map.mpr ⟨e, he, hop⟩
      have hno : Op.UnmountDMG ∉ (createAppDmg P a t o s).log.map (fun e => e.call.op) := by
        intro hm
        obtain ⟨x, hx, hxop⟩ := List.mem_map.mp hm
        exact hcon x hx hxop
      have hlen : (createAppDmg P a t o s).log.map (fun e => e.call.op) =
          [.FileExists, .CreateDMG, .MoundDMG, .CreateSymlink, .CopyDir] := by
        rcases prefix_pipelineOps _ hops with h | h | h | h | h | h | h | h <;>
          rw [h] at hmem hno <;> simp [pipelineOps] at hmem hno
        exact h
      cases hb : failedV (createAppDmg P a t o s).val with
      | false =>
        have h3 := hs.2.2.1
        rw [hb] at h3
        have h4 := congrArg (List.map Call.op) h3.1
        rw [List.map_map, dmgCalls_ops] at h4
        have h5 : (createAppDmg P a t o s).log.map (fun e => e.call.op) = pipelineOps := h4
        rw [hlen] at h5
        simp [pipelineOps] at h5
      | true =>
        have h3 := hs.2.2.1
        rw [hb] at h3
        obtain ⟨x, hx, hxf⟩ := h3
        have hxop : x.call.op = .CopyDir := by
          have : (List.map (fun e => e.call.op) (createAppDmg P a t o s).log).getLast? =
              some x.call.op := by
            rw [List.getLast?_map, hx]; rfl
          rw [hlen] at this
          simpa using this.symm
        have hxe : x = e :=
          same_op_eq _ hops x e (List.mem_of_getLast?_eq_some hx) he (hxop.trans hop.symm)
        rw [hxe, hnf] at hxf
        cases hxf
    obtain ⟨x, hx, hxop⟩ := hex
    refine ⟨x, hx, ?_⟩
    have hmem : x.call ∈ dmgCalls a t o :=
      hs.1.subset (List.mem_map.mpr ⟨x, hx, rfl⟩)
    simp only [dmgCalls, List.mem_cons, List.mem_singleton, List.not_mem_nil, or_false] at hmem
    rcases hmem with h | h | h | h | h | h | h <;> rw [h] at hxop ⊢ <;> simp [Call.op] at hxop ⊢

/-- Witness of C5 (amended): in the test case `error setting up DMG
template` the failed CreateSymlink is followed by no UnmountDMG call. -/
theorem createAppDmg_detach_only_after_setup_witness :
    (∃ e ∈ (createAppDmg symlinkFails.providers "testAppBundleDirPath" "tmpWorkDir"
        "outputDir" ()).log, e.call.op = .CreateSymlink ∧ e.err ≠ none) ∧
    (∀ x ∈ (createAppDmg symlinkFails.providers "testAppBundleDirPath" "tmpWorkDir"
        "outputDir" ()).log, x.call.op ≠ .UnmountDMG) :=
  ⟨by decide,
    ((createAppDmg_detach_only_after_setup symlinkFails.providers "testAppBundleDirPath"
      "tmpWorkDir" "outputDir" ()).1
        ⟨.CreateSymlink "/Applications" "/Volumes/testAppBundleDirPath", false, some ErrPermission⟩
        (by decide) (Or.inr (Or.inl rfl)) (by decide)).1⟩

end dmg

namespace dmg
variable {σ : Type}

theorem steps_calls_ne_deleteDir (n b i id t a o : String) :
    ∀ c ∈ bundleCalls n b i id t ++ dmgCalls a t o, c.op ≠ .DeleteDir := by
  intro c hc
  simp only [bundleCalls, dmgCalls, List.cons_append, List.nil_append, List.mem_cons,
    List.mem_singleton, List.not_mem_nil, or_false] at hc
  rcases hc with h | h | h | h | h | h | h | h | h | h | h | h | h | h | h <;>
    rw [h] <;> simp [Call.op]

theorem createSteps_op_ne_deleteDir (P : Providers σ) (params : CreateParams) (t : String)
    (s : σ) : ∀ e ∈ (createSteps P params t s).log, e.call.op ≠ .DeleteDir := by
  intro e he
  exact steps_calls_ne_deleteDir _ _ _ _ _ _ _ e.call
    ((createSteps_stops P params t s).1.subset (List.mem_map.mpr ⟨e, he, rfl⟩))

/-- The success path of `Create`: when the parameters are valid and no call
but possibly the deferred `DeleteDir` fails, the result is the path handed
to ConvertDMG, with a nil error. -/
theorem Create_success (P : Providers σ) (params : CreateParams) (s : σ)
    (hv : validate.Check params = none)
    (hok : ∀ e ∈ (Create P params s).log, e.call.op ≠ .DeleteDir → e.failed = false) :
    (Create P params s).val =
      (filepath.Join [params.OutputDir,
        filepath.Base (strings.TrimSuffix
          (filepath.Join [filepath.Join [params.OutputDir, "tmp"], params.AppName ++ ".app"])
          ".app") ++ ".dmg"], none) := by
  cases hm : (P.MkdirAll (filepath.Join [params.OutputDir, "tmp"]) os.ModePerm s).1 with
  | some err =>
    have hl := (Create_mkdir_failed P params s err hv hm).2
    have := hok ⟨.MkdirAll (filepath.Join [params.OutputDir, "tmp"]) os.ModePerm, false, some err⟩
      (by rw [hl]; simp) (by simp [Call.op])
    simp [Event.failed] at this
  | none =>
    obtain ⟨hval, hlog⟩ := Create_steps P params s hv hm
    rw [hval]
    have hs := createSteps_stops P params (filepath.Join [params.OutputDir, "tmp"])
      (P.MkdirAll (filepath.Join [params.OutputDir, "tmp"]) os.ModePerm s).2
    have hall : ∀ e ∈ (createSteps P params (filepath.Join [params.OutputDir, "tmp"])
        (P.MkdirAll (filepath.Join [params.OutputDir, "tmp"]) os.ModePerm s).2).log,
        e.failed = false := by
      intro e he
      refine hok e ?_ (createSteps_op_ne_deleteDir P params _ _ e he)
      rw [hlog]
      simp [he]
    have hf := hs.ok_iff.mpr hall
    rcases createSteps_val P params (filepath.Join [params.OutputDir, "tmp"])
      (P.MkdirAll (filepath.Join [params.OutputDir, "tmp"]) os.ModePerm s).2 with h | ⟨e, h⟩
    · exact h
    · rw [h] at hf
      simp [failedV] at hf

/-- C1 (counterexample): with the application name `a/b` every field is
non-empty, every call succeeds and no artifact exists, yet `Create` returns
`outputDir/b.dmg`, not `Join(OutputDir, AppName + ".dmg")`, which is
`outputDir/a/b.dmg`. -/
theorem Create_nested_name_path :
    (nestedName.AppName ≠ "" ∧ nestedName.AppBinaryPath ≠ "" ∧
      nestedName.BundleIdentifier ≠ "" ∧ nestedName.IconPath ≠ "" ∧
      nestedName.OutputDir ≠ "") ∧
    (∀ e ∈ (Create happy.providers nestedName ()).log, e.err = none ∧ e.found = false) ∧
    (Create happy.providers nestedName ()).val = ("outputDir/b.dmg", none) ∧
    filepath.Join [nestedName.OutputDir, nestedName.AppName ++ ".dmg"] = "outputDir/a/b.dmg" ∧
    (Create happy.providers nestedName ()).val ≠
      (filepath.Join [nestedName.OutputDir, nestedName.AppName ++ ".dmg"], none) := by
  decide

/-- C1 (amended): for parameters whose five fields are non-empty and whose
application name holds no path separator, if every call of the run succeeds
and the existence check reports no file, `Create` returns a nil error and the
path `Join(OutputDir, AppName + ".dmg")`. -/
theorem Create_returns_artifact_path (P : Providers σ) (params : CreateParams) (s : σ)
    (hname : params.AppName ≠ "") (hbin : params.AppBinaryPath ≠ "")
    (hid : params.BundleIdentifier ≠ "") (hicon : params.IconPath ≠ "")
    (hout : params.OutputDir ≠ "") (hsep : '/' ∉ params.AppName.data)
    (hok : ∀ e ∈ (Create P params s).log, e.err = none ∧ e.found = false) :
    (Create P params s).val =
      (filepath.Join [params.OutputDir, params.AppName ++ ".dmg"], none) := by
  have hv := (validate.Check_eq_none_iff params).mpr ⟨hname, hbin, hid, hicon, hout⟩
  have h := Create_success P params s hv
    (fun e he _ => (Event.failed_eq_false_iff e).mpr (hok e he))
  rw [h, convertName_of_bundle _ _ ⟨hname, hsep⟩]

/-- Witness of C1 (amended): the happy path of `TestCreate`. -/
theorem Create_returns_artifact_path_witness :
    (testParams.AppName ≠ "" ∧ testParams.AppBinaryPath ≠ "" ∧
      testParams.BundleIdentifier ≠ "" ∧ testParams.IconPath ≠ "" ∧
      testParams.OutputDir ≠ "" ∧ '/' ∉ testParams.AppName.data) ∧
    (∀ e ∈ (Create happy.providers testParams ()).log, e.err = none ∧ e.found = false) ∧
    (Create happy.providers testParams ()).val = ("outputDir/testAppName.dmg", none) :=
  ⟨by decide, by decide,
    Create_returns_artifact_path happy.providers testParams () (by decide) (by decide)
      (by decide) (by decide) (by decide) (by decide) (by decide)⟩

end dmg

namespace dmg
variable {σ : Type}

/-- C2: when one of the five fields is empty, `Create` returns the empty
path and an error whose message starts with `error when validating input
parameters`, and it makes no provider call at all (the world is unchanged):
no MkdirAll, so no scratch directory, and no DeleteDir. -/
theorem Create_rejects_missing_field (P : Providers σ) (params : CreateParams) (s : σ)
    (h : params.AppName = "" ∨ params.AppBinaryPath = "" ∨ params.BundleIdentifier = "" ∨
      params.IconPath = "" ∨ params.OutputDir = "") :
    (Create P params s).log = [] ∧ (Create P params s).st = s ∧
      (Create P params s).val.1 = "" ∧
      ∃ err cause, (Create P params s).val.2 = some err ∧
        err.msg = "error when validating input parameters" ++ ": " ++ cause := by
  cases hc : validate.Check params with
  | none =>
    have := (validate.Check_eq_none_iff params).mp hc
    rcases h with h | h | h | h | h
    · exact absurd h this.1
    · exact absurd h this.2.1
    · exact absurd h this.2.2.1
    · exact absurd h this.2.2.2.1
    · exact absurd h this.2.2.2.2
  | some err =>
    obtain ⟨h1, h2, h3⟩ := Create_invalid P params s err hc
    refine ⟨h2, h3, by rw [h1], ?_⟩
    exact ⟨errors.Wrap err "error when validating input parameters", err.msg, by rw [h1], rfl⟩

/-- Witness of C2: the test case `error when validating input parameters`. -/
theorem Create_rejects_missing_field_witness :
    (missingName.AppName = "" ∨ missingName.AppBinaryPath = "" ∨
      missingName.BundleIdentifier = "" ∨ missingName.IconPath = "" ∨
      missingName.OutputDir = "") ∧
    (Create happy.providers missingName ()).log = [] ∧
    (Create happy.providers missingName ()).val =
      ("", some ⟨"error when validating input parameters: AppName: AppName is a required field",
        false⟩) :=
  ⟨Or.inl rfl, (Create_rejects_missing_field happy.providers missingName () (Or.inl rfl)).1,
    by decide⟩

/-- C8: the outcome of the scratch-workspace deletion never changes the
result. Two runs of `Create` from the same world, with providers that differ
in `DeleteDir` only, return the same path and the same error. -/
theorem Create_result_independent_of_deleteDir (P : Providers σ)
    (d : String → σ → Option GoError × σ) (params : CreateParams) (s : σ) :
    (Create { P with DeleteDir := d } params s).val = (Create P params s).val := by
  cases hv : validate.Check params with
  | some err =>
    rw [(Create_invalid P params s err hv).1, (Create_invalid _ params s err hv).1]
  | none =>
    cases hm : (P.MkdirAll (filepath.Join [params.OutputDir, "tmp"]) os.ModePerm s).1 with
    | some err =>
      rw [(Create_mkdir_failed P params s err hv hm).1,
        (Create_mkdir_failed { P with DeleteDir := d } params s err hv hm).1]
    | none =>
      rw [(Create_steps P params s hv hm).1,
        (Create_steps { P with DeleteDir := d } params s hv hm).1]
      rfl

end dmg

namespace dmg
variable {σ : Type}

/-- Witness of C8: the run in which DeleteDir fails returns what the run
in which it succeeds returns. -/
theorem Create_result_independent_of_deleteDir_witness :
    (Create deleteFails.providers testParams ()).val =
      (Create happy.providers testParams ()).val :=
  Create_result_independent_of_deleteDir happy.providers deleteFails.providers.DeleteDir
    testParams ()

/-- C6: for valid parameters and every behaviour of the providers, once
`Create` has created the scratch directory `Join(OutputDir, "tmp")` (its
first call, MkdirAll, succeeded), its last call is DeleteDir on exactly that
path and no earlier call is a DeleteDir, whatever the other calls return;
`DeleteDir` is never called on another path, and never at all when the
scratch directory could not be created. -/
theorem Create_deletes_scratch_last (P : Providers σ) (params : CreateParams) (s : σ)
    (hname : params.AppName ≠ "") (hbin : params.AppBinaryPath ≠ "")
    (hid : params.BundleIdentifier ≠ "") (hicon : params.IconPath ≠ "")
    (hout : params.OutputDir ≠ "") :
    ((P.MkdirAll (filepath.Join [params.OutputDir, "tmp"]) os.ModePerm s).1 = none →
      ∃ pre err,
        (Create P params s).log =
          pre ++ [⟨.DeleteDir (filepath.Join [params.OutputDir, "tmp"]), false, err⟩] ∧
        ∀ x ∈ pre, x.call.op ≠ .DeleteDir) ∧
    (∀ x ∈ (Create P params s).log, x.call.op = .DeleteDir →
      x.call = .DeleteDir (filepath.Join [params.OutputDir, "tmp"])) ∧
    ((P.MkdirAll (filepath.Join [params.OutputDir, "tmp"]) os.ModePerm s).1 ≠ none →
      ∀ x ∈ (Create P params s).log, x.call.op ≠ .DeleteDir) := by
  have hv := (validate.Check_eq_none_iff params).mpr ⟨hname, hbin, hid, hicon, hout⟩
  cases hm : (P.MkdirAll (filepath.Join [params.OutputDir, "tmp"]) os.ModePerm s).1 with
  | some err =>
    have hl := (Create_mkdir_failed P params s err hv hm).2
    refine ⟨fun h => Option.noConfusion h, ?_, ?_⟩
    · intro x hx hop
      rw [hl, List.mem_singleton] at hx
      rw [hx] at hop
      simp [Call.op] at hop
    · intro _ x hx hop
      rw [hl, List.mem_singleton] at hx
      rw [hx] at hop
      simp [Call.op] at hop
  | none =>
    have hl := (Create_steps P params s hv hm).2
    have hsteps := createSteps_op_ne_deleteDir P params (filepath.Join [params.OutputDir, "tmp"])
      (P.MkdirAll (filepath.Join [params.OutputDir, "tmp"]) os.ModePerm s).2
    refine ⟨fun _ => ⟨⟨.MkdirAll (filepath.Join [params.OutputDir, "tmp"]) os.ModePerm, false,
      none⟩ :: (createSteps P params (filepath.Join [params.OutputDir, "tmp"])
        (P.MkdirAll (filepath.Join [params.OutputDir, "tmp"]) os.ModePerm s).2).log, _,
      by rw [hl]; rfl, ?_⟩, ?_, fun h => absurd rfl h⟩
    · intro x hx
      rcases List.mem_cons.mp hx with hx | hx
      · rw [hx]; simp [Call.op]
      · exact hsteps x hx
    · intro x hx hop
      rw [hl] at hx
      rcases List.mem_cons.mp hx with hx | hx
      · rw [hx] at hop; simp [Call.op] at hop
      · rcases List.mem_append.mp hx with hx | hx
        · exact absurd hop (hsteps x hx)
        · rw [List.mem_singleton] at hx
          rw [hx]

/-- Witness of C6: when rendering the icons fails, the last call of `Create`
is still DeleteDir on `outputDir/tmp`. -/
theorem Create_deletes_scratch_last_witness :
    (testParams.AppName ≠ "" ∧ testParams.AppBinaryPath ≠ "" ∧
      testParams.BundleIdentifier ≠ "" ∧ testParams.IconPath ≠ "" ∧
      testParams.OutputDir ≠ "") ∧
    (Create iconsFail.providers testParams ()).log.getLast? =
      some ⟨.DeleteDir "outputDir/tmp", false, none⟩ ∧
    (∀ x ∈ (Create iconsFail.providers testParams ()).log, x.call.op = .DeleteDir →
      x.call = .DeleteDir (filepath.Join [testParams.OutputDir, "tmp"])) :=
  ⟨by decide, by decide,
    (Create_deletes_scratch_last iconsFail.providers testParams () (by decide) (by decide)
      (by decide) (by decide) (by decide)).2.1⟩

/-- C7 (counterexample): every step succeeds and only DeleteDir fails, with
`permission denied`; `Create` returns the artifact path and a nil error, so
its result does not carry the deletion error. -/
theorem Create_drops_deletion_error :
    (Create deleteFails.providers testParams ()).log.getLast? =
      some ⟨.DeleteDir "outputDir/tmp", false, some ErrPermission⟩ ∧
    (∀ e ∈ (Create deleteFails.providers testParams ()).log.dropLast,
      e.err = none ∧ e.found = false) ∧
    (Create deleteFails.providers testParams ()).val = ("outputDir/testAppName.dmg", none) := by
  decide

/-- C7 (amended): a failure of the deletion of the scratch workspace is not
reported to the caller of `Create`. For valid parameters, if every other call
succeeded (the existence check reporting no file) and DeleteDir returned an
error, `Create` returns the artifact path with a nil error. -/
theorem Create_deletion_failure_not_reported (P : Providers σ) (params : CreateParams) (s : σ)
    (hname : params.AppName ≠ "") (hbin : params.AppBinaryPath ≠ "")
    (hid : params.BundleIdentifier ≠ "") (hicon : params.IconPath ≠ "")
    (hout : params.OutputDir ≠ "")
    (hother : ∀ e ∈ (Create P params s).log, e.call.op ≠ .DeleteDir →
      e.err = none ∧ e.found = false)
    (_hdel : ∃ e ∈ (Create P params s).log, e.call.op = .DeleteDir ∧ e.err ≠ none) :
    (Create P params s).val =
      (filepath.Join [params.OutputDir,
        filepath.Base (strings.TrimSuffix
          (filepath.Join [filepath.Join [params.OutputDir, "tmp"], params.AppName ++ ".app"])
          ".app") ++ ".dmg"], none) :=
  Create_success P params s
    ((validate.Check_eq_none_iff params).mpr ⟨hname, hbin, hid, hicon, hout⟩)
    (fun e he hop => (Event.failed_eq_false_iff e).mpr (hother e he hop))

/-- Witness of C7 (amended): the run in which only DeleteDir fails. -/
theorem Create_deletion_failure_not_reported_witness :
    (∃ e ∈ (Create deleteFails.providers testParams ()).log,
      e.call.op = .DeleteDir ∧ e.err ≠ none) ∧
    (Create deleteFails.providers testParams ()).val = ("outputDir/testAppName.dmg", none) :=
  ⟨by decide,
    Create_deletion_failure_not_reported deleteFails.providers testParams () (by decide)
      (by decide) (by decide) (by decide) (by decide) (by decide) (by decide)⟩

end dmg

namespace dmg
variable {σ : Type}

/-- What `createAppDmg` does when the existence check reports the file. -/
theorem createAppDmg_exists (P : Providers σ) (a t o : String) (s : σ)
    (h : (P.FileExists
      (filepath.Join [o, strings.TrimSuffix (filepath.Base a) ".app" ++ ".dmg"]) s).1 =
        (true, none)) :
    (createAppDmg P a t o s).val =
        ("", some (errors.New ("DMG file already exists: [" ++
          filepath.Join [o, strings.TrimSuffix (filepath.Base a) ".app" ++ ".dmg"] ++ "]"))) ∧
      (createAppDmg P a t o s).log =
        [⟨.FileExists (filepath.Join [o, strings.TrimSuffix (filepath.Base a) ".app" ++ ".dmg"]),
          true, none⟩] := by
  simp [createAppDmg, checkIfFinalDMGAlreadyExists, Providers.fileExists, h]

theorem bundleCalls_ops (n b i id t : String) :
    ∀ c ∈ bundleCalls n b i id t,
      c.op ≠ .FileExists ∧ c.op ≠ .DeleteDir := by
  intro c hc
  simp only [bundleCalls, List.mem_cons, List.mem_singleton, List.not_mem_nil, or_false] at hc
  rcases hc with h | h | h | h | h | h | h | h <;> rw [h] <;> simp [Call.op]

/-- C3 (counterexample): the artifact `outputDir/testAppName.dmg` exists,
and `Create` makes eleven calls, not the existence check alone: it creates
five directories, runs both icon tools, copies the binary and writes the
descriptor before the check, and deletes the scratch directory after it.
With the application name `a/b` and the file `outputDir/a/b.dmg` present,
the check looks at `outputDir/b.dmg` and `Create` succeeds. -/
theorem Create_checks_after_assembly :
    (Create artifactExists.providers testParams ()).log.map (fun e => e.call.op) =
      [.MkdirAll, .MkdirAll, .MkdirAll, .MkdirAll, .MkdirAll, .GenerateIcons,
        .GenerateIconSet, .CopyFile, .WriteFile, .FileExists, .DeleteDir] ∧
    (Create artifactExists.providers testParams ()).log.map Event.call ≠
      [.FileExists (filepath.Join [testParams.OutputDir, testParams.AppName ++ ".dmg"])] ∧
    (Create artifactExists.providers testParams ()).val =
      ("", some ⟨"error when creating app DMG: DMG file already exists: " ++
        "[outputDir/testAppName.dmg]", false⟩) ∧
    filepath.Join [nestedName.OutputDir, nestedName.AppName ++ ".dmg"] = "outputDir/a/b.dmg" ∧
    (Create (existsAt "outputDir/a/b.dmg") nestedName ()).val = ("outputDir/b.dmg", none) := by
  decide

/-- C3 (amended): for valid parameters whose application name holds no path
separator, if the artifact `Join(OutputDir, AppName + ".dmg")` exists as a
regular file and every call other than the existence check and the final
deletion succeeds, `Create` fails with the error `error when creating app
DMG: DMG file already exists: [path]`. The check comes after the creation of
the scratch directory and the assembly of the bundle, and the only call after
it is DeleteDir on the scratch directory: no hdiutil operation, no symlink
and no copy of the bundle. -/
theorem Create_existing_artifact (P : Providers σ) (params : CreateParams) (s : σ)
    (hname : params.AppName ≠ "") (hbin : params.AppBinaryPath ≠ "")
    (hid : params.BundleIdentifier ≠ "") (hicon : params.IconPath ≠ "")
    (hout : params.OutputDir ≠ "") (hsep : '/' ∉ params.AppName.data)
    (hex : ∀ w, (P.FileExists
      (filepath.Join [params.OutputDir, params.AppName ++ ".dmg"]) w).1 = (true, none))
    (hpre : ∀ e ∈ (Create P params s).log, e.call.op ≠ .FileExists → e.call.op ≠ .DeleteDir →
      e.err = none) :
    (∃ err, (Create P params s).val = ("", some err) ∧
      err.msg = "error when creating app DMG: DMG file already exists: [" ++
        filepath.Join [params.OutputDir, params.AppName ++ ".dmg"] ++ "]") ∧
    (Create P params s).log.map Event.call =
      .MkdirAll (filepath.Join [params.OutputDir, "tmp"]) os.ModePerm ::
        (bundleCalls params.AppName params.AppBinaryPath params.IconPath params.BundleIdentifier
            (filepath.Join [params.OutputDir, "tmp"]) ++
          [.FileExists (filepath.Join [params.OutputDir, params.AppName ++ ".dmg"]),
           .DeleteDir (filepath.Join [params.OutputDir, "tmp"])]) := by
  have hv := (validate.Check_eq_none_iff params).mpr ⟨hname, hbin, hid, hicon, hout⟩
  cases hm : (P.MkdirAll (filepath.Join [params.OutputDir, "tmp"]) os.ModePerm s).1 with
  | some err =>
    have hl := (Create_mkdir_failed P params s err hv hm).2
    have := hpre ⟨.MkdirAll (filepath.Join [params.OutputDir, "tmp"]) os.ModePerm, false, some err⟩
      (by rw [hl]; simp) (by simp [Call.op]) (by simp [Call.op])
    simp at this
  | none =>
    obtain ⟨hval, hlog⟩ := Create_steps P params s hv hm
    generalize (P.MkdirAll (filepath.Join [params.OutputDir, "tmp"]) os.ModePerm s).2 = s1
      at hval hlog
    have hb := createAppBundle_stops P params.AppName params.AppBinaryPath params.IconPath
      params.BundleIdentifier (filepath.Join [params.OutputDir, "tmp"]) s1
    have hsl : (createSteps P params (filepath.Join [params.OutputDir, "tmp"]) s1).log =
        (createAppBundle P params.AppName params.AppBinaryPath params.IconPath
          params.BundleIdentifier (filepath.Join [params.OutputDir, "tmp"]) s1).log ++
        ((createSteps P params (filepath.Join [params.OutputDir, "tmp"]) s1).log.drop
          (createAppBundle P params.AppName params.AppBinaryPath params.IconPath
            params.BundleIdentifier (filepath.Join [params.OutputDir, "tmp"]) s1).log.length) := by
      simp [createSteps]
    have hbok : ∀ e ∈ (createAppBundle P params.AppName params.AppBinaryPath params.IconPath
        params.BundleIdentifier (filepath.Join [params.OutputDir, "tmp"]) s1).log,
        e.failed = false := by
      intro e he
      have hc := bundleCalls_ops _ _ _ _ _ e.call (hb.1.subset (List.mem_map.mpr ⟨e, he, rfl⟩))
      have hin : e ∈ (Create P params s).log := by
        rw [hlog, hsl]; simp [he]
      rw [Event.failed_eq_false_iff]
      refine ⟨hpre e hin hc.1 hc.2, ?_⟩
      cases hfd : e.found with
      | false => rfl
      | true => exact absurd (hb.2.2.2 e he hfd) hc.1
    have hbf := hb.ok_iff.mpr hbok
    have hbcalls := hb.2.2.1
    rw [hbf] at hbcalls
    simp only [Bool.false_eq_true, if_false] at hbcalls
    have hbval : (createAppBundle P params.AppName params.AppBinaryPath params.IconPath
        params.BundleIdentifier (filepath.Join [params.OutputDir, "tmp"]) s1).val =
        (filepath.Join [filepath.Join [params.OutputDir, "tmp"], params.AppName ++ ".app"],
          none) := by
      rcases createAppBundle_val P params.AppName params.AppBinaryPath params.IconPath
        params.BundleIdentifier (filepath.Join [params.OutputDir, "tmp"]) s1 with h | ⟨e, h⟩
      · exact h
      · rw [h] at hbf; simp [failedV] at hbf
    have hd := createAppDmg_exists P
      (filepath.Join [filepath.Join [params.OutputDir, "tmp"], params.AppName ++ ".app"])
      (filepath.Join [params.OutputDir, "tmp"]) params.OutputDir
      (createAppBundle P params.AppName params.AppBinaryPath params.IconPath
        params.BundleIdentifier (filepath.Join [params.OutputDir, "tmp"]) s1).st
      (by rw [dmgName_of_bundle _ _ ⟨hname, hsep⟩]; exact hex _)
    rw [dmgName_of_bundle _ _ ⟨hname, hsep⟩] at hd
    have hsv : (createSteps P params (filepath.Join [params.OutputDir, "tmp"]) s1).val =
        ("", some (errors.Wrap (errors.New ("DMG file already exists: [" ++
          filepath.Join [params.OutputDir, params.AppName ++ ".dmg"] ++ "]"))
          "error when creating app DMG")) := by
      simp only [createSteps, Eff.bind_val, Eff.bind_st, hbval, hd.1]
      rfl
    have hslog : (createSteps P params (filepath.Join [params.OutputDir, "tmp"]) s1).log.map
        Event.call =
        bundleCalls params.AppName params.AppBinaryPath params.IconPath params.BundleIdentifier
            (filepath.Join [params.OutputDir, "tmp"]) ++
          [.FileExists (filepath.Join [params.OutputDir, params.AppName ++ ".dmg"])] := by
      simp only [createSteps, Eff.bind_log, Eff.bind_val, Eff.bind_st, hbval, hd.1, hd.2,
        List.map_append, hbcalls.1]
      simp
    constructor
    · refine ⟨_, by rw [hval, hsv], ?_⟩
      simp [errors.Wrap, errors.New, String.append_assoc]
      rfl
    · rw [hlog]
      simp [hslog]

/-- Witness of C3 (amended): the run of the counterexample. -/
theorem Create_existing_artifact_witness :
    (∀ w, (artifactExists.providers.FileExists
      (filepath.Join [testParams.OutputDir, testParams.AppName ++ ".dmg"]) w).1 = (true, none)) ∧
    (Create artifactExists.providers testParams ()).log.map (fun e => e.call.op) =
      [.MkdirAll, .MkdirAll, .MkdirAll, .MkdirAll, .MkdirAll, .GenerateIcons,
        .GenerateIconSet, .CopyFile, .WriteFile, .FileExists, .DeleteDir] := by
  refine ⟨fun _ => rfl, ?_⟩
  have h := (Create_existing_artifact artifactExists.providers testParams () (by decide)
    (by decide) (by decide) (by decide) (by decide) (by decide) (fun _ => rfl) (by decide)).2
  have h2 := congrArg (List.map Call.op) h
  rw [List.map_map] at h2
  exact h2

end dmg

namespace hdiutil
variable {σ : Type}

/-- When the detach command succeeds and the first `osStat` of the volume
returns no error (the mount path is still there), `UnmountDMG` returns nil
after that single poll. -/
theorem UnmountDMG_nil_of_stat_ok (O : Os σ) (volName : String) (s : σ)
    (hexec : (O.ExecCommand "hdiutil" ["detach", volName] s).1.2 = none)
    (hstat : (O.osStat volName (O.ExecCommand "hdiutil" ["detach", volName] s).2).1.2 = none) :
    (UnmountDMG O volName s).val = none ∧
      (UnmountDMG O volName s).log =
        [⟨.ExecCommand "hdiutil" ["detach", volName], none⟩, ⟨.osStat volName, none⟩] := by
  rcases he : O.ExecCommand "hdiutil" ["detach", volName] s with ⟨⟨out, e⟩, s1⟩
  rw [he] at hexec hstat
  simp only at hexec hstat
  subst hexec
  rcases hs : O.osStat volName s1 with ⟨⟨info, e2⟩, s2⟩
  rw [hs] at hstat
  simp only at hstat
  subst hstat
  simp [UnmountDMG, Os.execCommand, Os.stat, retry.Do, retry.doLoop, retry.NewLinearBackoff,
    he, hs, os.IsNotExist, bind, Eff.andThen, pure, Eff.ret]

/-- C4 (the code at the failing input): the detach command succeeds and
every `osStat` of the volume succeeds, so the mount path is still present;
`UnmountDMG` polls once and returns nil. -/
theorem UnmountDMG_returns_nil_while_mounted :
    (UnmountDMG (mockOs none (some ⟨"Test", true⟩, none)) "Test" ()).val = none ∧
    (UnmountDMG (mockOs none (some ⟨"Test", true⟩, none)) "Test" ()).log =
      [⟨.ExecCommand "hdiutil" ["detach", "Test"], none⟩, ⟨.osStat "Test", none⟩] := by
  decide

end hdiutil

namespace filepath

theorem splitSep_no_sep (p : List Char) : ∀ e ∈ splitSep p, '/' ∉ e := by
  induction p with
  | nil => simp [splitSep]
  | cons c cs ih =>
    by_cases hc : c = '/'
    · simpa [splitSep, hc] using ih
    · intro e he
      simp only [splitSep, hc, if_false] at he
      cases hs : splitSep cs with
      | nil => exact absurd hs (splitSep_ne_nil cs)
      | cons h t =>
        rw [hs] at he ih
        rcases List.mem_cons.mp he with he | he
        · rw [he]
          intro hm
          rcases List.mem_cons.mp hm with hm | hm
          · exact hc hm.symm
          · exact ih h (List.mem_cons_self _ _) hm
        · exact ih e (List.mem_cons_of_mem _ he)

theorem NormElems.nil_elems (r : Bool) : NormElems r [] :=
  ⟨by simp, 0, [], by simp, by simp, fun _ => rfl⟩

theorem cleanStep_norm (r : Bool) (acc : List (List Char)) (e : List Char)
    (h : NormElems r acc) (he : '/' ∉ e) : NormElems r (cleanStep r acc e) := by
  obtain ⟨h1, k, reals, hl, hd, hr⟩ := h
  unfold cleanStep
  split
  · exact ⟨h1, k, reals, hl, hd, hr⟩
  · rename_i hne
    push_neg at hne
    split
    · rename_i hdd
      cases hlast : acc.getLast? with
      | none =>
        have hacc : acc = [] := List.getLast?_eq_none_iff.mp hlast
        cases r with
        | true => simpa using ⟨h1, k, reals, hl, hd, hr⟩
        | false =>
          subst hacc
          refine ⟨?_, 1, [], by simp [hdd, dotdot], by simp, by simp⟩
          intro x hx
          simp at hx
          subst hx
          exact ⟨hne.1, he, hne.2⟩
      | some l =>
        simp only
        have hmem : l ∈ acc := List.mem_of_getLast?_eq_some hlast
        split
        · rename_i hldd
          -- the last element is `..`: there are no real elements
          have hreals : reals = [] := by
            by_contra hne2
            have : acc.getLast? = reals.getLast? := by
              rw [hl, List.getLast?_append]
              cases hq : reals.getLast? with
              | none => exact absurd (List.getLast?_eq_none_iff.mp hq) hne2
              | some q => rfl
            rw [hlast] at this
            have hq : l ∈ reals := List.mem_of_getLast?_eq_some this.symm
            rw [hldd] at hq
            exact hd hq
          subst hreals
          rw [List.append_nil] at hl
          have hk : k ≠ 0 := by
            intro hk0
            rw [hk0] at hl
            simp at hl
            rw [hl] at hmem
            simp at hmem
          have hrf : r = false := by
            cases r with
            | false => rfl
            | true => exact absurd (hr rfl) hk
          refine ⟨?_, k + 1, [], ?_, by simp, by simp [hrf]⟩
          · intro x hx
            rcases List.mem_append.mp hx with hx | hx
            · exact h1 x hx
            · simp at hx
              subst hx
              exact ⟨hne.1, he, hne.2⟩
          · rw [hl, hdd, List.append_nil, List.replicate_succ']
            rfl
        · rename_i hldd
          have hreals : reals ≠ [] := by
            intro hre
            rw [hre, List.append_nil] at hl
            rw [hl] at hmem
            exact hldd (List.eq_of_mem_replicate hmem)
          refine ⟨fun x hx => h1 x (List.mem_of_mem_dropLast hx), k, reals.dropLast, ?_, ?_, hr⟩
          · rw [hl, List.dropLast_append_of_ne_nil _ hreals]
          · exact fun hm => hd (List.mem_of_mem_dropLast hm)
    · rename_i hdd
      refine ⟨?_, k, reals ++ [e], by rw [hl, List.append_assoc], ?_, hr⟩
      · intro x hx
        rcases List.mem_append.mp hx with hx | hx
        · exact h1 x hx
        · simp at hx
          subst hx
          exact ⟨hne.1, he, hne.2⟩
      · intro hm
        rcases List.mem_append.mp hm with hm | hm
        · exact hd hm
        · simp at hm
          exact hdd hm.symm

theorem foldl_cleanStep_norm (r : Bool) (elems acc : List (List Char))
    (h : NormElems r acc) (he : ∀ e ∈ elems, '/' ∉ e) :
    NormElems r (elems.foldl (cleanStep r) acc) := by
  induction elems generalizing acc with
  | nil => exact h
  | cons e rest ih =>
    exact ih _ (cleanStep_norm r acc e h (he e (List.mem_cons_self _ _)))
      (fun x hx => he x (List.mem_cons_of_mem _ hx))

theorem cleanElems_norm (r : Bool) (p : List Char) : NormElems r (cleanElems r (splitSep p)) :=
  foldl_cleanStep_norm r _ [] (NormElems.nil_elems r) (splitSep_no_sep p)

end filepath

namespace filepath

theorem foldl_cleanStep_dots (k : Nat) (acc : List (List Char))
    (hacc : ∀ x ∈ acc, x = dotdot) :
    (List.replicate k dotdot).foldl (cleanStep false) acc = acc ++ List.replicate k dotdot := by
  induction k generalizing acc with
  | zero => simp
  | succ k ih =>
    have hstep : cleanStep false acc dotdot = acc ++ [dotdot] := by
      unfold cleanStep
      have h1 : ¬(dotdot = [] ∨ dotdot = ['.']) := by decide
      have h2 : dotdot = ['.', '.'] := rfl
      rw [if_neg h1, if_pos h2]
      cases hlast : acc.getLast? with
      | none => simp
      | some l =>
        have := hacc l (List.mem_of_getLast?_eq_some hlast)
        simp [this, dotdot]
    rw [List.replicate_succ, List.foldl_cons, hstep, ih]
    · simp
    · intro x hx
      rcases List.mem_append.mp hx with hx | hx
      · exact hacc x hx
      · simpa using hx

theorem foldl_cleanStep_reals (r : Bool) (reals acc : List (List Char))
    (h : ∀ e ∈ reals, e ≠ [] ∧ e ≠ ['.'] ∧ e ≠ dotdot) :
    reals.foldl (cleanStep r) acc = acc ++ reals := by
  induction reals generalizing acc with
  | nil => simp
  | cons e rest ih =>
    obtain ⟨h1, h2, h3⟩ := h e (List.mem_cons_self _ _)
    have hstep : cleanStep r acc e = acc ++ [e] := by
      have h3' : e ≠ ['.', '.'] := h3
      simp [cleanStep, h1, h2, h3']
    rw [List.foldl_cons, hstep, ih _ (fun x hx => h x (List.mem_cons_of_mem _ hx))]
    simp

/-- Cleaning leaves the elements of a cleaned path as they are. -/
theorem cleanElems_of_norm (r : Bool) (l : List (List Char)) (h : NormElems r l) :
    cleanElems r l = l := by
  obtain ⟨h1, k, reals, hl, hd, hr⟩ := h
  have hreals : ∀ e ∈ reals, e ≠ [] ∧ e ≠ ['.'] ∧ e ≠ dotdot := by
    intro e he
    have := h1 e (by rw [hl]; exact List.mem_append_right _ he)
    exact ⟨this.1, this.2.2, fun hc => hd (hc ▸ he)⟩
  unfold cleanElems
  rw [hl, List.foldl_append]
  cases r with
  | true =>
    have hk := hr rfl
    subst hk
    simp [foldl_cleanStep_reals true reals [] hreals]
  | false =>
    rw [foldl_cleanStep_dots k [] (by simp), List.nil_append,
      foldl_cleanStep_reals false reals _ hreals]

theorem splitSep_joinSep (l : List (List Char)) (h : ∀ e ∈ l, '/' ∉ e) (hne : l ≠ []) :
    splitSep (joinSep l) = l := by
  induction l with
  | nil => exact absurd rfl hne
  | cons e rest ih =>
    cases rest with
    | nil => simpa [joinSep] using splitSep_of_no_sep e (h e (List.mem_cons_self _ _))
    | cons f rest2 =>
      rw [joinSep, splitSep_append_sep, splitSep_of_no_sep e (h e (List.mem_cons_self _ _)),
        ih (fun x hx => h x (List.mem_cons_of_mem _ hx)) (by simp)]
      rfl

theorem joinSep_head (l : List (List Char)) (h : ∀ e ∈ l, e ≠ [] ∧ '/' ∉ e) (hne : l ≠ []) :
    ∃ c rest, joinSep l = c :: rest ∧ c ≠ '/' := by
  cases l with
  | nil => exact absurd rfl hne
  | cons e rest =>
    obtain ⟨h1, h2⟩ := h e (List.mem_cons_self _ _)
    cases e with
    | nil => exact absurd rfl h1
    | cons c cs =>
      have hc : c ≠ '/' := fun hc => h2 (by simp [hc])
      cases rest with
      | nil => exact ⟨c, cs, rfl, hc⟩
      | cons f rest2 => exact ⟨c, _, rfl, hc⟩

/-- The cleaned path in terms of its elements. -/
theorem cleanChars_cons (c : Char) (rest : List Char) :
    cleanChars (c :: rest) =
      if (if decide (c = '/') = true then
            '/' :: joinSep (cleanElems (decide (c = '/')) (splitSep (c :: rest)))
          else joinSep (cleanElems (decide (c = '/')) (splitSep (c :: rest)))) = [] then ['.']
      else
        if decide (c = '/') = true then
          '/' :: joinSep (cleanElems (decide (c = '/')) (splitSep (c :: rest)))
        else joinSep (cleanElems (decide (c = '/')) (splitSep (c :: rest))) := rfl

theorem cleanChars_rooted (rest : List Char) :
    cleanChars ('/' :: rest) = '/' :: joinSep (cleanElems true (splitSep ('/' :: rest))) := by
  rw [cleanChars_cons]
  simp

theorem cleanChars_unrooted (c : Char) (rest : List Char) (hc : c ≠ '/') :
    cleanChars (c :: rest) =
      if cleanElems false (splitSep (c :: rest)) = [] then ['.']
      else joinSep (cleanElems false (splitSep (c :: rest))) := by
  rw [cleanChars_cons]
  have hn := (cleanElems_norm false (c :: rest)).1
  by_cases hl : cleanElems false (splitSep (c :: rest)) = []
  · simp [hc, hl, joinSep]
  · obtain ⟨d, r2, hj, _⟩ := joinSep_head _ (fun e he => ⟨(hn e he).1, (hn e he).2.1⟩) hl
    simp [hc, hl, hj]

/-- Go's `Clean` is idempotent. -/
theorem cleanChars_idem (p : List Char) : cleanChars (cleanChars p) = cleanChars p := by
  cases p with
  | nil => decide
  | cons c rest =>
    by_cases hc : c = '/'
    · subst hc
      rw [cleanChars_rooted]
      have hn := cleanElems_norm true ('/' :: rest)
      generalize cleanElems true (splitSep ('/' :: rest)) = l at hn ⊢
      rw [cleanChars_rooted]
      congr 1
      by_cases hl : l = []
      · subst hl
        simp [joinSep, splitSep, cleanElems, cleanStep]
      · rw [splitSep, if_pos rfl, splitSep_joinSep l (fun e he => (hn.1 e he).2.1) hl]
        have : cleanElems true ([] :: l) = cleanElems true l := by
          simp [cleanElems, cleanStep]
        rw [this, cleanElems_of_norm true l hn]
    · rw [cleanChars_unrooted c rest hc]
      have hn := cleanElems_norm false (c :: rest)
      generalize cleanElems false (splitSep (c :: rest)) = l at hn ⊢
      by_cases hl : l = []
      · simp only [hl, if_true]
        decide
      · rw [if_neg hl]
        obtain ⟨d, r2, hj, hd⟩ := joinSep_head l (fun e he => ⟨(hn.1 e he).1, (hn.1 e he).2.1⟩) hl
        rw [hj, cleanChars_unrooted d r2 hd, ← hj,
          splitSep_joinSep l (fun e he => (hn.1 e he).2.1) hl, cleanElems_of_norm false l hn,
          if_neg hl]

theorem Clean_idem (p : String) : Clean (Clean p) = Clean p := by
  apply String.ext
  simp [Clean, cleanChars_idem]

theorem cleanChars_ne_nil (p : List Char) : cleanChars p ≠ [] := by
  cases p with
  | nil => simp [cleanChars]
  | cons c rest =>
    by_cases hc : c = '/'
    · subst hc
      rw [cleanChars_rooted]
      simp
    · rw [cleanChars_unrooted c rest hc]
      split
      · simp
      · rename_i hl
        have hn := (cleanElems_norm false (c :: rest)).1
        obtain ⟨d, r2, hj, _⟩ := joinSep_head _ (fun e he => ⟨(hn e he).1, (hn e he).2.1⟩) hl
        rw [hj]
        simp

/-- A cleaned path begins with the separator exactly when the path does. -/
theorem cleanChars_head (p : List Char) :
    (cleanChars p).head? = some '/' ↔ p.head? = some '/' := by
  cases p with
  | nil => simp [cleanChars]
  | cons c rest =>
    by_cases hc : c = '/'
    · subst hc
      rw [cleanChars_rooted]
      simp
    · rw [cleanChars_unrooted c rest hc]
      have hn := (cleanElems_norm false (c :: rest)).1
      by_cases hl : cleanElems false (splitSep (c :: rest)) = []
      · simp [hl, hc]
      · obtain ⟨d, r2, hj, hd⟩ := joinSep_head _ (fun e he => ⟨(hn e he).1, (hn e he).2.1⟩) hl
        simp [hl, hj, hd, hc]

end filepath

namespace filepath

theorem cleanElems_append_real (r : Bool) (t e : List Char) (h : RealElem e) :
    cleanElems r (splitSep (t ++ '/' :: e)) = cleanElems r (splitSep t) ++ [e] := by
  rw [splitSep_append_sep, splitSep_of_no_sep e h.1]
  simp [cleanElems, List.foldl_append, cleanStep_real _ _ _ h]

theorem Solid.append_real (t e : List Char) (h : RealElem e) : Solid (t ++ '/' :: e) := by
  cases t with
  | nil =>
    refine ⟨'/', e, rfl, ?_⟩
    have := cleanElems_append_real true [] e h
    simp only [List.nil_append] at this
    simp [this]
  | cons c rest =>
    refine ⟨c, rest ++ '/' :: e, rfl, ?_⟩
    have := cleanElems_append_real (decide (c = '/')) (c :: rest) e h
    rw [this]
    simp

theorem Solid.real (e : List Char) (h : RealElem e) : Solid e := by
  obtain ⟨h0, h1, h2, h3⟩ := h
  cases e with
  | nil => exact absurd rfl h1
  | cons c cs =>
    have hc : c ≠ '/' := fun hc => h0 (by simp [hc])
    refine ⟨c, cs, rfl, ?_⟩
    simp [hc, splitSep_of_no_sep (c :: cs) h0, cleanElems, cleanStep, h2, h3]

/-- A real element appended to a solid path is appended to its cleaned form. -/
theorem cleanChars_solid_append (p e : List Char) (hp : Solid p) (h : RealElem e) :
    cleanChars (p ++ '/' :: e) = cleanChars p ++ '/' :: e := by
  obtain ⟨c, rest, hpc, hl⟩ := hp
  subst hpc
  have hE := cleanElems_append_real (decide (c = '/')) (c :: rest) e h
  have hn := (cleanElems_norm (decide (c = '/')) (c :: rest)).1
  by_cases hc : c = '/'
  · subst hc
    have h1 : ('/' :: rest) ++ '/' :: e = '/' :: (rest ++ '/' :: e) := rfl
    rw [h1, cleanChars_rooted, cleanChars_rooted, ← h1]
    simp only [decide_True] at hE hl
    rw [hE, joinSep_append_singleton, if_neg hl]
    simp
  · have h1 : (c :: rest) ++ '/' :: e = c :: (rest ++ '/' :: e) := rfl
    rw [h1, cleanChars_unrooted c _ hc, cleanChars_unrooted c rest hc, ← h1]
    simp only [hc, decide_False] at hE hl
    rw [hE, joinSep_append_singleton, if_neg hl, if_neg hl, if_neg (by simp)]

/-- The cleaned form of a solid path is solid, with the same elements. -/
theorem Solid.clean (p : List Char) (hp : Solid p) : Solid (cleanChars p) := by
  obtain ⟨c, rest, hpc, hl⟩ := hp
  subst hpc
  have hn := cleanElems_norm (decide (c = '/')) (c :: rest)
  by_cases hc : c = '/'
  · subst hc
    rw [cleanChars_rooted]
    simp only [decide_True] at hn hl
    generalize cleanElems true (splitSep ('/' :: rest)) = l at hn hl
    refine ⟨'/', joinSep l, rfl, ?_⟩
    simp only [decide_True]
    rw [splitSep, if_pos rfl, splitSep_joinSep l (fun e he => (hn.1 e he).2.1) hl]
    have : cleanElems true ([] :: l) = cleanElems true l := by
      simp [cleanElems, cleanStep]
    rw [this, cleanElems_of_norm true l hn]
    exact hl
  · rw [cleanChars_unrooted c rest hc]
    simp only [hc, decide_False] at hn hl
    generalize cleanElems false (splitSep (c :: rest)) = l at hn hl
    rw [if_neg hl]
    obtain ⟨d, r2, hj, hd⟩ := joinSep_head l (fun e he => ⟨(hn.1 e he).1, (hn.1 e he).2.1⟩) hl
    refine ⟨d, r2, hj, ?_⟩
    simp only [hd, decide_False]
    rw [splitSep_joinSep l (fun e he => (hn.1 e he).2.1) hl, cleanElems_of_norm false l hn]
    exact hl

/-- Real elements appended to a solid path are appended to its cleaned form. -/
theorem cleanChars_solid_sepJoin (fs : List (List Char)) (hfs : ∀ f ∈ fs, RealElem f)
    (p : List Char) (hp : Solid p) :
    cleanChars (p ++ sepJoin fs) = cleanChars p ++ sepJoin fs ∧ Solid (p ++ sepJoin fs) := by
  induction fs generalizing p with
  | nil => simpa [sepJoin] using hp
  | cons f rest ih =>
    have hf := hfs f (List.mem_cons_self _ _)
    have h1 : p ++ sepJoin (f :: rest) = (p ++ '/' :: f) ++ sepJoin rest := by
      simp [sepJoin]
    obtain ⟨ih1, ih2⟩ := ih (fun x hx => hfs x (List.mem_cons_of_mem _ hx)) (p ++ '/' :: f)
      (Solid.append_real p f hf)
    rw [h1]
    refine ⟨?_, ih2⟩
    rw [ih1, cleanChars_solid_append p f hp hf]
    simp [sepJoin]

end filepath

namespace filepath

theorem Cleaned.ne_empty (j : String) (h : Cleaned j) : j ≠ "" := by
  obtain ⟨p, _, hj⟩ := h
  intro hc
  rw [hc] at hj
  exact cleanChars_ne_nil p hj.symm

theorem Cleaned.append (j : String) (h : Cleaned j) (fs : List (List Char))
    (hfs : ∀ f ∈ fs, RealElem f) : Cleaned (j ++ ⟨sepJoin fs⟩) := by
  obtain ⟨p, hp, hj⟩ := h
  obtain ⟨h1, h2⟩ := cleanChars_solid_sepJoin fs hfs p hp
  exact ⟨p ++ sepJoin fs, h2, by rw [h1, String.data_append, hj]⟩

/-- A path joined under a cleaned path is appended to it. -/
theorem Join_nested (j u : String) (h : Cleaned j) (fs : List (List Char))
    (hfs : ∀ f ∈ fs, RealElem f) (hu : '/' :: u.data = sepJoin fs) :
    Join [j, u] = j ++ ⟨sepJoin fs⟩ := by
  have hne := h.ne_empty
  obtain ⟨p, hp, hj⟩ := h
  have h1 := (cleanChars_solid_sepJoin fs hfs (cleanChars p) (Solid.clean p hp)).1
  rw [cleanChars_idem] at h1
  apply String.ext
  simp only [Join, hne, if_false, strings.Join, Clean, String.data_append]
  have : j.data ++ ("/" : String).data ++ u.data = cleanChars p ++ sepJoin fs := by
    rw [← hu, hj]
    simp
  rw [this, h1, hj]

theorem Cleaned.Join_pair (t e : String) (h : RealElem e.data) : Cleaned (Join [t, e]) := by
  have hne : e ≠ "" := fun he => h.2.1 (by simp [he])
  by_cases ht : t = ""
  · exact ⟨e.data, Solid.real _ h, by simp [Join, ht, hne, strings.Join, Clean]⟩
  · exact ⟨t.data ++ '/' :: e.data, Solid.append_real _ _ h,
      by simp [Join, ht, strings.Join, Clean]⟩

/-- A path joined after a directory and a real element is appended to the
join of the two. -/
theorem Join_triple (t e u : String) (h : RealElem e.data) (fs : List (List Char))
    (hfs : ∀ f ∈ fs, RealElem f) (hu : '/' :: u.data = sepJoin fs) :
    Join [t, e, u] = Join [t, e] ++ ⟨sepJoin fs⟩ := by
  have hne : e ≠ "" := fun he => h.2.1 (by simp [he])
  apply String.ext
  by_cases ht : t = ""
  · have h1 := (cleanChars_solid_sepJoin fs hfs e.data (Solid.real _ h)).1
    simp only [Join, ht, hne, if_true, if_false, strings.Join, Clean, String.data_append]
    have : e.data ++ ("/" : String).data ++ u.data = e.data ++ sepJoin fs := by
      rw [← hu]; simp
    rw [this, h1]
  · have h1 := (cleanChars_solid_sepJoin fs hfs (t.data ++ '/' :: e.data)
      (Solid.append_real _ _ h)).1
    simp only [Join, ht, if_false, strings.Join, Clean, String.data_append]
    have : t.data ++ ("/" : String).data ++ (e.data ++ ("/" : String).data ++ u.data) =
        t.data ++ '/' :: e.data ++ sepJoin fs := by
      rw [← hu]; simp
    rw [this, h1]
    simp

end filepath

namespace filepath

theorem Join_pair_ne_empty (o y : String) (hy : y ≠ "") : Join [o, y] ≠ "" := by
  by_cases ho : o = ""
  · simp only [Join, ho, hy, if_true, if_false, strings.Join, Clean]
    intro h
    exact cleanChars_ne_nil _ (congrArg String.data h)
  · simp only [Join, ho, if_false, strings.Join, Clean]
    intro h
    exact cleanChars_ne_nil _ (congrArg String.data h)

theorem IsAbs_iff_head (p : String) : IsAbs p = true ↔ p.data.head? = some '/' := by
  unfold IsAbs strings.HasPrefix
  cases hp : p.data with
  | nil => simp [List.isPrefixOf]
  | cons c cs =>
    have : ("/" : String).data = ['/'] := rfl
    rw [this]
    by_cases hc : c = '/'
    · subst hc
      simp [List.isPrefixOf]
    · have hc2 : ¬ '/' = c := fun h => hc h.symm
      simp [List.isPrefixOf, hc, hc2]

/-- The join of a non-empty directory and a path is absolute exactly when
the directory is. -/
theorem IsAbs_Join_pair (o y : String) (ho : o ≠ "") : IsAbs (Join [o, y]) = IsAbs o := by
  have h1 : (Join [o, y]).data = cleanChars (o.data ++ '/' :: y.data) := by
    simp [Join, ho, strings.Join, Clean]
  have h2 : (o.data ++ '/' :: y.data).head? = o.data.head? := by
    cases hd : o.data with
    | nil => exact absurd (String.ext hd) ho
    | cons c cs => rfl
  have h3 : IsAbs (Join [o, y]) = true ↔ IsAbs o = true := by
    rw [IsAbs_iff_head, IsAbs_iff_head, h1, cleanChars_head, h2]
  cases ha : IsAbs (Join [o, y]) <;> cases hb : IsAbs o <;> simp_all

end filepath

namespace dmg
variable {σ : Type}

/-- The two shapes of the result of `Create`: the path handed to ConvertDMG
with a nil error, or the empty path with an error. -/
theorem Create_val_cases (P : Providers σ) (params : CreateParams) (s : σ) :
    (Create P params s).val =
        (filepath.Join [params.OutputDir,
          filepath.Base (strings.TrimSuffix
            (filepath.Join [filepath.Join [params.OutputDir, "tmp"], params.AppName ++ ".app"])
            ".app") ++ ".dmg"], none) ∨
      ∃ e, (Create P params s).val = ("", some e) := by
  cases hv : validate.Check params with
  | some err => exact Or.inr ⟨_, (Create_invalid P params s err hv).1⟩
  | none =>
    cases hm : (P.MkdirAll (filepath.Join [params.OutputDir, "tmp"]) os.ModePerm s).1 with
    | some err => exact Or.inr ⟨_, (Create_mkdir_failed P params s err hv hm).1⟩
    | none =>
      rw [(Create_steps P params s hv hm).1]
      exact createSteps_val P params _ _

theorem append_dmg_ne_empty (x : String) : x ++ ".dmg" ≠ "" := by
  intro h
  have := congrArg (fun s => s.data.length) h
  simp at this

/-- C14: `Create` never partially reports success. For all parameters and
every behaviour of the providers it returns either a non-empty path with a
nil error, or the empty path with a non-nil error. -/
theorem Create_never_partial (P : Providers σ) (params : CreateParams) (s : σ) :
    ((Create P params s).val.1 ≠ "" ∧ (Create P params s).val.2 = none) ∨
      ((Create P params s).val.1 = "" ∧ (Create P params s).val.2 ≠ none) := by
  rcases Create_val_cases P params s with h | ⟨e, h⟩
  · left
    rw [h]
    exact ⟨filepath.Join_pair_ne_empty _ _ (append_dmg_ne_empty _), rfl⟩
  · right
    rw [h]
    exact ⟨rfl, by simp⟩

/-- Witness of C14: the happy path and the failing mount of `TestCreate`. -/
theorem Create_never_partial_witness :
    (Create happy.providers testParams ()).val = ("outputDir/testAppName.dmg", none) ∧
    (Create mountFails.providers testParams ()).val.1 = "" ∧
    (((Create mountFails.providers testParams ()).val.1 ≠ "" ∧
        (Create mountFails.providers testParams ()).val.2 = none) ∨
      ((Create mountFails.providers testParams ()).val.1 = "" ∧
        (Create mountFails.providers testParams ()).val.2 ≠ none)) :=
  ⟨by decide, by decide, Create_never_partial mountFails.providers testParams ()⟩

/-- C13 (counterexample): on the happy path of `TestCreate`, with the
relative output directory `outputDir`, `Create` succeeds and returns
`outputDir/testAppName.dmg`, which is not an absolute path. -/
theorem Create_returns_relative_path :
    (Create happy.providers testParams ()).val = ("outputDir/testAppName.dmg", none) ∧
    filepath.IsAbs (Create happy.providers testParams ()).val.1 = false := by
  decide

/-- C13 (amended): on success the path `Create` returns is the output
directory joined with the artifact name, as handed to ConvertDMG; it is
absolute exactly when `OutputDir` is absolute, and relative when `OutputDir`
is relative. -/
theorem Create_path_absolute_iff (P : Providers σ) (params : CreateParams) (s : σ)
    (h : (Create P params s).val.2 = none) :
    (Create P params s).val.1 =
        filepath.Join [params.OutputDir,
          filepath.Base (strings.TrimSuffix
            (filepath.Join [filepath.Join [params.OutputDir, "tmp"], params.AppName ++ ".app"])
            ".app") ++ ".dmg"] ∧
      filepath.IsAbs (Create P params s).val.1 = filepath.IsAbs params.OutputDir := by
  have hout : params.OutputDir ≠ "" := by
    cases hv : validate.Check params with
    | some err =>
      rw [(Create_invalid P params s err hv).1] at h
      simp at h
    | none => exact ((validate.Check_eq_none_iff params).mp hv).2.2.2.2
  rcases Create_val_cases P params s with hc | ⟨e, hc⟩
  · rw [hc]
    exact ⟨rfl, filepath.IsAbs_Join_pair _ _ hout⟩
  · rw [hc] at h
    simp at h

/-- Witness of C13 (amended): a relative and an absolute output directory. -/
theorem Create_path_absolute_iff_witness :
    (Create happy.providers testParams ()).val.2 = none ∧
    filepath.IsAbs (Create happy.providers testParams ()).val.1 =
      filepath.IsAbs testParams.OutputDir ∧
    (Create happy.providers absoluteOut ()).val = ("/out/testAppName.dmg", none) ∧
    filepath.IsAbs (Create happy.providers absoluteOut ()).val.1 = true :=
  ⟨by decide, (Create_path_absolute_iff happy.providers testParams () (by decide)).2,
    by decide, by decide⟩

/-- C12 (the code at the failing input): with the application name `a/`
every field is non-empty and every call succeeds; the existence check looks
at `outputDir/.dmg` while ConvertDMG writes, and `Create` returns,
`outputDir/a.dmg`. When `outputDir/a.dmg` already exists, `Create` still
succeeds and hands that path to ConvertDMG. For the bundle path `x/.app`
the two names differ as well. -/
theorem Create_checks_another_file :
    (trailingSep.AppName ≠ "" ∧ trailingSep.AppBinaryPath ≠ "" ∧
      trailingSep.BundleIdentifier ≠ "" ∧ trailingSep.IconPath ≠ "" ∧
      trailingSep.OutputDir ≠ "") ∧
    ((Create happy.providers trailingSep ()).log.map Event.call).filter
        (fun c => decide (c.op = .FileExists ∨ c.op = .ConvertDMG)) =
      [.FileExists "outputDir/.dmg",
       .ConvertDMG "outputDir/tmp/-template.dmg" "outputDir/a.dmg"] ∧
    (Create happy.providers trailingSep ()).val = ("outputDir/a.dmg", none) ∧
    (Create (existsAt "outputDir/a.dmg") trailingSep ()).val = ("outputDir/a.dmg", none) ∧
    filepath.Join ["outputDir", strings.TrimSuffix (filepath.Base "x/.app") ".app" ++ ".dmg"] =
      "outputDir/.dmg" ∧
    filepath.Join ["outputDir", filepath.Base (strings.TrimSuffix "x/.app" ".app") ++ ".dmg"] =
      "outputDir/x.dmg" := by
  decide

end dmg


namespace fs

/-- C18: `FileExists` returns `(true, nil)` exactly when the stat succeeds
with an entry that is not a directory; `(false, nil)` exactly when the stat
fails with a not-exist error; `false` and the error
`[path] is a directory, not a file` when the stat succeeds with a
directory; `false` and the stat error wrapped in
`error when checking if [path] exists` for every other failure of the stat;
and never `true` together with an error. -/
theorem FileExists_cases (osStat : String → Option hdiutil.FileInfo × Option GoError)
    (path : String) :
    (FileExists osStat path = some (true, none) ↔
      ∃ info, osStat path = (some info, none) ∧ info.isDir = false) ∧
    (FileExists osStat path = some (false, none) ↔
      ∃ err, (osStat path).2 = some err ∧ os.IsNotExist (some err) = true) ∧
    (∀ info, osStat path = (some info, none) → info.isDir = true →
      FileExists osStat path =
        some (false, some ⟨"[" ++ path ++ "] is a directory, not a file", false⟩)) ∧
    (∀ err, (osStat path).2 = some err → os.IsNotExist (some err) = false →
      FileExists osStat path =
        some (false,
          some ⟨"error when checking if [" ++ path ++ "] exists" ++ ": " ++ err.msg, false⟩)) ∧
    (∀ err, FileExists osStat path ≠ some (true, some err)) := by
  rcases h : osStat path with ⟨info, err⟩
  cases err with
  | some e =>
    cases hn : e.notExist <;>
      simp [FileExists, h, os.IsNotExist, hn, errors.Wrap]
  | none =>
    cases info with
    | none => simp [FileExists, h]
    | some i =>
      cases hd : i.isDir <;> simp [FileExists, h, hd, errors.New]

/-- The four cases of `TestFileExists`. -/
theorem FileExists_table :
    FileExists (fun _ => (some ⟨"someFile", false⟩, none)) "someFile" = some (true, none) ∧
    FileExists (fun _ => (none, some os.ErrNotExist)) "someFile" = some (false, none) ∧
    FileExists (fun _ => (none, some (errors.New "some error"))) "someFile" =
      some (false, some ⟨"error when checking if [someFile] exists: some error", false⟩) ∧
    FileExists (fun _ => (some ⟨"someFile", true⟩, none)) "someFile" =
      some (false, some ⟨"[someFile] is a directory, not a file", false⟩) := by
  decide

end fs

namespace sips
variable {σ : Type}

/-- The run of `GenerateIcons`: either every command succeeded, one per
size in order, and the result is `nil`; or the commands of the sizes `pre`
succeeded, the command of the next size `z` failed with `cause` and was the
last one, and the result is that error wrapped with the size. -/
theorem GenerateIcons_run (X : syscall.Executor σ) (iconPath outputDir : String)
    (sizes : List Int) (s : σ) :
    ((GenerateIcons X iconPath outputDir sizes s).val = none ∧
      (GenerateIcons X iconPath outputDir sizes s).log =
        sizes.map (fun z => ⟨"sips", sipsArgs iconPath outputDir z, none⟩)) ∨
    ∃ pre z post cause, sizes = pre ++ z :: post ∧
      (GenerateIcons X iconPath outputDir sizes s).log =
        pre.map (fun z => (⟨"sips", sipsArgs iconPath outputDir z, none⟩ : syscall.ExecEvent)) ++
          [⟨"sips", sipsArgs iconPath outputDir z, some cause⟩] ∧
      (GenerateIcons X iconPath outputDir sizes s).val =
        some ⟨"error when generating icon with size " ++ fmt.d z ++ ": " ++ cause.msg, false⟩ := by
  induction sizes generalizing s with
  | nil => exact Or.inl ⟨rfl, rfl⟩
  | cons z rest ih =>
    rcases hx : X "sips" (sipsArgs iconPath outputDir z) s with ⟨⟨out, e⟩, s1⟩
    have hx2 : X "sips" ["-z", fmt.d z, fmt.d z, iconPath, "--out",
        outputDir ++ "/icon_" ++ fmt.d z ++ "x" ++ fmt.d z ++ ".png"] s = ((out, e), s1) := hx
    cases e with
    | some cause =>
      refine Or.inr ⟨[], z, rest, cause, rfl, ?_, ?_⟩
      · simp [GenerateIcons, syscall.Executor.run, hx2, sipsArgs]
      · simp [GenerateIcons, syscall.Executor.run, hx2, errors.Wrap]
    | none =>
      have hl : (GenerateIcons X iconPath outputDir (z :: rest) s).log =
          ⟨"sips", sipsArgs iconPath outputDir z, none⟩ ::
            (GenerateIcons X iconPath outputDir rest s1).log := by
        simp [GenerateIcons, syscall.Executor.run, hx2, sipsArgs]
      have hv : (GenerateIcons X iconPath outputDir (z :: rest) s).val =
          (GenerateIcons X iconPath outputDir rest s1).val := by
        simp [GenerateIcons, syscall.Executor.run, hx2]
      rcases ih s1 with ⟨h1, h2⟩ | ⟨pre, y, post, cause, h1, h2, h3⟩
      · exact Or.inl ⟨by rw [hv, h1], by rw [hl, h2]; rfl⟩
      · exact Or.inr ⟨z :: pre, y, post, cause, by rw [h1]; rfl, by rw [hl, h2]; rfl,
          by rw [hv, h3]⟩

/-- When no `sips` command of the executor fails, `GenerateIcons` returns
nil. -/
theorem GenerateIcons_ok (X : syscall.Executor σ) (iconPath outputDir : String)
    (hX : ∀ arg v, (X "sips" arg v).1.2 = none) :
    ∀ (sizes : List Int) (s : σ), (GenerateIcons X iconPath outputDir sizes s).val = none
  | [], _ => rfl
  | z :: rest, s => by
    rcases hx : X "sips" ["-z", fmt.d z, fmt.d z, iconPath, "--out",
        outputDir ++ "/icon_" ++ fmt.d z ++ "x" ++ fmt.d z ++ ".png"] s with ⟨⟨out, e⟩, s1⟩
    have he := hX ["-z", fmt.d z, fmt.d z, iconPath, "--out",
        outputDir ++ "/icon_" ++ fmt.d z ++ "x" ++ fmt.d z ++ ".png"] s
    rw [hx] at he
    simp only at he
    subst he
    have hv : (GenerateIcons X iconPath outputDir (z :: rest) s).val =
        (GenerateIcons X iconPath outputDir rest s1).val := by
      simp [GenerateIcons, syscall.Executor.run, hx]
    rw [hv]
    exact GenerateIcons_ok X iconPath outputDir hX rest s1

/-- When no `sips` command of the executor fails, no logged command of
`GenerateIcons` carries an error. -/
theorem GenerateIcons_errs (X : syscall.Executor σ) (iconPath outputDir : String)
    (hX : ∀ arg v, (X "sips" arg v).1.2 = none) (sizes : List Int) (s : σ) :
    ∀ ev ∈ (GenerateIcons X iconPath outputDir sizes s).log, ev.err = none := by
  rcases GenerateIcons_run X iconPath outputDir sizes s with
    ⟨_, h2⟩ | ⟨pre, y, post, cause, _, _, h3⟩
  · rw [h2]
    intro ev hev
    obtain ⟨z, _, rfl⟩ := List.mem_map.mp hev
    rfl
  · rw [GenerateIcons_ok X iconPath outputDir hX sizes s] at h3
    exact absurd h3 (by simp)

/-- The files of a run of `GenerateIcons`: every command is `sips`, the
files written are those of the first sizes, and those of all the sizes
unless the last command run failed. -/
theorem GenerateIcons_files (X : syscall.Executor σ) (iconPath outputDir : String)
    (sizes : List Int) (s : σ) :
    (∀ ev ∈ (GenerateIcons X iconPath outputDir sizes s).log, ev.name = "sips") ∧
    (GenerateIcons X iconPath outputDir sizes s).log.map (fun ev => ev.arg.getLast?) <+:
      sizes.map (fun z => (sipsArgs iconPath outputDir z).getLast?) ∧
    ((GenerateIcons X iconPath outputDir sizes s).log.map (fun ev => ev.arg.getLast?) =
        sizes.map (fun z => (sipsArgs iconPath outputDir z).getLast?) ∨
      ∃ ev, (GenerateIcons X iconPath outputDir sizes s).log.getLast? = some ev ∧
        ev.err ≠ none) := by
  rcases GenerateIcons_run X iconPath outputDir sizes s with
    ⟨_, h2⟩ | ⟨pre, y, post, cause, h1, h2, _⟩
  · rw [h2]
    refine ⟨?_, ?_, Or.inl ?_⟩
    · intro ev hev
      obtain ⟨z, _, rfl⟩ := List.mem_map.mp hev
      rfl
    · rw [List.map_map]
      exact List.prefix_refl _
    · rw [List.map_map]
      rfl
  · rw [h2]
    refine ⟨?_, ?_, Or.inr ⟨⟨"sips", sipsArgs iconPath outputDir y, some cause⟩, ?_, ?_⟩⟩
    · intro ev hev
      rcases List.mem_append.mp hev with hev | hev
      · obtain ⟨z, _, rfl⟩ := List.mem_map.mp hev
        rfl
      · rw [List.mem_singleton] at hev
        rw [hev]
    · rw [h1]
      refine ⟨post.map (fun z => (sipsArgs iconPath outputDir z).getLast?), ?_⟩
      simp [List.map_append, List.map_map, Function.comp]
    · simp
    · simp

/-- C19: `GenerateIcons` is fail-fast and ordered. For every list of sizes
it runs the `sips` commands of the sizes in the given order, each with the
arguments `-z s s iconPath --out outputDir/icon_sxs.png`. Either all of
them succeed and the result is `nil`, or the command of one size fails: it
is the last command run, no command is run for a later size, and the error
is `error when generating icon with size s: cause`. The result is `nil`
exactly when every command that ran succeeded. -/
theorem GenerateIcons_fail_fast (X : syscall.Executor σ) (iconPath outputDir : String)
    (sizes : List Int) (s : σ) :
    (((GenerateIcons X iconPath outputDir sizes s).val = none ∧
        (GenerateIcons X iconPath outputDir sizes s).log =
          sizes.map (fun z => ⟨"sips", ["-z", fmt.d z, fmt.d z, iconPath, "--out",
            outputDir ++ "/icon_" ++ fmt.d z ++ "x" ++ fmt.d z ++ ".png"], none⟩)) ∨
      ∃ pre z post cause, sizes = pre ++ z :: post ∧
        (GenerateIcons X iconPath outputDir sizes s).log =
          pre.map (fun z => (⟨"sips", ["-z", fmt.d z, fmt.d z, iconPath, "--out",
            outputDir ++ "/icon_" ++ fmt.d z ++ "x" ++ fmt.d z ++ ".png"], none⟩ :
              syscall.ExecEvent)) ++
            [⟨"sips", ["-z", fmt.d z, fmt.d z, iconPath, "--out",
              outputDir ++ "/icon_" ++ fmt.d z ++ "x" ++ fmt.d z ++ ".png"], some cause⟩] ∧
        (GenerateIcons X iconPath outputDir sizes s).val =
          some ⟨"error when generating icon with size " ++ fmt.d z ++ ": " ++ cause.msg,
            false⟩) ∧
    ((GenerateIcons X iconPath outputDir sizes s).val = none ↔
      ∀ ev ∈ (GenerateIcons X iconPath outputDir sizes s).log, ev.err = none) := by
  refine ⟨GenerateIcons_run X iconPath outputDir sizes s, ?_⟩
  rcases GenerateIcons_run X iconPath outputDir sizes s with
    ⟨h1, h2⟩ | ⟨pre, y, post, cause, h1, h2, h3⟩
  · rw [h1, h2]
    simp
  · rw [h2, h3]
    simp only [reduceCtorEq, false_iff, not_forall]
    exact ⟨⟨"sips", sipsArgs iconPath outputDir y, some cause⟩, by simp, by simp⟩

/-- The two cases of `TestGenerateIcons`, and an executor that fails at the
second size: the first command has run, the third has not. -/
theorem GenerateIcons_table :
    (GenerateIcons (syscall.mockOsCommandExecutor none) "icon.png" "output" [16, 32] ()).val =
      none ∧
    (GenerateIcons (syscall.mockOsCommandExecutor none) "icon.png" "output" [16, 32] ()).log =
      [⟨"sips", ["-z", "16", "16", "icon.png", "--out", "output/icon_16x16.png"], none⟩,
       ⟨"sips", ["-z", "32", "32", "icon.png", "--out", "output/icon_32x32.png"], none⟩] ∧
    (GenerateIcons (syscall.mockOsCommandExecutor (some (errors.New "some error")))
        "icon.png" "output" [16, 32] ()).val =
      some ⟨"error when generating icon with size 16: some error", false⟩ ∧
    (GenerateIcons (syscall.mockOsCommandExecutor (some (errors.New "some error")))
        "icon.png" "output" [16, 32] ()).log =
      [⟨"sips", ["-z", "16", "16", "icon.png", "--out", "output/icon_16x16.png"],
        some ⟨"some error", false⟩⟩] ∧
    (GenerateIcons (failsAt 32) "icon.png" "output" [16, 32, 64] ()).val =
      some ⟨"error when generating icon with size 32: some error", false⟩ ∧
    (GenerateIcons (failsAt 32) "icon.png" "output" [16, 32, 64] ()).log =
      [⟨"sips", ["-z", "16", "16", "icon.png", "--out", "output/icon_16x16.png"], none⟩,
       ⟨"sips", ["-z", "32", "32", "icon.png", "--out", "output/icon_32x32.png"],
        some ⟨"some error", false⟩⟩] := by
  decide

end sips

namespace dmg
variable {σ τ : Type}

theorem String_append_left_injective (a : String) :
    Function.Injective (fun x : String => a ++ x) := by
  intro x y h
  have h2 := congrArg String.data h
  simp only [String.data_append] at h2
  exact String.ext (List.append_cancel_left h2)

theorem createIconSet_calls (P : Providers σ) (i n d : String) (s : σ) :
    (createIconSet P i n d s).log.head?.map Event.call =
        some (.GenerateIcons i (filepath.Join [d, iconSetDir]) [16, 32, 64, 128, 256, 512, 1024]) ∧
      ((P.GenerateIcons i (filepath.Join [d, iconSetDir]) [16, 32, 64, 128, 256, 512, 1024] s).1 =
          none →
        (createIconSet P i n d s).log.map Event.call =
          [.GenerateIcons i (filepath.Join [d, iconSetDir]) [16, 32, 64, 128, 256, 512, 1024],
           .GenerateIconSet (filepath.Join [d, iconSetDir])
             (filepath.Join [d, n, resourcesDir])]) := by
  constructor
  · simp [createIconSet, Providers.generateIcons]
  · intro h
    simp only [createIconSet, Providers.generateIcons, Providers.generateIconSet, Eff.bind_log,
      Eff.bind_val, Eff.bind_st, perform_log, perform_val, perform_st, h]
    generalize (P.GenerateIconSet _ _ _).1 = v
    cases v <;> simp

/-- C20: `createIconSet` first asks for the seven sizes 16, 32, 64, 128,
256, 512 and 1024, in that order and whatever its inputs, rendered into
`Join(appBundleDirPath, "icon.iconset")`, and makes no other call than the
compilation of that same directory, which follows when the sizes were
rendered. With these arguments `sips.GenerateIcons` runs `sips` commands
only, the k-th writing `icon_SxS.png` of the k-th size in that directory:
the files written are the first of the seven files listed, and all seven
unless the last command run failed. When no `sips` command of the executor
fails, the result is nil and the seven files are written, one per size. The
seven file names are pairwise distinct, and `iconutil.GenerateIconSet`
hands the directory it is given to `iconutil` as the source. -/
theorem createIconSet_seven_sizes (P : Providers σ) (i n d : String) (s : σ)
    (X : syscall.Executor τ) (w : τ) (out : String) :
    (createIconSet P i n d s).log.head?.map Event.call =
      some (.GenerateIcons i (filepath.Join [d, "icon.iconset"])
        [16, 32, 64, 128, 256, 512, 1024]) ∧
    (createIconSet P i n d s).log.map Event.call <+:
      [.GenerateIcons i (filepath.Join [d, "icon.iconset"]) [16, 32, 64, 128, 256, 512, 1024],
       .GenerateIconSet (filepath.Join [d, "icon.iconset"])
         (filepath.Join [d, n, "Contents/Resources"])] ∧
    ((P.GenerateIcons i (filepath.Join [d, "icon.iconset"])
        [16, 32, 64, 128, 256, 512, 1024] s).1 = none →
      (createIconSet P i n d s).log.map Event.call =
        [.GenerateIcons i (filepath.Join [d, "icon.iconset"]) [16, 32, 64, 128, 256, 512, 1024],
         .GenerateIconSet (filepath.Join [d, "icon.iconset"])
           (filepath.Join [d, n, "Contents/Resources"])]) ∧
    (∀ ev ∈ (sips.GenerateIcons X i (filepath.Join [d, "icon.iconset"])
        [16, 32, 64, 128, 256, 512, 1024] w).log, ev.name = "sips") ∧
    (sips.GenerateIcons X i (filepath.Join [d, "icon.iconset"])
        [16, 32, 64, 128, 256, 512, 1024] w).log.map (fun ev => ev.arg.getLast?) <+:
      [some (filepath.Join [d, "icon.iconset"] ++ "/icon_16x16.png"),
       some (filepath.Join [d, "icon.iconset"] ++ "/icon_32x32.png"),
       some (filepath.Join [d, "icon.iconset"] ++ "/icon_64x64.png"),
       some (filepath.Join [d, "icon.iconset"] ++ "/icon_128x128.png"),
       some (filepath.Join [d, "icon.iconset"] ++ "/icon_256x256.png"),
       some (filepath.Join [d, "icon.iconset"] ++ "/icon_512x512.png"),
       some (filepath.Join [d, "icon.iconset"] ++ "/icon_1024x1024.png")] ∧
    ((sips.GenerateIcons X i (filepath.Join [d, "icon.iconset"])
          [16, 32, 64, 128, 256, 512, 1024] w).log.map (fun ev => ev.arg.getLast?) =
        [some (filepath.Join [d, "icon.iconset"] ++ "/icon_16x16.png"),
         some (filepath.Join [d, "icon.iconset"] ++ "/icon_32x32.png"),
         some (filepath.Join [d, "icon.iconset"] ++ "/icon_64x64.png"),
         some (filepath.Join [d, "icon.iconset"] ++ "/icon_128x128.png"),
         some (filepath.Join [d, "icon.iconset"] ++ "/icon_256x256.png"),
         some (filepath.Join [d, "icon.iconset"] ++ "/icon_512x512.png"),
         some (filepath.Join [d, "icon.iconset"] ++ "/icon_1024x1024.png")] ∨
      ∃ ev, (sips.GenerateIcons X i (filepath.Join [d, "icon.iconset"])
          [16, 32, 64, 128, 256, 512, 1024] w).log.getLast? = some ev ∧ ev.err ≠ none) ∧
    ((∀ arg v, (X "sips" arg v).1.2 = none) →
      (sips.GenerateIcons X i (filepath.Join [d, "icon.iconset"])
          [16, 32, 64, 128, 256, 512, 1024] w).val = none ∧
      (sips.GenerateIcons X i (filepath.Join [d, "icon.iconset"])
          [16, 32, 64, 128, 256, 512, 1024] w).log.map (fun ev => ev.arg.getLast?) =
        [some (filepath.Join [d, "icon.iconset"] ++ "/icon_16x16.png"),
         some (filepath.Join [d, "icon.iconset"] ++ "/icon_32x32.png"),
         some (filepath.Join [d, "icon.iconset"] ++ "/icon_64x64.png"),
         some (filepath.Join [d, "icon.iconset"] ++ "/icon_128x128.png"),
         some (filepath.Join [d, "icon.iconset"] ++ "/icon_256x256.png"),
         some (filepath.Join [d, "icon.iconset"] ++ "/icon_512x512.png"),
         some (filepath.Join [d, "icon.iconset"] ++ "/icon_1024x1024.png")]) ∧
    [filepath.Join [d, "icon.iconset"] ++ "/icon_16x16.png",
     filepath.Join [d, "icon.iconset"] ++ "/icon_32x32.png",
     filepath.Join [d, "icon.iconset"] ++ "/icon_64x64.png",
     filepath.Join [d, "icon.iconset"] ++ "/icon_128x128.png",
     filepath.Join [d, "icon.iconset"] ++ "/icon_256x256.png",
     filepath.Join [d, "icon.iconset"] ++ "/icon_512x512.png",
     filepath.Join [d, "icon.iconset"] ++ "/icon_1024x1024.png"].Nodup ∧
    (iconutil.GenerateIconSet X (filepath.Join [d, "icon.iconset"]) out w).log.map
        (fun ev => (ev.name, ev.arg)) =
      [("iconutil", ["-c", "icns", "-o", out ++ "/icon.icns",
        filepath.Join [d, "icon.iconset"]])] := by
  have hfiles : ([16, 32, 64, 128, 256, 512, 1024] : List Int).map
      (fun z => (sips.sipsArgs i (filepath.Join [d, "icon.iconset"]) z).getLast?) =
      [some (filepath.Join [d, "icon.iconset"] ++ "/icon_16x16.png"),
       some (filepath.Join [d, "icon.iconset"] ++ "/icon_32x32.png"),
       some (filepath.Join [d, "icon.iconset"] ++ "/icon_64x64.png"),
       some (filepath.Join [d, "icon.iconset"] ++ "/icon_128x128.png"),
       some (filepath.Join [d, "icon.iconset"] ++ "/icon_256x256.png"),
       some (filepath.Join [d, "icon.iconset"] ++ "/icon_512x512.png"),
       some (filepath.Join [d, "icon.iconset"] ++ "/icon_1024x1024.png")] := by
    have e16 : fmt.d 16 = "16" := by decide
    have e32 : fmt.d 32 = "32" := by decide
    have e64 : fmt.d 64 = "64" := by decide
    have e128 : fmt.d 128 = "128" := by decide
    have e256 : fmt.d 256 = "256" := by decide
    have e512 : fmt.d 512 = "512" := by decide
    have e1024 : fmt.d 1024 = "1024" := by decide
    simp only [List.map_cons, List.map_nil, sips.sipsArgs, e16, e32, e64, e128, e256, e512,
      e1024, String.append_assoc]
    rfl
  obtain ⟨r1, r2, r3⟩ := sips.GenerateIcons_files X i (filepath.Join [d, "icon.iconset"])
    [16, 32, 64, 128, 256, 512, 1024] w
  rw [hfiles] at r2 r3
  refine ⟨(createIconSet_calls P i n d s).1, (createIconSet_stops P i n d s).1,
    (createIconSet_calls P i n d s).2, r1, r2, r3, ?_, ?_, ?_⟩
  · intro hX
    have hv := sips.GenerateIcons_ok X i (filepath.Join [d, "icon.iconset"]) hX
      [16, 32, 64, 128, 256, 512, 1024] w
    refine ⟨hv, ?_⟩
    rcases r3 with h | ⟨ev, hl, he⟩
    · exact h
    · exact absurd (sips.GenerateIcons_errs X i (filepath.Join [d, "icon.iconset"]) hX
        [16, 32, 64, 128, 256, 512, 1024] w ev (List.mem_of_getLast?_eq_some hl)) he
  · have hn : ["/icon_16x16.png", "/icon_32x32.png", "/icon_64x64.png", "/icon_128x128.png",
        "/icon_256x256.png", "/icon_512x512.png", "/icon_1024x1024.png"].Nodup := by decide
    exact hn.map (String_append_left_injective (filepath.Join [d, "icon.iconset"]))
  · generalize hx : X "iconutil" ["-c", "icns", "-o", out ++ "/icon.icns",
      filepath.Join [d, "icon.iconset"]] w = r
    rcases r with ⟨⟨o, e⟩, w1⟩
    cases e <;> simp [iconutil.GenerateIconSet, syscall.Executor.run, hx]

/-- Witness of C20: with the mock executor of sips_test.go that never
fails, the seven files are written and the result is nil. -/
theorem createIconSet_seven_sizes_witness :
    (∀ arg v, (syscall.mockOsCommandExecutor none "sips" arg v).1.2 = none) ∧
    (sips.GenerateIcons (syscall.mockOsCommandExecutor none) "icon.png"
        (filepath.Join ["tmp/App.app", "icon.iconset"])
        [16, 32, 64, 128, 256, 512, 1024] ()).val = none ∧
    (sips.GenerateIcons (syscall.mockOsCommandExecutor none) "icon.png"
        (filepath.Join ["tmp/App.app", "icon.iconset"])
        [16, 32, 64, 128, 256, 512, 1024] ()).log.map (fun ev => ev.arg.getLast?) =
      [some (filepath.Join ["tmp/App.app", "icon.iconset"] ++ "/icon_16x16.png"),
       some (filepath.Join ["tmp/App.app", "icon.iconset"] ++ "/icon_32x32.png"),
       some (filepath.Join ["tmp/App.app", "icon.iconset"] ++ "/icon_64x64.png"),
       some (filepath.Join ["tmp/App.app", "icon.iconset"] ++ "/icon_128x128.png"),
       some (filepath.Join ["tmp/App.app", "icon.iconset"] ++ "/icon_256x256.png"),
       some (filepath.Join ["tmp/App.app", "icon.iconset"] ++ "/icon_512x512.png"),
       some (filepath.Join ["tmp/App.app", "icon.iconset"] ++ "/icon_1024x1024.png")] ∧
    (sips.GenerateIcons (syscall.mockOsCommandExecutor none) "icon.png"
        "tmp/App.app/icon.iconset" [16, 32, 64, 128, 256, 512, 1024] ()).log.map
        (fun ev => ev.arg.getLast?) =
      [some "tmp/App.app/icon.iconset/icon_16x16.png",
       some "tmp/App.app/icon.iconset/icon_32x32.png",
       some "tmp/App.app/icon.iconset/icon_64x64.png",
       some "tmp/App.app/icon.iconset/icon_128x128.png",
       some "tmp/App.app/icon.iconset/icon_256x256.png",
       some "tmp/App.app/icon.iconset/icon_512x512.png",
       some "tmp/App.app/icon.iconset/icon_1024x1024.png"] :=
  ⟨fun _ _ => rfl,
    ((createIconSet_seven_sizes happy.providers "icon.png" "App.app" "tmp/App.app" ()
      (syscall.mockOsCommandExecutor none) () "out").2.2.2.2.2.2.1 (fun _ _ => rfl)).1,
    ((createIconSet_seven_sizes happy.providers "icon.png" "App.app" "tmp/App.app" ()
      (syscall.mockOsCommandExecutor none) () "out").2.2.2.2.2.2.1 (fun _ _ => rfl)).2,
    by decide⟩

end dmg

namespace strings

theorem replaceChars_zero (old new : List Char) :
    ∀ s : List Char, replaceChars old new s 0 0 = s
  | [] => rfl
  | c :: cs => by rw [replaceChars, replaceChars_zero old new cs]

/-- The characters skipped after a match. -/
theorem replaceChars_skip (old new : List Char) (rest : List Char) (limit : Nat) :
    ∀ xs : List Char, replaceChars old new (xs ++ rest) xs.length limit =
      replaceChars old new rest 0 limit
  | [] => rfl
  | x :: xs => by
    rw [List.cons_append, List.length_cons, replaceChars, replaceChars_skip old new rest limit xs]

/-- A match at the head of the text is replaced. -/
theorem replaceChars_match (o : Char) (os new rest : List Char) (limit : Nat) :
    replaceChars (o :: os) new ((o :: os) ++ rest) 0 (limit + 1) =
      new ++ replaceChars (o :: os) new rest 0 limit := by
  have hp : (o :: os).isPrefixOf (o :: (os ++ rest)) = true := by
    rw [List.isPrefixOf_iff_prefix]
    exact ⟨rest, rfl⟩
  rw [List.cons_append, replaceChars, if_pos hp]
  have : (o :: os).length - 1 = os.length := by simp
  rw [this, replaceChars_skip]

/-- A stretch of the text at no position of which `old` starts is kept. -/
theorem replaceChars_keep (old new rest : List Char) (limit : Nat) :
    ∀ p : List Char, (∀ t ∈ p.tails, t ≠ [] → old.isPrefixOf (t ++ rest) = false) →
      replaceChars old new (p ++ rest) 0 limit = p ++ replaceChars old new rest 0 limit
  | [], _ => rfl
  | c :: cs, h => by
    have h1 : old.isPrefixOf (c :: (cs ++ rest)) = false :=
      h (c :: cs) (by simp) (by simp)
    have h2 : ∀ t ∈ cs.tails, t ≠ [] → old.isPrefixOf (t ++ rest) = false := by
      intro t ht hne
      exact h t (by simp [List.tails, ht]) hne
    have ih := replaceChars_keep old new rest limit cs h2
    cases limit with
    | zero =>
      rw [replaceChars_zero, replaceChars_zero]
    | succ l =>
      rw [List.cons_append, replaceChars, h1]
      simp only [Bool.false_eq_true, if_false]
      rw [ih]
      rfl

/-- A stretch of the text without the first character of `old` is kept. -/
theorem replaceChars_keep_head (o : Char) (os new rest : List Char) (limit : Nat)
    (p : List Char) (h : o ∉ p) :
    replaceChars (o :: os) new (p ++ rest) 0 limit =
      p ++ replaceChars (o :: os) new rest 0 limit := by
  apply replaceChars_keep
  intro t ht hne
  cases t with
  | nil => exact absurd rfl hne
  | cons c cs =>
    have hc : c ∈ p := by
      have hsuf : (c :: cs) <:+ p := (List.mem_tails _ _).mp ht
      exact hsuf.subset (by simp)
    have hco : ¬ o = c := fun e => h (e ▸ hc)
    simp [List.isPrefixOf, hco]

theorem isPrefixOf_append_char (old xs rest : List Char) (m : Char)
    (h : old.isPrefixOf (xs ++ m :: rest) = true) : old.isPrefixOf xs = true ∨ m ∈ old := by
  rw [List.isPrefixOf_iff_prefix] at h
  rcases List.prefix_or_prefix_of_prefix h (List.prefix_append xs (m :: rest)) with h1 | h1
  · exact Or.inl (List.isPrefixOf_iff_prefix.mpr h1)
  · obtain ⟨t, ht⟩ := h1
    subst ht
    have h3 : t <+: m :: rest := (List.prefix_append_right_inj xs).mp h
    cases t with
    | nil =>
      left
      rw [List.isPrefixOf_iff_prefix]
      simp
    | cons c cs =>
      right
      have := List.cons_prefix_cons.mp h3
      simp [this.1]

/-- A stretch of the text that does not contain `old`, followed by a
character that is not in `old`, is kept. -/
theorem replaceChars_keep_free (old new rest : List Char) (limit : Nat) (p : List Char)
    (m : Char) (hp : p.tails.any (fun t => old.isPrefixOf t) = false) (hm : m ∉ old) :
    replaceChars old new (p ++ m :: rest) 0 limit =
      p ++ replaceChars old new (m :: rest) 0 limit := by
  apply replaceChars_keep
  intro t ht _
  cases hpre : old.isPrefixOf (t ++ m :: rest) with
  | false => rfl
  | true =>
    rcases isPrefixOf_append_char old t rest m hpre with h1 | h1
    · have := List.any_eq_false.mp hp t ht
      simp [h1] at this
    · exact absurd h1 hm

end strings

namespace strings

/-- A text that does not contain `old` is kept. -/
theorem replaceChars_none (old new : List Char) (limit : Nat) (p : List Char)
    (hp : p.tails.any (fun t => old.isPrefixOf t) = false) :
    replaceChars old new p 0 limit = p := by
  have h := replaceChars_keep old new [] limit p (by
    intro t ht _
    rw [List.append_nil]
    exact Bool.eq_false_iff.mpr (List.any_eq_false.mp hp t ht))
  simp only [List.append_nil] at h
  rw [h]
  cases limit <;> simp [replaceChars]

/-- `Replace` without a limit, for two different strings of which the
first is not empty. -/
theorem Replace_all (s old new : String) (hne : old ≠ new) (ho : old.data ≠ []) :
    (Replace s old new (-1)).data =
      replaceChars old.data new.data s.data 0 (s.data.length + 1) := by
  simp [Replace, hne, ho]

theorem Replace_same (s old : String) (n : Int) : Replace s old old n = s := by
  simp [Replace]

end strings

namespace dmg

set_option maxRecDepth 100000

/-- The template is its three constant pieces around the two tokens. -/
theorem infoPlistTpl_pieces :
    infoPlistTpl =
      plistPrefix ++ "\x7b\x7b.AppName\x7d\x7d" ++ plistMiddle ++
        "\x7b\x7b.BundleIdentifier\x7d\x7d" ++ plistSuffix := by
  decide

/-- The first replacement of `createInfoPlistFile`. -/
theorem Replace_appName (base : String) :
    strings.Replace infoPlistTpl "\x7b\x7b.AppName\x7d\x7d" base (-1) =
      plistPrefix ++ base ++ plistMiddle ++ "\x7b\x7b.BundleIdentifier\x7d\x7d" ++
        plistSuffix := by
  by_cases hb : "\x7b\x7b.AppName\x7d\x7d" = base
  · rw [← hb, strings.Replace_same]
    exact infoPlistTpl_pieces
  · apply String.ext
    rw [strings.Replace_all _ _ _ hb (by decide)]
    have htpl : infoPlistTpl.data =
        plistPrefix.data ++ (('\x7b' :: "\x7b.AppName\x7d\x7d".data) ++
          (plistMiddle ++ "\x7b\x7b.BundleIdentifier\x7d\x7d" ++ plistSuffix).data) := by
      decide
    have hold : ("\x7b\x7b.AppName\x7d\x7d" : String).data =
        '\x7b' :: "\x7b.AppName\x7d\x7d".data := rfl
    have hP : '\x7b' ∉ plistPrefix.data := by decide
    have hrest : (plistMiddle ++ "\x7b\x7b.BundleIdentifier\x7d\x7d" ++ plistSuffix).data.tails.any
        (fun t => ('\x7b' :: "\x7b.AppName\x7d\x7d".data).isPrefixOf t) = false := by
      decide
    rw [hold]
    generalize infoPlistTpl.data.length = L
    rw [htpl, strings.replaceChars_keep_head _ _ _ _ _ _ hP, strings.replaceChars_match,
      strings.replaceChars_none _ _ _ _ hrest]
    simp only [String.data_append, List.append_assoc]

/-- The second replacement of `createInfoPlistFile`, when the name of the
executable does not contain the token of the bundle identifier. -/
theorem Replace_bundleIdentifier (base i : String)
    (h : strings.Contains base "\x7b\x7b.BundleIdentifier\x7d\x7d" = false) :
    strings.Replace
        (plistPrefix ++ base ++ plistMiddle ++ "\x7b\x7b.BundleIdentifier\x7d\x7d" ++ plistSuffix)
        "\x7b\x7b.BundleIdentifier\x7d\x7d" i (-1) =
      plistPrefix ++ base ++ plistMiddle ++ i ++ plistSuffix := by
  by_cases hb : "\x7b\x7b.BundleIdentifier\x7d\x7d" = i
  · rw [← hb, strings.Replace_same]
  · apply String.ext
    rw [strings.Replace_all _ _ _ hb (by decide)]
    obtain ⟨M, hM⟩ : ∃ M, plistMiddle.data = '<' :: M := ⟨_, rfl⟩
    have hold : ("\x7b\x7b.BundleIdentifier\x7d\x7d" : String).data =
        '\x7b' :: "\x7b.BundleIdentifier\x7d\x7d".data := rfl
    have hP : '\x7b' ∉ plistPrefix.data := by decide
    have hMid : '\x7b' ∉ plistMiddle.data := by decide
    have hS : '\x7b' ∉ plistSuffix.data := by decide
    have hlt : '<' ∉ ('\x7b' :: "\x7b.BundleIdentifier\x7d\x7d".data) := by decide
    have hs : (plistPrefix ++ base ++ plistMiddle ++ "\x7b\x7b.BundleIdentifier\x7d\x7d" ++
          plistSuffix).data =
        plistPrefix.data ++ (base.data ++ '<' :: (M ++
          (('\x7b' :: "\x7b.BundleIdentifier\x7d\x7d".data) ++ (plistSuffix.data ++ [])))) := by
      simp only [String.data_append, List.append_assoc, hM, hold, List.cons_append,
        List.append_nil]
    have hbase : base.data.tails.any
        (fun t => ('\x7b' :: "\x7b.BundleIdentifier\x7d\x7d".data).isPrefixOf t) = false := h
    rw [hM] at hMid
    rw [hold]
    generalize (plistPrefix ++ base ++ plistMiddle ++ "\x7b\x7b.BundleIdentifier\x7d\x7d" ++
          plistSuffix).data.length = L at hs ⊢
    rw [hs, strings.replaceChars_keep_head _ _ _ _ _ _ hP,
      strings.replaceChars_keep_free _ _ _ _ _ _ hbase hlt]
    rw [show ('<' :: (M ++ (('\x7b' :: "\x7b.BundleIdentifier\x7d\x7d".data) ++
          (plistSuffix.data ++ [])))) =
        ('<' :: M) ++ (('\x7b' :: "\x7b.BundleIdentifier\x7d\x7d".data) ++
          (plistSuffix.data ++ [])) from rfl,
      strings.replaceChars_keep_head _ _ _ _ _ _ hMid, strings.replaceChars_match,
      strings.replaceChars_keep_head _ _ _ _ _ _ hS]
    have hnil : strings.replaceChars ('\x7b' :: "\x7b.BundleIdentifier\x7d\x7d".data) i.data
        [] 0 L = [] := by
      cases L <;> rfl
    rw [hnil]
    simp only [String.data_append, List.append_assoc, hM, List.cons_append, List.append_nil]

end dmg

namespace dmg
variable {σ : Type}

set_option maxRecDepth 100000

/-- The single call of `createInfoPlistFile`. -/
theorem createInfoPlistFile_calls (P : Providers σ) (b n d i : String) (s : σ) :
    (createInfoPlistFile P b n d i s).log.map Event.call =
      [.WriteFile (filepath.Join [filepath.Join [d, n, contentsDir], "Info.plist"])
        (strings.Replace
          (strings.Replace infoPlistTpl "\x7b\x7b.AppName\x7d\x7d" (filepath.Base b) (-1))
          "\x7b\x7b.BundleIdentifier\x7d\x7d" i (-1))
        os.ModePerm] := by
  simp only [createInfoPlistFile, Providers.writeFile, Eff.bind_log, perform_log, perform_val,
    perform_st]
  generalize (P.WriteFile _ _ _ _).1 = v
  cases v <;> simp

/-- C17 (counterexample): for the binary path `{{.BundleIdentifier}}`, whose
last element is that same text, and the bundle identifier `id`, the text
written has `id` at the place of the executable name: it is not the
template with that place filled with `Base(B)`. -/
theorem createInfoPlistFile_rewrites_executable_name :
    filepath.Base "\x7b\x7b.BundleIdentifier\x7d\x7d" = "\x7b\x7b.BundleIdentifier\x7d\x7d" ∧
    (createInfoPlistFile happy.providers "\x7b\x7b.BundleIdentifier\x7d\x7d" "n.app" "d" "id"
        ()).log.map Event.call =
      [.WriteFile "d/n.app/Contents/Info.plist"
        (plistPrefix ++ "id" ++ plistMiddle ++ "id" ++ plistSuffix) os.ModePerm] ∧
    plistPrefix ++ "id" ++ plistMiddle ++ "id" ++ plistSuffix ≠
      plistPrefix ++ filepath.Base "\x7b\x7b.BundleIdentifier\x7d\x7d" ++ plistMiddle ++ "id" ++
        plistSuffix := by
  decide

/-- C17 (amended): for every binary path B whose last element `Base(B)`
does not contain the token `{{.BundleIdentifier}}` and every bundle
identifier I, the one call of `createInfoPlistFile` writes, to
`Info.plist` in the `Contents` directory, the text
`prefix ++ Base(B) ++ middle ++ I ++ suffix`, where the three pieces are
the constant text of `infoPlistTpl` around its two tokens. -/
theorem createInfoPlistFile_text (P : Providers σ) (b n d i : String) (s : σ)
    (h : strings.Contains (filepath.Base b) "\x7b\x7b.BundleIdentifier\x7d\x7d" = false) :
    infoPlistTpl =
      plistPrefix ++ "\x7b\x7b.AppName\x7d\x7d" ++ plistMiddle ++
        "\x7b\x7b.BundleIdentifier\x7d\x7d" ++ plistSuffix ∧
    (createInfoPlistFile P b n d i s).log.map Event.call =
      [.WriteFile (filepath.Join [filepath.Join [d, n, "Contents"], "Info.plist"])
        (plistPrefix ++ filepath.Base b ++ plistMiddle ++ i ++ plistSuffix) os.ModePerm] := by
  refine ⟨infoPlistTpl_pieces, ?_⟩
  rw [createInfoPlistFile_calls, Replace_appName, Replace_bundleIdentifier _ _ h]
  rfl

/-- Witness of C17 (amended): the binary path and the bundle identifier of
`TestCreate`. -/
theorem createInfoPlistFile_text_witness :
    strings.Contains (filepath.Base testParams.AppBinaryPath)
        "\x7b\x7b.BundleIdentifier\x7d\x7d" = false ∧
    (createInfoPlistFile happy.providers testParams.AppBinaryPath "testAppName.app"
        "outputDir/tmp" testParams.BundleIdentifier ()).log.map Event.call =
      [.WriteFile (filepath.Join [filepath.Join ["outputDir/tmp", "testAppName.app", "Contents"],
          "Info.plist"])
        (plistPrefix ++ filepath.Base testParams.AppBinaryPath ++ plistMiddle ++
          testParams.BundleIdentifier ++ plistSuffix) os.ModePerm] :=
  ⟨by decide, (createInfoPlistFile_text happy.providers testParams.AppBinaryPath
    "testAppName.app" "outputDir/tmp" testParams.BundleIdentifier () (by decide)).2⟩

end dmg

namespace dmg
variable {σ τ : Type}

theorem realElem_app_of_no_sep (n : String) (h : '/' ∉ n.data) :
    filepath.RealElem (n ++ ".app").data := by
  refine ⟨?_, ?_, ?_, ?_⟩
  · simp only [String.data_append, List.mem_append, not_or]
    exact ⟨h, by decide⟩
  · intro h; have := congrArg List.length h; simp at this
  · intro h; have := congrArg List.length h; simp at this
  · intro h; have := congrArg List.length h; simp at this

theorem realElems_macOs :
    ∀ f ∈ ["Contents".data, "MacOS".data], filepath.RealElem f := by
  simp [filepath.RealElem]

theorem realElems_resources :
    ∀ f ∈ ["Contents".data, "Resources".data], filepath.RealElem f := by
  simp [filepath.RealElem]

theorem realElems_contents : ∀ f ∈ ["Contents".data], filepath.RealElem f := by
  simp [filepath.RealElem]

theorem realElems_infoPlist : ∀ f ∈ ["Info.plist".data], filepath.RealElem f := by
  simp [filepath.RealElem]

/-- The paths of the bundle, under the bundle directory
`Join(outputDir, appName ++ ".app")`, for a name without separator. -/
theorem bundle_paths (n d : String) (h : '/' ∉ n.data) :
    filepath.Join [d, n ++ ".app", macOsDir] =
        filepath.Join [d, n ++ ".app"] ++ "/Contents/MacOS" ∧
      filepath.Join [d, n ++ ".app", resourcesDir] =
        filepath.Join [d, n ++ ".app"] ++ "/Contents/Resources" ∧
      filepath.Join [filepath.Join [d, n ++ ".app"], macOsDir] =
        filepath.Join [d, n ++ ".app"] ++ "/Contents/MacOS" ∧
      filepath.Join [filepath.Join [d, n ++ ".app", contentsDir], "Info.plist"] =
        filepath.Join [d, n ++ ".app"] ++ "/Contents/Info.plist" := by
  have hr := realElem_app_of_no_sep n h
  have hc := filepath.Cleaned.Join_pair d (n ++ ".app") hr
  refine ⟨?_, ?_, ?_, ?_⟩
  · rw [filepath.Join_triple d _ macOsDir hr _ realElems_macOs rfl]
    rfl
  · rw [filepath.Join_triple d _ resourcesDir hr _ realElems_resources rfl]
    rfl
  · rw [filepath.Join_nested _ macOsDir hc _ realElems_macOs rfl]
    rfl
  · rw [filepath.Join_triple d _ contentsDir hr _ realElems_contents rfl,
      filepath.Join_nested _ "Info.plist" (filepath.Cleaned.append _ hc _ realElems_contents) _
        realElems_infoPlist rfl, String.append_assoc]
    rfl

/-- C16: for an application name N without path separator, `createAppBundle`
lays the bundle out under `R = Join(D, N ++ ".app")`, which is
`Clean(D) ++ "/" ++ N ++ ".app"` when cleaning D leaves at least one
element. Its calls are the first calls of the list below, all of them when
it succeeds: it creates R, the icon set directory, `R/Contents/MacOS` and
`R/Contents/Resources`, renders the icons, compiles them into
`R/Contents/Resources`, where `iconutil.GenerateIconSet` asks `iconutil` to
write `R/Contents/Resources/icon.icns`, copies B into `R/Contents/MacOS`
and writes the descriptor to `R/Contents/Info.plist`. It returns R with a
nil error, or the empty path with an error. -/
theorem createAppBundle_layout (P : Providers σ) (n b i id d : String) (s : σ)
    (X : syscall.Executor τ) (w : τ) (h : '/' ∉ n.data) :
    ((createAppBundle P n b i id d s).val = (filepath.Join [d, n ++ ".app"], none) ∨
      ∃ e, (createAppBundle P n b i id d s).val = ("", some e)) ∧
    (createAppBundle P n b i id d s).log.map Event.call <+:
      [.MkdirAll (filepath.Join [d, n ++ ".app"]) os.ModePerm,
       .MkdirAll (filepath.Join [d, "icon.iconset"]) os.ModePerm,
       .MkdirAll (filepath.Join [d, n ++ ".app"] ++ "/Contents/MacOS") os.ModePerm,
       .MkdirAll (filepath.Join [d, n ++ ".app"] ++ "/Contents/Resources") os.ModePerm,
       .GenerateIcons i (filepath.Join [d, "icon.iconset"]) [16, 32, 64, 128, 256, 512, 1024],
       .GenerateIconSet (filepath.Join [d, "icon.iconset"])
         (filepath.Join [d, n ++ ".app"] ++ "/Contents/Resources"),
       .CopyFile b (filepath.Join [d, n ++ ".app"] ++ "/Contents/MacOS"),
       .WriteFile (filepath.Join [d, n ++ ".app"] ++ "/Contents/Info.plist")
         (strings.Replace
           (strings.Replace infoPlistTpl "\x7b\x7b.AppName\x7d\x7d" (filepath.Base b) (-1))
           "\x7b\x7b.BundleIdentifier\x7d\x7d" id (-1))
         os.ModePerm] ∧
    ((createAppBundle P n b i id d s).val.2 = none →
      (createAppBundle P n b i id d s).log.map Event.call =
        [.MkdirAll (filepath.Join [d, n ++ ".app"]) os.ModePerm,
         .MkdirAll (filepath.Join [d, "icon.iconset"]) os.ModePerm,
         .MkdirAll (filepath.Join [d, n ++ ".app"] ++ "/Contents/MacOS") os.ModePerm,
         .MkdirAll (filepath.Join [d, n ++ ".app"] ++ "/Contents/Resources") os.ModePerm,
         .GenerateIcons i (filepath.Join [d, "icon.iconset"]) [16, 32, 64, 128, 256, 512, 1024],
         .GenerateIconSet (filepath.Join [d, "icon.iconset"])
           (filepath.Join [d, n ++ ".app"] ++ "/Contents/Resources"),
         .CopyFile b (filepath.Join [d, n ++ ".app"] ++ "/Contents/MacOS"),
         .WriteFile (filepath.Join [d, n ++ ".app"] ++ "/Contents/Info.plist")
           (strings.Replace
             (strings.Replace infoPlistTpl "\x7b\x7b.AppName\x7d\x7d" (filepath.Base b) (-1))
             "\x7b\x7b.BundleIdentifier\x7d\x7d" id (-1))
           os.ModePerm]) ∧
    (iconutil.GenerateIconSet X (filepath.Join [d, "icon.iconset"])
        (filepath.Join [d, n ++ ".app"] ++ "/Contents/Resources") w).log.map
        (fun ev => (ev.name, ev.arg)) =
      [("iconutil", ["-c", "icns", "-o",
        filepath.Join [d, n ++ ".app"] ++ "/Contents/Resources/icon.icns",
        filepath.Join [d, "icon.iconset"]])] ∧
    (filepath.Solid d.data →
      filepath.Join [d, n ++ ".app"] = filepath.Clean d ++ "/" ++ n ++ ".app") := by
  obtain ⟨p1, p2, p3, p4⟩ := bundle_paths n d h
  have hs := createAppBundle_stops P n b i id d s
  have hcalls : bundleCalls n b i id d =
      [.MkdirAll (filepath.Join [d, n ++ ".app"]) os.ModePerm,
       .MkdirAll (filepath.Join [d, "icon.iconset"]) os.ModePerm,
       .MkdirAll (filepath.Join [d, n ++ ".app"] ++ "/Contents/MacOS") os.ModePerm,
       .MkdirAll (filepath.Join [d, n ++ ".app"] ++ "/Contents/Resources") os.ModePerm,
       .GenerateIcons i (filepath.Join [d, "icon.iconset"]) [16, 32, 64, 128, 256, 512, 1024],
       .GenerateIconSet (filepath.Join [d, "icon.iconset"])
         (filepath.Join [d, n ++ ".app"] ++ "/Contents/Resources"),
       .CopyFile b (filepath.Join [d, n ++ ".app"] ++ "/Contents/MacOS"),
       .WriteFile (filepath.Join [d, n ++ ".app"] ++ "/Contents/Info.plist")
         (strings.Replace
           (strings.Replace infoPlistTpl "\x7b\x7b.AppName\x7d\x7d" (filepath.Base b) (-1))
           "\x7b\x7b.BundleIdentifier\x7d\x7d" id (-1))
         os.ModePerm] := by
    simp only [bundleCalls, p1, p2, p3, p4]
    rfl
  rw [hcalls] at hs
  refine ⟨createAppBundle_val P n b i id d s, hs.1, ?_, ?_, ?_⟩
  · intro hv
    have h3 := hs.2.2.1
    have hf : failedV (createAppBundle P n b i id d s).val = false := by
      simp [failedV, hv]
    rw [hf] at h3
    exact h3.1
  · generalize hx : X "iconutil" ["-c", "icns", "-o",
      filepath.Join [d, n ++ ".app"] ++ "/Contents/Resources" ++ "/icon.icns",
      filepath.Join [d, "icon.iconset"]] w = r
    rcases r with ⟨⟨o, e⟩, w1⟩
    have ha : filepath.Join [d, n ++ ".app"] ++ "/Contents/Resources" ++ "/icon.icns" =
        filepath.Join [d, n ++ ".app"] ++ "/Contents/Resources/icon.icns" := by
      rw [String.append_assoc]
      rfl
    rw [ha] at hx
    cases e <;> simp [iconutil.GenerateIconSet, syscall.Executor.run, hx, ha]
  · intro hd
    have hne : d ≠ "" := by
      intro h0
      obtain ⟨c, rest, hc, _⟩ := hd
      rw [h0] at hc
      exact absurd hc (by simp)
    apply String.ext
    have := filepath.cleanChars_solid_append d.data (n ++ ".app").data hd
      (realElem_app_of_no_sep n h)
    simp only [filepath.Join, hne, if_false, strings.Join, filepath.Clean, String.data_append]
    simp only [String.data_append] at this
    simp only [List.append_assoc, List.singleton_append] at this ⊢
    exact this

/-- Witness of C16: the bundle of `TestCreate`, in the scratch directory
`outputDir/tmp`. -/
theorem createAppBundle_layout_witness :
    (createAppBundle happy.providers "testAppName" "path/to/appBinary" "path/to/iconPath"
        "bundleIdentifier" "outputDir/tmp" ()).val = ("outputDir/tmp/testAppName.app", none) ∧
    filepath.Join ["outputDir/tmp", "testAppName" ++ ".app"] ++ "/Contents/Info.plist" =
      "outputDir/tmp/testAppName.app/Contents/Info.plist" ∧
    (filepath.Solid "outputDir/tmp".data →
      filepath.Join ["outputDir/tmp", "testAppName" ++ ".app"] =
        filepath.Clean "outputDir/tmp" ++ "/" ++ "testAppName" ++ ".app") :=
  ⟨by decide, by decide,
    (createAppBundle_layout happy.providers "testAppName" "path/to/appBinary" "path/to/iconPath"
      "bundleIdentifier" "outputDir/tmp" () (syscall.mockOsCommandExecutor none) ()
      (by decide)).2.2.2.2⟩

end dmg

namespace strings

theorem HasSuffix_refl (s : String) : HasSuffix s s = true := by
  simp [HasSuffix]

theorem HasSuffix_trans (a b c : String) (h1 : HasSuffix a b = true)
    (h2 : HasSuffix b c = true) : HasSuffix a c = true := by
  simp only [HasSuffix, List.isSuffixOf_iff_suffix] at *
  exact h2.trans h1

theorem HasSuffix_Wrap (err : GoError) (m : String) :
    HasSuffix (errors.Wrap err m).msg err.msg = true := by
  simp only [HasSuffix, List.isSuffixOf_iff_suffix, errors.Wrap, String.data_append]
  exact List.suffix_append _ _

theorem HasSuffix_Wrap_of (r cause : GoError) (m : String)
    (h : HasSuffix r.msg cause.msg = true) :
    HasSuffix (errors.Wrap r m).msg cause.msg = true :=
  HasSuffix_trans _ _ _ (HasSuffix_Wrap r m) h

theorem HasPrefix_Wrap (err : GoError) (m : String) :
    HasPrefix (errors.Wrap err m).msg (m ++ ": ") = true := by
  simp only [HasPrefix, List.isPrefixOf_iff_prefix, errors.Wrap, String.data_append]
  exact List.prefix_append _ _

end strings

namespace dmg
variable {σ : Type}

theorem Blames.nil_log (v : Option GoError) : Blames [] v := by
  intro e he
  simp at he

/-- Sequencing: an error of the first block ends the run with an error that
keeps its message at the end; otherwise the continuation is blamed. -/
theorem Blames.bind {α β : Type} (ea : α → Option GoError) (eb : β → Option GoError)
    (m : Eff σ Event α) (k : α → Eff σ Event β) (s : σ)
    (h1 : Blames (m s).log (ea (m s).val))
    (h2 : ∀ a s1 r, ea a = some r →
      (k a s1).log = [] ∧ ∃ r2, eb (k a s1).val = some r2 ∧
        strings.HasSuffix r2.msg r.msg = true)
    (h3 : ∀ a s1, ea a = none → Blames (k a s1).log (eb (k a s1).val)) :
    Blames ((m >>= k) s).log (eb ((m >>= k) s).val) := by
  rw [Eff.bind_log, Eff.bind_val]
  intro e he cause hc
  rcases List.mem_append.mp he with h | h
  · obtain ⟨r, hr, hsuf⟩ := h1 e h cause hc
    obtain ⟨_, r2, hr2, hsuf2⟩ := h2 _ (m s).st r hr
    exact ⟨r2, hr2, strings.HasSuffix_trans _ _ _ hsuf2 hsuf⟩
  · cases hv : ea (m s).val with
    | some r =>
      rw [(h2 _ (m s).st r hv).1] at h
      simp at h
    | none => exact h3 _ _ hv e h cause hc

theorem perform_blames (c : Call) (f : σ → Option GoError × σ) (s : σ) :
    Blames (perform c f s).log (perform c f s).val := by
  intro e he cause hc
  simp only [perform_log, List.mem_singleton] at he
  subst he
  exact ⟨cause, hc, strings.HasSuffix_refl _⟩

theorem performExists_blames (c : Call) (f : σ → (Bool × Option GoError) × σ) (s : σ) :
    Blames (performExists c f s).log (performExists c f s).val.2 := by
  intro e he cause hc
  simp only [performExists_log, List.mem_singleton] at he
  subst he
  exact ⟨cause, hc, strings.HasSuffix_refl _⟩

theorem createDirs_blames (P : Providers σ) (dirs : List String) (s : σ) :
    Blames (createDirs P dirs s).log (createDirs P dirs s).val := by
  induction dirs generalizing s with
  | nil => exact Blames.nil_log _
  | cons d rest ih =>
    unfold createDirs
    refine Blames.bind id id _ _ s (perform_blames _ _ s) ?_ ?_
    · intro a s1 r ha
      cases ha
      exact ⟨rfl, _, rfl, strings.HasSuffix_Wrap _ _⟩
    · intro a s1 ha
      cases ha
      exact ih s1

theorem createIconSet_blames (P : Providers σ) (i n d : String) (s : σ) :
    Blames (createIconSet P i n d s).log (createIconSet P i n d s).val := by
  unfold createIconSet
  refine Blames.bind id id _ _ s (perform_blames _ _ s) ?_ ?_
  · intro a s1 r ha
    cases ha
    exact ⟨rfl, _, rfl, strings.HasSuffix_Wrap _ _⟩
  · intro a s1 ha
    cases ha
    refine Blames.bind id id _ _ s1 (perform_blames _ _ s1) ?_ ?_
    · intro a s2 r ha
      cases ha
      exact ⟨rfl, _, rfl, strings.HasSuffix_Wrap _ _⟩
    · intro a s2 ha
      cases ha
      exact Blames.nil_log _

theorem copyAppBinary_blames (P : Providers σ) (b d : String) (s : σ) :
    Blames (copyAppBinary P b d s).log (copyAppBinary P b d s).val := by
  unfold copyAppBinary
  refine Blames.bind id id _ _ s (perform_blames _ _ s) ?_ ?_
  · intro a s1 r ha
    cases ha
    exact ⟨rfl, _, rfl, strings.HasSuffix_Wrap _ _⟩
  · intro a s1 ha
    cases ha
    exact Blames.nil_log _

theorem createInfoPlistFile_blames (P : Providers σ) (b n d i : String) (s : σ) :
    Blames (createInfoPlistFile P b n d i s).log (createInfoPlistFile P b n d i s).val := by
  unfold createInfoPlistFile
  refine Blames.bind id id _ _ s (perform_blames _ _ s) ?_ ?_
  · intro a s1 r ha
    cases ha
    exact ⟨rfl, _, rfl, strings.HasSuffix_Wrap _ _⟩
  · intro a s1 ha
    cases ha
    exact Blames.nil_log _

theorem createAppBundle_blames (P : Providers σ) (n b i bid d : String) (s : σ) :
    Blames (createAppBundle P n b i bid d s).log (createAppBundle P n b i bid d s).val.2 := by
  unfold createAppBundle
  refine Blames.bind id Prod.snd _ _ s (createDirs_blames P _ s) ?_ ?_
  · intro a s1 r ha
    cases ha
    exact ⟨rfl, _, rfl, strings.HasSuffix_Wrap _ _⟩
  · intro a s1 ha
    cases ha
    refine Blames.bind id Prod.snd _ _ s1 (createIconSet_blames P i _ d s1) ?_ ?_
    · intro a s2 r ha
      cases ha
      exact ⟨rfl, _, rfl, strings.HasSuffix_Wrap _ _⟩
    · intro a s2 ha
      cases ha
      refine Blames.bind id Prod.snd _ _ s2 (copyAppBinary_blames P b _ s2) ?_ ?_
      · intro a s3 r ha
        cases ha
        exact ⟨rfl, _, rfl, strings.HasSuffix_Wrap _ _⟩
      · intro a s3 ha
        cases ha
        refine Blames.bind id Prod.snd _ _ s3 (createInfoPlistFile_blames P b _ d bid s3) ?_ ?_
        · intro a s4 r ha
          cases ha
          exact ⟨rfl, _, rfl, strings.HasSuffix_Wrap _ _⟩
        · intro a s4 ha
          cases ha
          exact Blames.nil_log _

theorem checkIfFinalDMGAlreadyExists_blames (P : Providers σ) (n o : String) (s : σ) :
    Blames (checkIfFinalDMGAlreadyExists P n o s).log
      (checkIfFinalDMGAlreadyExists P n o s).val := by
  unfold checkIfFinalDMGAlreadyExists
  refine Blames.bind Prod.snd id _ _ s (performExists_blames _ _ s) ?_ ?_
  · intro a s1 r ha
    rcases a with ⟨f, e⟩
    cases ha
    cases f <;> exact ⟨rfl, _, rfl, strings.HasSuffix_Wrap _ _⟩
  · intro a s1 ha
    rcases a with ⟨f, e⟩
    cases ha
    cases f <;> exact Blames.nil_log _

theorem createDMGTemplate_blames (P : Providers σ) (v d : String) (s : σ) :
    Blames (createDMGTemplate P v d s).log (createDMGTemplate P v d s).val.2 := by
  unfold createDMGTemplate
  refine Blames.bind id Prod.snd _ _ s (perform_blames _ _ s) ?_ ?_
  · intro a s1 r ha
    cases ha
    exact ⟨rfl, _, rfl, strings.HasSuffix_refl _⟩
  · intro a s1 ha
    cases ha
    exact Blames.nil_log _

theorem mountDMGTemplate_blames (P : Providers σ) (v p : String) (s : σ) :
    Blames (mountDMGTemplate P v p s).log (mountDMGTemplate P v p s).val.2 := by
  unfold mountDMGTemplate
  refine Blames.bind id Prod.snd _ _ s (perform_blames _ _ s) ?_ ?_
  · intro a s1 r ha
    cases ha
    exact ⟨rfl, _, rfl, strings.HasSuffix_refl _⟩
  · intro a s1 ha
    cases ha
    exact Blames.nil_log _

theorem createMacOsApplicationFolderSymlink_blames (P : Providers σ) (m : String) (s : σ) :
    Blames (createMacOsApplicationFolderSymlink P m s).log
      (createMacOsApplicationFolderSymlink P m s).val := by
  unfold createMacOsApplicationFolderSymlink
  refine Blames.bind id id _ _ s (perform_blames _ _ s) ?_ ?_
  · intro a s1 r ha
    cases ha
    exact ⟨rfl, _, rfl, strings.HasSuffix_refl _⟩
  · intro a s1 ha
    cases ha
    exact Blames.nil_log _

theorem copyAppBundle_blames (P : Providers σ) (b m : String) (s : σ) :
    Blames (copyAppBundle P b m s).log (copyAppBundle P b m s).val := by
  unfold copyAppBundle
  refine Blames.bind id id _ _ s (perform_blames _ _ s) ?_ ?_
  · intro a s1 r ha
    cases ha
    exact ⟨rfl, _, rfl, strings.HasSuffix_refl _⟩
  · intro a s1 ha
    cases ha
    exact Blames.nil_log _

theorem setupDMGTemplate_blames (P : Providers σ) (m b : String) (s : σ) :
    Blames (setupDMGTemplate P m b s).log (setupDMGTemplate P m b s).val := by
  unfold setupDMGTemplate
  refine Blames.bind id id _ _ s (createMacOsApplicationFolderSymlink_blames P m s) ?_ ?_
  · intro a s1 r ha
    cases ha
    exact ⟨rfl, _, rfl, strings.HasSuffix_Wrap _ _⟩
  · intro a s1 ha
    cases ha
    refine Blames.bind id id _ _ s1 (copyAppBundle_blames P b m s1) ?_ ?_
    · intro a s2 r ha
      cases ha
      exact ⟨rfl, _, rfl, strings.HasSuffix_Wrap _ _⟩
    · intro a s2 ha
      cases ha
      exact Blames.nil_log _

theorem unmountDMGTemplate_blames (P : Providers σ) (m : String) (s : σ) :
    Blames (unmountDMGTemplate P m s).log (unmountDMGTemplate P m s).val := by
  unfold unmountDMGTemplate
  refine Blames.bind id id _ _ s (perform_blames _ _ s) ?_ ?_
  · intro a s1 r ha
    cases ha
    exact ⟨rfl, _, rfl, strings.HasSuffix_refl _⟩
  · intro a s1 ha
    cases ha
    exact Blames.nil_log _

theorem convertDmg_blames (P : Providers σ) (b t o : String) (s : σ) :
    Blames (convertDmg P b t o s).log (convertDmg P b t o s).val.2 := by
  unfold convertDmg
  refine Blames.bind id Prod.snd _ _ s (perform_blames _ _ s) ?_ ?_
  · intro a s1 r ha
    cases ha
    exact ⟨rfl, _, rfl, strings.HasSuffix_Wrap _ _⟩
  · intro a s1 ha
    cases ha
    exact Blames.nil_log _

theorem createAppDmg_blames (P : Providers σ) (a t o : String) (s : σ) :
    Blames (createAppDmg P a t o s).log (createAppDmg P a t o s).val.2 := by
  unfold createAppDmg
  refine Blames.bind id Prod.snd _ _ s (checkIfFinalDMGAlreadyExists_blames P _ o s) ?_ ?_
  · intro a s1 r ha
    cases ha
    exact ⟨rfl, _, rfl, strings.HasSuffix_refl _⟩
  · intro a s1 ha
    cases ha
    refine Blames.bind Prod.snd Prod.snd _ _ s1 (createDMGTemplate_blames P _ t s1) ?_ ?_
    · intro a s2 r ha
      rcases a with ⟨p, e⟩
      cases ha
      exact ⟨rfl, _, rfl, strings.HasSuffix_Wrap _ _⟩
    · intro a s2 ha
      rcases a with ⟨p, e⟩
      cases ha
      refine Blames.bind Prod.snd Prod.snd _ _ s2 (mountDMGTemplate_blames P _ p s2) ?_ ?_
      · intro a s3 r ha
        rcases a with ⟨mp, e⟩
        cases ha
        exact ⟨rfl, _, rfl, strings.HasSuffix_Wrap _ _⟩
      · intro a s3 ha
        rcases a with ⟨mp, e⟩
        cases ha
        refine Blames.bind id Prod.snd _ _ s3 (setupDMGTemplate_blames P mp _ s3) ?_ ?_
        · intro a s4 r ha
          cases ha
          exact ⟨rfl, _, rfl, strings.HasSuffix_Wrap _ _⟩
        · intro a s4 ha
          cases ha
          refine Blames.bind id Prod.snd _ _ s4 (unmountDMGTemplate_blames P mp s4) ?_ ?_
          · intro a s5 r ha
            cases ha
            exact ⟨rfl, _, rfl, strings.HasSuffix_Wrap _ _⟩
          · intro a s5 ha
            cases ha
            exact convertDmg_blames P _ p o s5

theorem createSteps_blames (P : Providers σ) (params : CreateParams) (t : String) (s : σ) :
    Blames (createSteps P params t s).log (createSteps P params t s).val.2 := by
  unfold createSteps
  refine Blames.bind Prod.snd Prod.snd _ _ s (createAppBundle_blames P _ _ _ _ t s) ?_ ?_
  · intro a s1 r ha
    rcases a with ⟨p, e⟩
    cases ha
    exact ⟨rfl, _, rfl, strings.HasSuffix_Wrap _ _⟩
  · intro a s1 ha
    rcases a with ⟨p, e⟩
    cases ha
    refine Blames.bind Prod.snd Prod.snd _ _ s1 (createAppDmg_blames P p t _ s1) ?_ ?_
    · intro a s2 r ha
      rcases a with ⟨q, e⟩
      cases ha
      exact ⟨rfl, _, rfl, strings.HasSuffix_Wrap _ _⟩
    · intro a s2 ha
      rcases a with ⟨q, e⟩
      cases ha
      exact Blames.nil_log _

end dmg

namespace dmg
variable {σ : Type}

theorem stagePrefixes_incomparable :
    ∀ p ∈ stagePrefixes, ∀ q ∈ stagePrefixes, p.data.isPrefixOf q.data = true → p = q := by
  decide

/-- A message starts with at most one of the four stage prefixes. -/
theorem stagePrefix_unique (m p q : String) (hp : p ∈ stagePrefixes) (hq : q ∈ stagePrefixes)
    (h1 : strings.HasPrefix m p = true) (h2 : strings.HasPrefix m q = true) : q = p := by
  simp only [strings.HasPrefix, List.isPrefixOf_iff_prefix] at h1 h2
  rcases List.prefix_or_prefix_of_prefix h1 h2 with h | h
  · exact (stagePrefixes_incomparable p hp q hq (List.isPrefixOf_iff_prefix.mpr h)).symm
  · exact stagePrefixes_incomparable q hq p hp (List.isPrefixOf_iff_prefix.mpr h)

/-- An error of the steps of `Create` is wrapped with the name of one of
the two stages. -/
theorem createSteps_err (P : Providers σ) (params : CreateParams) (t : String) (s : σ)
    (err : GoError) (h : (createSteps P params t s).val.2 = some err) :
    ∃ r, err = errors.Wrap r "error when creating app bundle" ∨
      err = errors.Wrap r "error when creating app DMG" := by
  simp only [createSteps, Eff.bind_val, Eff.bind_st] at h
  generalize (createAppBundle P _ _ _ _ t s).st = s1 at h
  generalize (createAppBundle P _ _ _ _ t s).val = v at h
  rcases v with ⟨p, _ | e⟩
  · simp only [Eff.bind_val, Eff.bind_st] at h
    generalize (createAppDmg P p t _ s1).st = s2 at h
    generalize (createAppDmg P p t _ s1).val = v2 at h
    rcases v2 with ⟨q, _ | e2⟩
    · simp at h
    · simp only [Eff.pure_val, Option.some.injEq] at h
      exact ⟨e2, Or.inr h.symm⟩
  · simp only [Eff.pure_val, Option.some.injEq] at h
    exact ⟨e, Or.inl h.symm⟩

/-- C15 (counterexample): when the final artifact already exists, `Create`
returns the error `error when creating app DMG: DMG file already exists:
[outputDir/testAppName.dmg]` although no collaborator call of the run
returned an error: the message ends with no collaborator error. -/
theorem Create_error_without_collaborator_error :
    (Create artifactExists.providers testParams ()).val =
      ("", some ⟨"error when creating app DMG: DMG file already exists: " ++
        "[outputDir/testAppName.dmg]", false⟩) ∧
    (Create artifactExists.providers testParams ()).log ≠ [] ∧
    ∀ e ∈ (Create artifactExists.providers testParams ()).log, e.err = none := by
  decide

/-- C15 (amended): every error returned by `Create` names the failing
stage: its message starts with exactly one of the four stage prefixes.
Whenever a collaborator call of the run other than the deferred deletion
returned an error, the message ends with the message of that error; and on
a validation failure the message is the first prefix followed by the
validation message. -/
theorem Create_error_names_stage (P : Providers σ) (params : CreateParams) (s : σ)
    (err : GoError) (h : (Create P params s).val.2 = some err) :
    (∃ p ∈ stagePrefixes, strings.HasPrefix err.msg p = true ∧
      ∀ q ∈ stagePrefixes, strings.HasPrefix err.msg q = true → q = p) ∧
    (∀ e ∈ (Create P params s).log, e.call.op ≠ .DeleteDir →
      ∀ cause, e.err = some cause → strings.HasSuffix err.msg cause.msg = true) ∧
    (∀ v, validate.Check params = some v →
      err.msg = "error when validating input parameters: " ++ v.msg) := by
  have huniq : ∀ p ∈ stagePrefixes, strings.HasPrefix err.msg p = true →
      ∃ p ∈ stagePrefixes, strings.HasPrefix err.msg p = true ∧
        ∀ q ∈ stagePrefixes, strings.HasPrefix err.msg q = true → q = p :=
    fun p hp h1 => ⟨p, hp, h1, fun q hq h2 => stagePrefix_unique err.msg p q hp hq h1 h2⟩
  cases hv : validate.Check params with
  | some v =>
    obtain ⟨h1, h2, _⟩ := Create_invalid P params s v hv
    rw [h1] at h
    simp only [Option.some.injEq] at h
    subst h
    refine ⟨huniq _ (by simp [stagePrefixes]) (strings.HasPrefix_Wrap v _), ?_, ?_⟩
    · intro e he
      rw [h2] at he
      simp at he
    · intro v2 hv2
      cases hv2
      simp [errors.Wrap, String.append_assoc]
  | none =>
    cases hm : (P.MkdirAll (filepath.Join [params.OutputDir, "tmp"]) os.ModePerm s).1 with
    | some e0 =>
      obtain ⟨h1, h2⟩ := Create_mkdir_failed P params s e0 hv hm
      rw [h1] at h
      simp only [Option.some.injEq] at h
      subst h
      refine ⟨huniq _ (by simp [stagePrefixes]) (strings.HasPrefix_Wrap e0 _), ?_, ?_⟩
      · intro e he _ cause hc
        rw [h2] at he
        simp only [List.mem_singleton] at he
        subst he
        cases hc
        exact strings.HasSuffix_Wrap _ _
      · intro v2 hv2
        cases hv2
    | none =>
      obtain ⟨h1, h2⟩ := Create_steps P params s hv hm
      rw [h1] at h
      refine ⟨?_, ?_, ?_⟩
      · obtain ⟨r, hr | hr⟩ := createSteps_err P params _ _ err h
        · rw [hr]
          rw [hr] at huniq
          exact huniq _ (by simp [stagePrefixes]) (strings.HasPrefix_Wrap r _)
        · rw [hr]
          rw [hr] at huniq
          exact huniq _ (by simp [stagePrefixes]) (strings.HasPrefix_Wrap r _)
      · intro e he hop cause hc
        rw [h2] at he
        simp only [List.mem_cons, List.mem_append, List.mem_singleton, List.not_mem_nil,
          or_false] at he
        rcases he with he | he | he
        · subst he
          cases hc
        · obtain ⟨r, hr, hsuf⟩ := createSteps_blames P params _ _ e he cause hc
          rw [h] at hr
          cases hr
          exact hsuf
        · subst he
          exact absurd rfl hop
      · intro v2 hv2
        cases hv2

/-- Witness of C15 (amended): the failure of `sips` and the failure of the
mount in `TestCreate`. -/
theorem Create_error_names_stage_witness :
    (Create iconsFail.providers testParams ()).val.2 =
      some ⟨"error when creating app bundle: error when creating icon set: " ++
        "error when generating icons: permission denied", false⟩ ∧
    (Create mountFails.providers testParams ()).val.2 =
      some ⟨"error when creating app DMG: error when mounting DMG template: " ++
        "permission denied", false⟩ ∧
    (∀ e ∈ (Create mountFails.providers testParams ()).log, e.call.op ≠ .DeleteDir →
      ∀ cause, e.err = some cause →
        strings.HasSuffix ("error when creating app DMG: error when mounting DMG template: " ++
          "permission denied") cause.msg = true) :=
  ⟨by decide, by decide,
    (Create_error_names_stage mountFails.providers testParams ()
      ⟨"error when creating app DMG: error when mounting DMG template: " ++
        "permission denied", false⟩ (by decide)).2.1⟩

end dmg

namespace syscall

/-- C21: `ExecCommand` returns the output and a nil error when the command
succeeds; when it fails it returns the empty string and the error
`error when executing command [cmd] with args [args]: output: [output]: cause`,
the arguments separated by blanks: the output of a failed command is in
the error and not in the returned string. -/
theorem ExecCommand_output_in_error
    (execCommand : String → List String → String × Option GoError)
    (cmd : String) (args : List String) :
    (∀ output, execCommand cmd args = (output, none) →
      ExecCommand execCommand cmd args = (output, none)) ∧
    (∀ output cause, execCommand cmd args = (output, some cause) →
      ExecCommand execCommand cmd args =
        ("", some ⟨"error when executing command [" ++ cmd ++ "] with args [" ++
          strings.Join args " " ++ "]: output: [" ++ output ++ "]: " ++ cause.msg, false⟩)) ∧
    ((ExecCommand execCommand cmd args).2 ≠ none →
      (ExecCommand execCommand cmd args).1 = "") ∧
    ((ExecCommand execCommand cmd args).2 = none ↔ (execCommand cmd args).2 = none) := by
  rcases h : execCommand cmd args with ⟨output, _ | cause⟩
  · simp [ExecCommand, h]
  · have e : ∀ X : String, "] with args " ++ ("[" ++ X) = "] with args [" ++ X := by
      intro X
      apply String.ext
      simp only [String.data_append]
      rfl
    simp [ExecCommand, h, errors.Wrap, fmt.vStrings, String.append_assoc, e]

/-- The two cases of `TestExecCommand`, and a failing command with two
arguments. -/
theorem ExecCommand_table :
    ExecCommand (fun _ _ => ("output", none)) "ls" ["-l"] = ("output", none) ∧
    ExecCommand (fun _ _ => ("output", some (errors.New "some error"))) "ls" ["-l"] =
      ("", some ⟨"error when executing command [ls] with args [-l]: output: [output]: " ++
        "some error", false⟩) ∧
    ExecCommand (fun _ _ => ("", some (errors.New "exit status 1"))) "cp" ["-r", "a", "b"] =
      ("", some ⟨"error when executing command [cp] with args [-r a b]: output: []: " ++
        "exit status 1", false⟩) := by
  decide

end syscall

namespace validate

theorem String_append_empty_right (s : String) : s ++ "" = s := by
  apply String.ext
  simp

/-- The loop of `FieldErrors.Error` from the entry with index `k` on, for a
value of `k + l.length` entries. -/
theorem Error_loop (n : Nat) :
    ∀ (l : List FieldError) (k : Nat) (acc : String), n = k + l.length →
      (l.enumFrom k).foldl
        (fun sb p =>
          let sb := sb ++ (p.2.Field ++ ": " ++ p.2.Error)
          if p.1 < n - 1 then sb ++ "; " else sb)
        acc =
      acc ++ strings.Join (l.map (fun f => f.Field ++ ": " ++ f.Error)) "; "
  | [], k, acc, _ => by
    simp [strings.Join, String_append_empty_right]
  | [x], k, acc, h => by
    have hk : ¬ k < n - 1 := by
      simp only [List.length_singleton] at h
      omega
    simp [List.enumFrom, strings.Join, hk]
  | x :: y :: rest, k, acc, h => by
    have hk : k < n - 1 := by
      simp only [List.length_cons] at h
      omega
    have ih := Error_loop n (y :: rest) (k + 1)
      (acc ++ (x.Field ++ ": " ++ x.Error) ++ "; ") (by simp only [List.length_cons] at h ⊢; omega)
    rw [List.enumFrom_cons, List.foldl_cons]
    simp only [hk, if_true]
    rw [ih]
    simp [strings.Join, String.append_assoc]

/-- C29: for every `FieldErrors` value, `Error()` is the entries rendered
as `Field: Error` and joined by `; ` in list order: the empty string for
the empty list, the rendering of the entry for a single entry, and for a
longer list the rendering of the first entry, `; ` and the text of the
rest, so without a separator at either end. -/
theorem Error_eq_joined (fe : FieldErrors) :
    FieldErrors.Error fe = FieldErrors.joined fe ∧
    FieldErrors.Error [] = "" ∧
    (∀ f : FieldError, FieldErrors.Error [f] = f.Field ++ ": " ++ f.Error) ∧
    (∀ (f g : FieldError) (rest : FieldErrors),
      FieldErrors.Error (f :: g :: rest) =
        f.Field ++ ": " ++ f.Error ++ "; " ++ FieldErrors.Error (g :: rest)) := by
  have key : ∀ l : FieldErrors, FieldErrors.Error l = FieldErrors.joined l := by
    intro l
    have h := Error_loop l.length l 0 "" (by simp)
    unfold FieldErrors.Error FieldErrors.joined
    rw [List.enum, h]
    apply String.ext
    simp
  refine ⟨key fe, by rw [key]; rfl, ?_, ?_⟩
  · intro f
    rw [key]
    rfl
  · intro f g rest
    rw [key, key]
    rfl

/-- The entry of the validation failure of `TestCreate`, two entries, and
the message `Create` returns for the missing application name. -/
theorem Error_table :
    FieldErrors.Error [⟨"AppName", "AppName is a required field"⟩] =
      "AppName: AppName is a required field" ∧
    FieldErrors.Error [⟨"AppName", "AppName is a required field"⟩,
        ⟨"OutputDir", "OutputDir is a required field"⟩] =
      "AppName: AppName is a required field; OutputDir: OutputDir is a required field" ∧
    (dmg.Create dmg.happy.providers dmg.missingName ()).val.2 =
      some ⟨"error when validating input parameters: AppName: AppName is a required field",
        false⟩ := by
  decide

end validate

namespace gui

/-- C30 (counterexample): for the non-empty input `a b`, `optionalNoSpaces`
returns the error `cannot contain spaces` while `notEmpty` returns nil. -/
theorem optionalNoSpaces_differs_from_notEmpty :
    "a b" ≠ "" ∧
    optionalNoSpaces "a b" = some ⟨"cannot contain spaces", false⟩ ∧
    notEmpty "a b" = none ∧
    optionalNoSpaces "a b" ≠ notEmpty "a b" := by
  decide

/-- C30 (amended): `optionalNoSpaces` accepts the empty input and otherwise
applies the `noSpaces` validator: for every non-empty input it returns the
result of `noSpaces`. So it returns nil exactly when the input holds no
blank, and the error `cannot contain spaces` otherwise; on a non-empty
input it agrees with `notEmpty`, the validator its doc comment names,
exactly when the input holds no blank. -/
theorem optionalNoSpaces_eq_noSpaces (s : String) :
    (s ≠ "" → optionalNoSpaces s = noSpaces s) ∧
    optionalNoSpaces "" = none ∧
    (strings.Contains s " " = false → optionalNoSpaces s = none) ∧
    (strings.Contains s " " = true →
      optionalNoSpaces s = some ⟨"cannot contain spaces", false⟩) ∧
    (s ≠ "" → (optionalNoSpaces s = notEmpty s ↔ strings.Contains s " " = false)) := by
  refine ⟨?_, by decide, ?_, ?_, ?_⟩
  · intro hs
    simp [optionalNoSpaces, hs]
  · intro hc
    by_cases hs : s = "" <;> simp [optionalNoSpaces, noSpaces, notEmpty, hs, hc]
  · intro hc
    have hs : s ≠ "" := by
      intro h
      rw [h] at hc
      exact absurd hc (by decide)
    simp [optionalNoSpaces, noSpaces, hs, hc, errors.New]
  · intro hs
    cases hc : strings.Contains s " " <;>
      simp [optionalNoSpaces, noSpaces, notEmpty, hs, hc, errors.New]

/-- The validators on an empty input, a name and a text with a blank. -/
theorem validators_table :
    optionalNoSpaces "" = none ∧ noSpaces "" = some ⟨"cannot be blank", false⟩ ∧
    notEmpty "" = some ⟨"cannot be blank", false⟩ ∧
    optionalNoSpaces "name" = none ∧ noSpaces "name" = none ∧ notEmpty "name" = none ∧
    optionalNoSpaces "a b" = noSpaces "a b" := by
  decide

end gui

namespace dmg
variable {σ τ : Type}

/-- C24: when FileExists reports, without an error, that
`Join(outputDir, dmgName ++ ".dmg")` exists, `checkIfFinalDMGAlreadyExists`
returns the error `DMG file already exists: [<that path>]`, and
`createAppDmg`, for a bundle of that name, returns it with the empty path
after the existence check alone: it makes no other call, so no CreateDMG,
MoundDMG, UnmountDMG or ConvertDMG, no CreateSymlink and no CopyDir. -/
theorem createAppDmg_refuses_existing (P : Providers σ) (dmgName a t o : String) (s : σ)
    (hn : strings.TrimSuffix (filepath.Base a) ".app" = dmgName)
    (h : (P.FileExists (filepath.Join [o, dmgName ++ ".dmg"]) s).1 = (true, none)) :
    (checkIfFinalDMGAlreadyExists P dmgName o s).val =
      some ⟨"DMG file already exists: [" ++ filepath.Join [o, dmgName ++ ".dmg"] ++ "]",
        false⟩ ∧
    (createAppDmg P a t o s).val =
      ("", some ⟨"DMG file already exists: [" ++ filepath.Join [o, dmgName ++ ".dmg"] ++ "]",
        false⟩) ∧
    (createAppDmg P a t o s).log =
      [⟨.FileExists (filepath.Join [o, dmgName ++ ".dmg"]), true, none⟩] ∧
    ∀ e ∈ (createAppDmg P a t o s).log, e.call.op = .FileExists := by
  subst hn
  obtain ⟨h1, h2⟩ := createAppDmg_exists P a t o s h
  refine ⟨?_, h1, h2, ?_⟩
  · simp [checkIfFinalDMGAlreadyExists, Providers.fileExists, h, errors.New]
  · intro e he
    rw [h2, List.mem_singleton] at he
    rw [he]
    rfl

/-- Witness of C24: the case `DMG file already exists` of
`Test_checkIfFinalDMGAlreadyExists`. -/
theorem createAppDmg_refuses_existing_witness :
    (checkIfFinalDMGAlreadyExists artifactExists.providers "dmgName" "outputDir" ()).val =
      some ⟨"DMG file already exists: [outputDir/dmgName.dmg]", false⟩ ∧
    (createAppDmg artifactExists.providers "tmp/dmgName.app" "tmp" "outputDir" ()).log =
      [⟨.FileExists (filepath.Join ["outputDir", "dmgName" ++ ".dmg"]), true, none⟩] :=
  ⟨by decide,
    (createAppDmg_refuses_existing artifactExists.providers "dmgName" "tmp/dmgName.app" "tmp"
      "outputDir" () (by decide) (by decide)).2.2.1⟩

/-- The scratch directory of `Create`: for valid parameters the first call
creates `Join(OutputDir, "tmp")`, and every DeleteDir call is on that path. -/
theorem Create_scratch (P : Providers σ) (params : CreateParams) (s : σ)
    (hv : validate.Check params = none) :
    (Create P params s).log.head?.map Event.call =
        some (.MkdirAll (filepath.Join [params.OutputDir, "tmp"]) os.ModePerm) ∧
      ∀ e ∈ (Create P params s).log, e.call.op = .DeleteDir →
        e.call = .DeleteDir (filepath.Join [params.OutputDir, "tmp"]) := by
  cases hm : (P.MkdirAll (filepath.Join [params.OutputDir, "tmp"]) os.ModePerm s).1 with
  | some err =>
    rw [(Create_mkdir_failed P params s err hv hm).2]
    refine ⟨rfl, ?_⟩
    intro e he hop
    rw [List.mem_singleton] at he
    rw [he] at hop
    simp [Call.op] at hop
  | none =>
    rw [(Create_steps P params s hv hm).2]
    refine ⟨rfl, ?_⟩
    intro e he hop
    simp only [List.mem_cons, List.mem_append, List.mem_singleton, List.not_mem_nil,
      or_false] at he
    rcases he with he | he | he
    · rw [he] at hop
      simp [Call.op] at hop
    · exact absurd hop (createSteps_op_ne_deleteDir P params _ _ e he)
    · rw [he]

/-- C28 (counterexample): two valid builds into `outputDir`, of the
applications `testAppName` and `otherApp`, create the same scratch
directory `outputDir/tmp` and delete that same directory. -/
theorem Create_shares_scratch_directory :
    testParams.OutputDir = otherName.OutputDir ∧ testParams.AppName ≠ otherName.AppName ∧
    validate.Check testParams = none ∧ validate.Check otherName = none ∧
    ((Create happy.providers testParams ()).log.map Event.call).filter
        (fun c => decide (c.op = .DeleteDir) || decide (c = .MkdirAll "outputDir/tmp" 511)) =
      [.MkdirAll "outputDir/tmp" 511, .DeleteDir "outputDir/tmp"] ∧
    ((Create happy.providers otherName ()).log.map Event.call).filter
        (fun c => decide (c.op = .DeleteDir) || decide (c = .MkdirAll "outputDir/tmp" 511)) =
      [.MkdirAll "outputDir/tmp" 511, .DeleteDir "outputDir/tmp"] ∧
    (Create happy.providers otherName ()).val = ("outputDir/otherApp.dmg", none) := by
  decide

/-- C28 (amended): the scratch workspace is scoped to the output directory,
not to one build. For every two valid parameter values with the same
`OutputDir`, whatever their `AppName`, the first call of either run
creates the same directory `Join(OutputDir, "tmp")`, and every DeleteDir
call of either run deletes that same directory. -/
theorem Create_scratch_depends_on_outputDir (P Q : Providers σ) (p q : CreateParams)
    (s w : σ) (hp : validate.Check p = none) (hq : validate.Check q = none)
    (ho : p.OutputDir = q.OutputDir) :
    (Create P p s).log.head?.map Event.call =
      some (.MkdirAll (filepath.Join [p.OutputDir, "tmp"]) os.ModePerm) ∧
    (Create Q q w).log.head?.map Event.call =
      some (.MkdirAll (filepath.Join [p.OutputDir, "tmp"]) os.ModePerm) ∧
    (∀ e ∈ (Create P p s).log, e.call.op = .DeleteDir →
      e.call = .DeleteDir (filepath.Join [p.OutputDir, "tmp"])) ∧
    (∀ e ∈ (Create Q q w).log, e.call.op = .DeleteDir →
      e.call = .DeleteDir (filepath.Join [p.OutputDir, "tmp"])) := by
  have h1 := Create_scratch P p s hp
  have h2 := Create_scratch Q q w hq
  rw [← ho] at h2
  exact ⟨h1.1, h2.1, h1.2, h2.2⟩

/-- Witness of C28 (amended): the builds of `testAppName` and `otherApp`
into `outputDir`. -/
theorem Create_scratch_depends_on_outputDir_witness :
    (Create happy.providers testParams ()).log.head?.map Event.call =
      some (.MkdirAll (filepath.Join [testParams.OutputDir, "tmp"]) os.ModePerm) ∧
    (Create happy.providers otherName ()).log.head?.map Event.call =
      some (.MkdirAll (filepath.Join [testParams.OutputDir, "tmp"]) os.ModePerm) ∧
    (∀ e ∈ (Create happy.providers testParams ()).log, e.call.op = .DeleteDir →
      e.call = .DeleteDir (filepath.Join [testParams.OutputDir, "tmp"])) ∧
    (∀ e ∈ (Create happy.providers otherName ()).log, e.call.op = .DeleteDir →
      e.call = .DeleteDir (filepath.Join [testParams.OutputDir, "tmp"])) :=
  Create_scratch_depends_on_outputDir happy.providers happy.providers testParams otherName
    () () (by decide) (by decide) (by decide)

end dmg

namespace strings

/-- Over a stretch of the text followed by a character that is not in
`old`, the replacements stay within the stretch: what follows it is
replaced on its own, with the replacements that are left. -/
theorem replaceChars_scan (o : Char) (os new rest : List Char) (m : Char)
    (hm : m ∉ o :: os) :
    ∀ (n : Nat) (base : List Char) (limit : Nat), base.length ≤ n →
      ∃ x l, replaceChars (o :: os) new (base ++ m :: rest) 0 limit =
        x ++ replaceChars (o :: os) new (m :: rest) 0 l := by
  intro n
  induction n with
  | zero =>
    intro base limit hlen
    have : base = [] := List.length_eq_zero.mp (Nat.le_zero.mp hlen)
    subst this
    exact ⟨[], limit, rfl⟩
  | succ k ih =>
    intro base limit hlen
    cases base with
    | nil => exact ⟨[], limit, rfl⟩
    | cons c cs =>
      have hcs : cs.length ≤ k := by
        simp only [List.length_cons] at hlen
        omega
      cases limit with
      | zero =>
        refine ⟨c :: cs, 0, ?_⟩
        rw [replaceChars_zero, replaceChars_zero]
      | succ l =>
        cases hp : (o :: os).isPrefixOf (c :: cs ++ m :: rest) with
        | false =>
          obtain ⟨x, l2, hx⟩ := ih cs (l + 1) hcs
          refine ⟨c :: x, l2, ?_⟩
          rw [List.cons_append, replaceChars]
          rw [List.cons_append] at hp
          rw [hp]
          simp only [Bool.false_eq_true, if_false]
          rw [hx]
          rfl
        | true =>
          rcases isPrefixOf_append_char (o :: os) (c :: cs) rest m hp with h1 | h1
          · rw [List.isPrefixOf_iff_prefix] at h1
            obtain ⟨t, ht⟩ := h1
            have hc : c = o ∧ cs = os ++ t := by
              simp only [List.cons_append, List.cons.injEq] at ht
              exact ⟨ht.1.symm, ht.2.symm⟩
            obtain ⟨hco, hcst⟩ := hc
            have htl : t.length ≤ k := by
              rw [hcst, List.length_append] at hcs
              omega
            obtain ⟨x, l2, hx⟩ := ih t l htl
            refine ⟨new ++ x, l2, ?_⟩
            rw [List.cons_append, replaceChars]
            rw [List.cons_append] at hp
            rw [hp]
            simp only [if_true]
            have hlen2 : (o :: os).length - 1 = os.length := by simp
            rw [hlen2, hcst, List.append_assoc, replaceChars_skip, hx, List.append_assoc]
          · exact absurd h1 hm

theorem Contains_iff_within (s sub : String) :
    Contains s sub = true ↔ sub.data <:+: s.data := by
  unfold Contains
  rw [List.any_eq_true]
  constructor
  · rintro ⟨t, ht, hp⟩
    have hsuf : t <:+ s.data := (List.mem_tails _ _).mp ht
    have hpre : sub.data <+: t := List.isPrefixOf_iff_prefix.mp hp
    exact List.IsInfix.trans hpre.isInfix hsuf.isInfix
  · rintro ⟨a, b, h⟩
    refine ⟨sub.data ++ b, (List.mem_tails _ _).mpr ⟨a, by rw [← h, List.append_assoc]⟩, ?_⟩
    rw [List.isPrefixOf_iff_prefix]
    exact List.prefix_append _ _

/-- What a piece of the text contains, the text contains. -/
theorem Contains_of_piece (a m b sub : String) (h : Contains m sub = true) :
    Contains (a ++ m ++ b) sub = true := by
  rw [Contains_iff_within] at h ⊢
  obtain ⟨x, y, hxy⟩ := h
  refine ⟨a.data ++ x, y ++ b.data, ?_⟩
  simp only [String.data_append, ← hxy, List.append_assoc]

end strings

namespace dmg
variable {σ τ : Type}

set_option maxRecDepth 100000

/-- The second replacement of `createInfoPlistFile`, for every name of the
executable: the three constant pieces of the template are kept. -/
theorem Replace_bundleIdentifier_pieces (base i : String) :
    ∃ x y : String,
      strings.Replace
          (plistPrefix ++ base ++ plistMiddle ++ "\x7b\x7b.BundleIdentifier\x7d\x7d" ++
            plistSuffix)
          "\x7b\x7b.BundleIdentifier\x7d\x7d" i (-1) =
        plistPrefix ++ x ++ plistMiddle ++ y ++ plistSuffix := by
  by_cases hb : "\x7b\x7b.BundleIdentifier\x7d\x7d" = i
  · exact ⟨base, "\x7b\x7b.BundleIdentifier\x7d\x7d", by rw [← hb, strings.Replace_same]⟩
  · obtain ⟨M, hM⟩ : ∃ M, plistMiddle.data = '<' :: M := ⟨_, rfl⟩
    have hold : ("\x7b\x7b.BundleIdentifier\x7d\x7d" : String).data =
        '\x7b' :: "\x7b.BundleIdentifier\x7d\x7d".data := rfl
    have hP : '\x7b' ∉ plistPrefix.data := by decide
    have hMid : '\x7b' ∉ plistMiddle.data := by decide
    have hS : '\x7b' ∉ plistSuffix.data := by decide
    have hlt : '<' ∉ ('\x7b' :: "\x7b.BundleIdentifier\x7d\x7d".data) := by decide
    have hs : (plistPrefix ++ base ++ plistMiddle ++ "\x7b\x7b.BundleIdentifier\x7d\x7d" ++
          plistSuffix).data =
        plistPrefix.data ++ (base.data ++ '<' :: (M ++
          (('\x7b' :: "\x7b.BundleIdentifier\x7d\x7d".data) ++ (plistSuffix.data ++ [])))) := by
      simp only [String.data_append, List.append_assoc, hM, hold, List.cons_append,
        List.append_nil]
    rw [hM] at hMid
    have hdata : ∃ x y : List Char,
        (strings.Replace
          (plistPrefix ++ base ++ plistMiddle ++ "\x7b\x7b.BundleIdentifier\x7d\x7d" ++
            plistSuffix)
          "\x7b\x7b.BundleIdentifier\x7d\x7d" i (-1)).data =
        plistPrefix.data ++ (x ++ (('<' :: M) ++ (y ++ plistSuffix.data))) := by
      rw [strings.Replace_all _ _ _ hb (by decide), hold]
      generalize (plistPrefix ++ base ++ plistMiddle ++ "\x7b\x7b.BundleIdentifier\x7d\x7d" ++
            plistSuffix).data.length = L at hs ⊢
      rw [hs, strings.replaceChars_keep_head _ _ _ _ _ _ hP]
      obtain ⟨x, l, hx⟩ := strings.replaceChars_scan '\x7b' "\x7b.BundleIdentifier\x7d\x7d".data
        i.data (M ++ (('\x7b' :: "\x7b.BundleIdentifier\x7d\x7d".data) ++
          (plistSuffix.data ++ []))) '<' hlt base.data.length base.data (L + 1) (Nat.le_refl _)
      rw [hx]
      rw [show ('<' :: (M ++ (('\x7b' :: "\x7b.BundleIdentifier\x7d\x7d".data) ++
            (plistSuffix.data ++ [])))) =
          ('<' :: M) ++ (('\x7b' :: "\x7b.BundleIdentifier\x7d\x7d".data) ++
            (plistSuffix.data ++ [])) from rfl,
        strings.replaceChars_keep_head _ _ _ _ _ _ hMid]
      cases l with
      | zero =>
        refine ⟨x, '\x7b' :: "\x7b.BundleIdentifier\x7d\x7d".data, ?_⟩
        rw [strings.replaceChars_zero]
        simp
      | succ l2 =>
        refine ⟨x, i.data, ?_⟩
        rw [strings.replaceChars_match, strings.replaceChars_keep_head _ _ _ _ _ _ hS]
        have hnil : strings.replaceChars ('\x7b' :: "\x7b.BundleIdentifier\x7d\x7d".data)
            i.data [] 0 l2 = [] := by
          cases l2 <;> rfl
        rw [hnil]
        simp
    obtain ⟨x, y, hxy⟩ := hdata
    refine ⟨⟨x⟩, ⟨y⟩, String.ext ?_⟩
    rw [hxy]
    simp only [String.data_append, List.append_assoc, hM]

/-- The text written for the bundle of `TestCreate`, and for a binary path
whose name is the token of the bundle identifier. -/
theorem createInfoPlistFile_table :
    (createInfoPlistFile happy.providers "path/to/appBinary" "testAppName.app" "outputDir/tmp"
        "bundleIdentifier" ()).log.map Event.call =
      [.WriteFile "outputDir/tmp/testAppName.app/Contents/Info.plist"
        ("<?xml version=\"1.0\" encoding=\"UTF-8\"?>\n" ++
          "<!DOCTYPE plist PUBLIC \"-//Apple//DTD PLIST 1.0//EN\" " ++
          "\"http://www.apple.com/DTDs/PropertyList-1.0.dtd\">\n" ++
          "<plist version=\"1.0\">\n<dict>\n" ++
          "\t<key>CFBundleExecutable</key>\n\t<string>appBinary</string>\n" ++
          "\t<key>CFBundleIconFile</key>\n\t<string>icon.icns</string>\n" ++
          "\t<key>CFBundleIdentifier</key>\n\t<string>bundleIdentifier</string>\n" ++
          "\t<key>NSHighResolutionCapable</key>\n\t<true/>\n" ++
          "\t<key>LSUIElement</key>\n\t<true/>\n</dict>\n</plist>\n") 511] := by
  decide

end dmg

namespace filepath

/-- The cleaned join of a directory and a real element is the element
behind a prefix that depends on the directory alone. -/
theorem cleanChars_append_real_uniform (t : List Char) :
    ∃ x, DirPrefix x ∧ ∀ e, RealElem e → cleanChars (t ++ '/' :: e) = x ++ e := by
  have key : ∀ (c : Char) (rest : List Char), t ++ ['/'] = c :: rest →
      ∃ x, DirPrefix x ∧ ∀ e, RealElem e → cleanChars (t ++ '/' :: e) = x ++ e := by
    intro c rest hc
    have hcons : ∀ e : List Char, t ++ '/' :: e = c :: (rest ++ e) := by
      intro e
      have : t ++ '/' :: e = (t ++ ['/']) ++ e := by simp
      rw [this, hc]
      rfl
    by_cases hr : c = '/'
    · subst hr
      by_cases hy : cleanElems true (splitSep t) = []
      · refine ⟨['/'], Or.inr ⟨[], rfl⟩, ?_⟩
        intro e he
        have h1 := cleanElems_append_real true t e he
        rw [hcons e] at h1 ⊢
        rw [cleanChars_rooted, h1, hy]
        simp [joinSep]
      · refine ⟨'/' :: joinSep (cleanElems true (splitSep t)) ++ ['/'], Or.inr ⟨_, rfl⟩, ?_⟩
        intro e he
        have h1 := cleanElems_append_real true t e he
        rw [hcons e] at h1 ⊢
        rw [cleanChars_rooted, h1, joinSep_append_singleton]
        simp [hy]
    · by_cases hy : cleanElems false (splitSep t) = []
      · refine ⟨[], Or.inl rfl, ?_⟩
        intro e he
        have h1 := cleanElems_append_real false t e he
        rw [hcons e] at h1 ⊢
        rw [cleanChars_unrooted c _ hr, h1, hy]
        simp [joinSep]
      · refine ⟨joinSep (cleanElems false (splitSep t)) ++ ['/'], Or.inr ⟨_, rfl⟩, ?_⟩
        intro e he
        have h1 := cleanElems_append_real false t e he
        rw [hcons e] at h1 ⊢
        rw [cleanChars_unrooted c _ hr, h1, joinSep_append_singleton]
        simp [hy]
  cases h : t ++ ['/'] with
  | nil => simp at h
  | cons c rest => exact key c rest h

theorem Join_pair_uniform (t : String) :
    ∃ x, DirPrefix x ∧ ∀ e : String, RealElem e.data → (Join [t, e]).data = x ++ e.data := by
  by_cases ht : t = ""
  · refine ⟨[], Or.inl rfl, ?_⟩
    intro e he
    have hne : e ≠ "" := fun h0 => he.2.1 (by simp [h0])
    simp [Join, ht, hne, strings.Join, Clean, cleanChars_real e.data he]
  · obtain ⟨x, hx, hc⟩ := cleanChars_append_real_uniform t.data
    refine ⟨x, hx, ?_⟩
    intro e he
    simp [Join, ht, strings.Join, Clean, hc e.data he]

/-- A text is a directory prefix followed by its last segment. -/
theorem exists_last_segment :
    ∀ l : List Char, ∃ pre seg, l = pre ++ seg ∧ DirPrefix pre ∧ '/' ∉ seg
  | [] => ⟨[], [], rfl, Or.inl rfl, by simp⟩
  | c :: cs => by
    obtain ⟨pre, seg, hl, hpre, hseg⟩ := exists_last_segment cs
    rcases hpre with h0 | ⟨y, hy⟩
    · subst h0
      by_cases hc : c = '/'
      · exact ⟨[c], seg, by rw [hl]; rfl, Or.inr ⟨[], by rw [hc]; rfl⟩, hseg⟩
      · refine ⟨[], c :: seg, by rw [hl]; rfl, Or.inl rfl, ?_⟩
        intro hmem
        rcases List.mem_cons.mp hmem with h | h
        · exact hc h.symm
        · exact hseg h
    · exact ⟨c :: pre, seg, by rw [hl]; rfl, Or.inr ⟨c :: y, by rw [hy]; rfl⟩, hseg⟩

/-- A path joined under a directory ends with its last segment, when that
segment is a real element. -/
theorem Join_pair_last_segment (t : String) (pre seg : List Char) (hpre : DirPrefix pre)
    (hseg : RealElem seg) : ∃ x, DirPrefix x ∧ (Join [t, ⟨pre ++ seg⟩]).data = x ++ seg := by
  have hne : (⟨pre ++ seg⟩ : String) ≠ "" := by
    intro h
    have := congrArg String.data h
    simp at this
    exact hseg.2.1 this.2
  rcases hpre with h0 | ⟨y, hy⟩
  · subst h0
    exact Join_pair_real t ⟨[] ++ seg⟩ hseg
  · subst hy
    by_cases ht : t = ""
    · obtain ⟨x, hx, hc⟩ := cleanChars_append_real y seg hseg
      refine ⟨x, hx, ?_⟩
      have e1 : y ++ ['/'] ++ seg = y ++ '/' :: seg := by simp
      rw [e1] at hne ⊢
      simp [Join, ht, hne, strings.Join, Clean, hc]
    · obtain ⟨x, hx, hc⟩ := cleanChars_append_real (t.data ++ '/' :: y) seg hseg
      refine ⟨x, hx, ?_⟩
      have e1 : t.data ++ '/' :: (y ++ ['/'] ++ seg) = t.data ++ '/' :: y ++ '/' :: seg := by
        simp
      simp only [Join, ht, if_false, strings.Join, Clean, String.data_append]
      simp only [List.append_assoc, List.singleton_append, List.cons_append,
        List.nil_append] at e1 hc ⊢
      rw [hc]

end filepath

namespace dmg
variable {σ : Type}

/-- The volume label that `createAppDmg` derives from the bundle path of
`Create` holds no separator. -/
theorem bundleLabel_no_sep (t n : String) :
    '/' ∉ (strings.TrimSuffix (filepath.Base (filepath.Join [t, n ++ ".app"])) ".app").data := by
  obtain ⟨pre, seg, hl, hpre, hseg⟩ := filepath.exists_last_segment n.data
  have hreal : filepath.RealElem (seg ++ ".app".data) := by
    refine ⟨?_, ?_, ?_, ?_⟩
    · simp only [List.mem_append, not_or]
      exact ⟨hseg, by decide⟩
    · intro h; have := congrArg List.length h; simp at this
    · intro h; have := congrArg List.length h; simp at this
    · intro h; have := congrArg List.length h; simp at this
  have hn : n ++ ".app" = ⟨pre ++ (seg ++ ".app".data)⟩ := by
    apply String.ext
    simp [hl]
  obtain ⟨x, hx, hj⟩ := filepath.Join_pair_last_segment t pre (seg ++ ".app".data) hpre hreal
  rw [← hn] at hj
  have hb : filepath.Base (filepath.Join [t, n ++ ".app"]) = (⟨seg⟩ : String) ++ ".app" := by
    have : filepath.Join [t, n ++ ".app"] = ⟨x ++ (seg ++ ".app".data)⟩ := String.ext hj
    rw [this, filepath.Base_dir_append x _ hx hreal.1 hreal.2.1]
    rfl
  rw [hb, strings.TrimSuffix_append]
  exact hseg

theorem realElem_template (l : String) (h : '/' ∉ l.data) :
    filepath.RealElem (l ++ "-template.dmg").data := by
  refine ⟨?_, ?_, ?_, ?_⟩
  · simp only [String.data_append, List.mem_append, not_or]
    exact ⟨h, by decide⟩
  · intro h; have := congrArg List.length h; simp at this
  · intro h; have := congrArg List.length h; simp at this
  · intro h; have := congrArg List.length h; simp at this

theorem realElem_tmp : filepath.RealElem "tmp".data := by
  simp [filepath.RealElem]

/-- The path of the container for a label without separator: a direct
child of the scratch directory, and not a file directly in the output
directory. -/
theorem template_path (o l : String) (h : '/' ∉ l.data) :
    filepath.Join [filepath.Join [o, "tmp"], l ++ "-template.dmg"] =
        filepath.Join [o, "tmp"] ++ "/" ++ (l ++ "-template.dmg") ∧
      filepath.Join [o, "tmp", l ++ "-template.dmg"] =
        filepath.Join [o, "tmp"] ++ "/" ++ (l ++ "-template.dmg") ∧
      ∀ y : String, filepath.RealElem y.data →
        filepath.Join [o, y] ≠ filepath.Join [o, "tmp"] ++ "/" ++ (l ++ "-template.dmg") := by
  have hr := realElem_template l h
  have hfs : ∀ f ∈ [(l ++ "-template.dmg").data], filepath.RealElem f := by
    intro f hf
    rw [List.mem_singleton] at hf
    rw [hf]
    exact hr
  have hu : '/' :: (l ++ "-template.dmg").data =
      filepath.sepJoin [(l ++ "-template.dmg").data] := by
    simp [filepath.sepJoin]
  have hsj : (⟨filepath.sepJoin [(l ++ "-template.dmg").data]⟩ : String) =
      "/" ++ (l ++ "-template.dmg") := by
    apply String.ext
    rw [← hu]
    rfl
  refine ⟨?_, ?_, ?_⟩
  · rw [filepath.Join_nested _ _ (filepath.Cleaned.Join_pair o "tmp" realElem_tmp) _ hfs hu,
      hsj, String.append_assoc]
  · rw [filepath.Join_triple o "tmp" _ realElem_tmp _ hfs hu, hsj, String.append_assoc]
  · intro y hy heq
    obtain ⟨x, _, hx⟩ := filepath.Join_pair_uniform o
    have h1 := hx y hy
    have h2 := hx "tmp" realElem_tmp
    have h3 := congrArg String.data heq
    rw [h1] at h3
    simp only [String.data_append, h2, List.append_assoc] at h3
    have h4 := List.append_cancel_left h3
    apply hy.1
    rw [h4]
    have e2 : ("/" : String).data = ['/'] := rfl
    simp [e2]

end dmg

namespace dmg
variable {σ : Type}

theorem steps_createDMG_calls (n b i bid t o : String) :
    (bundleCalls n b i bid t ++ dmgCalls (filepath.Join [t, n ++ ".app"]) t o).filter
        (fun c => decide (c.op = .CreateDMG)) =
      [.CreateDMG "100m" "APFS"
        (strings.TrimSuffix (filepath.Base (filepath.Join [t, n ++ ".app"])) ".app") "GPTSPUD"
        (filepath.Join [t,
          strings.TrimSuffix (filepath.Base (filepath.Join [t, n ++ ".app"])) ".app" ++
            "-template.dmg"])] := by
  simp [bundleCalls, dmgCalls, Call.op, List.filter]

/-- The CreateDMG calls of `Create`: at most the one of the pipeline, and
exactly that one when `Create` succeeds. -/
theorem Create_createDMG_calls (P : Providers σ) (params : CreateParams) (s : σ) :
    ((Create P params s).log.map Event.call).filter (fun c => decide (c.op = .CreateDMG)) <+:
        [.CreateDMG "100m" "APFS"
          (strings.TrimSuffix (filepath.Base
            (filepath.Join [filepath.Join [params.OutputDir, "tmp"], params.AppName ++ ".app"]))
            ".app") "GPTSPUD"
          (filepath.Join [filepath.Join [params.OutputDir, "tmp"],
            strings.TrimSuffix (filepath.Base
              (filepath.Join [filepath.Join [params.OutputDir, "tmp"],
                params.AppName ++ ".app"])) ".app" ++ "-template.dmg"])] ∧
      ((Create P params s).val.2 = none →
        ((Create P params s).log.map Event.call).filter
            (fun c => decide (c.op = .CreateDMG)) =
          [.CreateDMG "100m" "APFS"
            (strings.TrimSuffix (filepath.Base
              (filepath.Join [filepath.Join [params.OutputDir, "tmp"],
                params.AppName ++ ".app"])) ".app") "GPTSPUD"
            (filepath.Join [filepath.Join [params.OutputDir, "tmp"],
              strings.TrimSuffix (filepath.Base
                (filepath.Join [filepath.Join [params.OutputDir, "tmp"],
                  params.AppName ++ ".app"])) ".app" ++ "-template.dmg"])]) := by
  cases hv : validate.Check params with
  | some err =>
    obtain ⟨h1, h2, _⟩ := Create_invalid P params s err hv
    rw [h2, h1]
    simp
  | none =>
    cases hm : (P.MkdirAll (filepath.Join [params.OutputDir, "tmp"]) os.ModePerm s).1 with
    | some err =>
      obtain ⟨h1, h2⟩ := Create_mkdir_failed P params s err hv hm
      rw [h2, h1]
      simp [Call.op]
    | none =>
      obtain ⟨h1, h2⟩ := Create_steps P params s hv hm
      have hst := createSteps_stops P params (filepath.Join [params.OutputDir, "tmp"])
        (P.MkdirAll (filepath.Join [params.OutputDir, "tmp"]) os.ModePerm s).2
      rw [h2, h1]
      generalize createSteps P params (filepath.Join [params.OutputDir, "tmp"])
        (P.MkdirAll (filepath.Join [params.OutputDir, "tmp"]) os.ModePerm s).2 = r at hst ⊢
      have hf : ((⟨.MkdirAll (filepath.Join [params.OutputDir, "tmp"]) os.ModePerm, false,
            none⟩ :: (r.log ++ [⟨.DeleteDir (filepath.Join [params.OutputDir, "tmp"]), false,
              (P.DeleteDir (filepath.Join [params.OutputDir, "tmp"]) r.st).1⟩]) :
              List Event).map Event.call).filter (fun c => decide (c.op = .CreateDMG)) =
          (r.log.map Event.call).filter (fun c => decide (c.op = .CreateDMG)) := by
        simp [Call.op, List.filter_append]
      rw [hf]
      constructor
      · have := hst.1.filter (fun c => decide (c.op = .CreateDMG))
        rw [steps_createDMG_calls] at this
        exact this
      · intro hok
        have h3 := hst.2.2.1
        have hfv : failedV r.val = false := by simp [failedV, hok]
        rw [hfv] at h3
        simp only [Bool.false_eq_true, if_false] at h3
        rw [h3.1, steps_createDMG_calls]

/-- C22 (counterexample): for the valid parameters with the application
name `a/` the one container is created with the empty volume label, as
the file `-template.dmg` of `outputDir/tmp`, while the artifact is
`outputDir/a.dmg`: the label is not the artifact name `a`. -/
theorem Create_labels_container_with_empty_name :
    validate.Check trailingSep = none ∧
    ((Create happy.providers trailingSep ()).log.map Event.call).filter
        (fun c => decide (c.op = .CreateDMG)) =
      [.CreateDMG "100m" "APFS" "" "GPTSPUD" "outputDir/tmp/-template.dmg"] ∧
    (Create happy.providers trailingSep ()).val = ("outputDir/a.dmg", none) ∧
    filepath.Base (strings.TrimSuffix "outputDir/a.dmg" ".dmg") = "a" := by
  decide

/-- The container of `Create` for every application name: at most one is
allocated, and exactly one when `Create` succeeds, with the size `100m`,
the filesystem `APFS`, the layout `GPTSPUD` and the volume label L, the
last element of the bundle path without `.app`, which is AppName when
AppName is not empty and holds no separator. Its path
`Join(OutputDir, "tmp", L ++ "-template.dmg")` is the scratch directory
`Join(OutputDir, "tmp")` followed by a separator and one element, and is
no file directly in OutputDir. -/
theorem Create_container_of_label (P : Providers σ) (params : CreateParams) (s : σ)
    (L : String)
    (hL : L = strings.TrimSuffix (filepath.Base
      (filepath.Join [filepath.Join [params.OutputDir, "tmp"], params.AppName ++ ".app"]))
      ".app") :
    ((Create P params s).log.map Event.call).filter (fun c => decide (c.op = .CreateDMG)) <+:
      [.CreateDMG "100m" "APFS" L "GPTSPUD"
        (filepath.Join [params.OutputDir, "tmp", L ++ "-template.dmg"])] ∧
    ((Create P params s).val.2 = none →
      ((Create P params s).log.map Event.call).filter (fun c => decide (c.op = .CreateDMG)) =
        [.CreateDMG "100m" "APFS" L "GPTSPUD"
          (filepath.Join [params.OutputDir, "tmp", L ++ "-template.dmg"])]) ∧
    filepath.Join [params.OutputDir, "tmp", L ++ "-template.dmg"] =
      filepath.Join [params.OutputDir, "tmp"] ++ "/" ++ (L ++ "-template.dmg") ∧
    '/' ∉ (L ++ "-template.dmg").data ∧
    (∀ y : String, filepath.RealElem y.data →
      filepath.Join [params.OutputDir, y] ≠
        filepath.Join [params.OutputDir, "tmp", L ++ "-template.dmg"]) ∧
    (PlainName params.AppName → L = params.AppName) := by
  have hsep : '/' ∉ L.data := by
    rw [hL]
    exact bundleLabel_no_sep _ _
  obtain ⟨p1, p2, p3⟩ := template_path params.OutputDir L hsep
  obtain ⟨c1, c2⟩ := Create_createDMG_calls P params s
  rw [← hL, p1, ← p2] at c1 c2
  refine ⟨c1, c2, p2, (realElem_template L hsep).1, ?_, ?_⟩
  · intro y hy
    rw [p2]
    exact p3 y hy
  · intro hn
    rw [hL]
    exact dmgName_of_bundle _ _ hn

/-- C22 (amended): for an application name that is not empty and holds no
separator, `Create` allocates at most one container, with the size `100m`,
the filesystem `APFS`, the layout `GPTSPUD` and the volume label AppName,
at the path `Join(OutputDir, "tmp", AppName ++ "-template.dmg")`. That one
container is allocated whenever the parameters are valid and no call before
the removal of the scratch directory fails, and then the artifact returned
is `Join(OutputDir, AppName ++ ".dmg")`: the label is the artifact name.
The path of the container is the scratch directory `Join(OutputDir, "tmp")`
followed by a separator and one element, and is no file directly in
OutputDir. -/
theorem Create_allocates_one_container (P : Providers σ) (params : CreateParams) (s : σ)
    (hn : '/' ∉ params.AppName.data) (hne : params.AppName ≠ "") :
    ((Create P params s).log.map Event.call).filter (fun c => decide (c.op = .CreateDMG)) <+:
      [.CreateDMG "100m" "APFS" params.AppName "GPTSPUD"
        (filepath.Join [params.OutputDir, "tmp", params.AppName ++ "-template.dmg"])] ∧
    (validate.Check params = none →
      (∀ e ∈ (Create P params s).log, e.call.op ≠ .DeleteDir → e.failed = false) →
      ((Create P params s).log.map Event.call).filter (fun c => decide (c.op = .CreateDMG)) =
          [.CreateDMG "100m" "APFS" params.AppName "GPTSPUD"
            (filepath.Join [params.OutputDir, "tmp", params.AppName ++ "-template.dmg"])] ∧
        (Create P params s).val =
          (filepath.Join [params.OutputDir, params.AppName ++ ".dmg"], none)) ∧
    filepath.Join [params.OutputDir, "tmp", params.AppName ++ "-template.dmg"] =
      filepath.Join [params.OutputDir, "tmp"] ++ "/" ++ (params.AppName ++ "-template.dmg") ∧
    '/' ∉ (params.AppName ++ "-template.dmg").data ∧
    (∀ y : String, filepath.RealElem y.data →
      filepath.Join [params.OutputDir, y] ≠
        filepath.Join [params.OutputDir, "tmp", params.AppName ++ "-template.dmg"]) := by
  have hp : PlainName params.AppName := ⟨hne, hn⟩
  have hL := dmgName_of_bundle (filepath.Join [params.OutputDir, "tmp"]) params.AppName hp
  obtain ⟨c1, c2, c3, c4, c5, _⟩ :=
    Create_container_of_label P params s params.AppName hL.symm
  refine ⟨c1, ?_, c3, c4, c5⟩
  intro hv hok
  have hval := Create_success P params s hv hok
  rw [convertName_of_bundle (filepath.Join [params.OutputDir, "tmp"]) params.AppName hp] at hval
  refine ⟨c2 ?_, hval⟩
  rw [hval]

/-- Witness of C22 (amended): the happy path of `TestCreate`, and the case
of `Test_createDMGTemplate`. -/
theorem Create_allocates_one_container_witness :
    '/' ∉ testParams.AppName.data ∧ testParams.AppName ≠ "" ∧
    validate.Check testParams = none ∧
    ((Create happy.providers testParams ()).log.map Event.call).filter
        (fun c => decide (c.op = .CreateDMG)) =
      [.CreateDMG "100m" "APFS" testParams.AppName "GPTSPUD"
        (filepath.Join [testParams.OutputDir, "tmp", testParams.AppName ++ "-template.dmg"])] ∧
    (Create happy.providers testParams ()).val =
      (filepath.Join [testParams.OutputDir, testParams.AppName ++ ".dmg"], none) ∧
    filepath.Join [testParams.OutputDir, "tmp", testParams.AppName ++ "-template.dmg"] =
      "outputDir/tmp/testAppName-template.dmg" ∧
    filepath.Join [testParams.OutputDir, testParams.AppName ++ ".dmg"] =
      "outputDir/testAppName.dmg" ∧
    (createDMGTemplate happy.providers "dmgTemplateVolName" "outputDir" ()).val =
      ("outputDir/dmgTemplateVolName-template.dmg", none) :=
  ⟨by decide, by decide, by decide,
    ((Create_allocates_one_container happy.providers testParams () (by decide)
      (by decide)).2.1 (by decide) (by decide)).1,
    ((Create_allocates_one_container happy.providers testParams () (by decide)
      (by decide)).2.1 (by decide) (by decide)).2,
    by decide, by decide, by decide⟩

end dmg

namespace dmg
variable {σ : Type}

/-- The last call of a failed block failed and is a call of its script. -/
theorem Stops.last_call {cs : List Call} {l : List Event} (h : Stops cs l true) :
    ∃ e, l.getLast? = some e ∧ e.failed = true ∧ e.call ∈ cs := by
  obtain ⟨h1, _, h3, _⟩ := h
  simp only [if_true] at h3
  obtain ⟨e, he, hf⟩ := h3
  exact ⟨e, he, hf,
    h1.subset (List.mem_map.mpr ⟨e, List.mem_of_getLast?_eq_some he, rfl⟩)⟩

theorem getLast?_append_some (l1 l2 : List Event) (e : Event) (h : l2.getLast? = some e) :
    (l1 ++ l2).getLast? = some e := by
  rw [List.getLast?_append, h]
  rfl

/-- The error of `createAppBundle` begins with the label of the step that
made the last call, which failed. -/
theorem createAppBundle_label (P : Providers σ) (n b i bid d : String) (s : σ) (err : GoError)
    (h : (createAppBundle P n b i bid d s).val.2 = some err) :
    ∃ e, (createAppBundle P n b i bid d s).log.getLast? = some e ∧ e.failed = true ∧
      strings.HasPrefix err.msg (bundleStepLabel e.call.op ++ ": ") = true := by
  have hs1 := createAppBundleDirectories_stops P (n ++ ".app") d s
  simp only [createAppBundle, Eff.bind_val, Eff.bind_log, Eff.bind_st] at h ⊢
  generalize createAppBundleDirectories P (n ++ ".app") d s = o1 at hs1 h ⊢
  rcases o1 with ⟨v1, s1, l1⟩
  simp only at hs1 h ⊢
  cases v1 with
  | some e1 =>
    simp only [Eff.pure_val, Eff.pure_log, List.append_nil, Option.some.injEq] at h ⊢
    subst h
    obtain ⟨e, he, hf, hc⟩ := Stops.last_call hs1
    refine ⟨e, he, hf, ?_⟩
    have hop : e.call.op = .MkdirAll := by
      simp only [List.mem_cons, List.mem_singleton, List.not_mem_nil, or_false] at hc
      rcases hc with h | h | h | h <;> rw [h] <;> rfl
    rw [hop]
    exact strings.HasPrefix_Wrap _ _
  | none =>
    have hs2 := createIconSet_stops P i (n ++ ".app") d s1
    simp only [Eff.bind_val, Eff.bind_log, Eff.bind_st] at h ⊢
    generalize createIconSet P i (n ++ ".app") d s1 = o2 at hs2 h ⊢
    rcases o2 with ⟨v2, s2, l2⟩
    simp only at hs2 h ⊢
    cases v2 with
    | some e2 =>
      simp only [Eff.pure_val, Eff.pure_log, List.append_nil, Option.some.injEq] at h ⊢
      subst h
      obtain ⟨e, he, hf, hc⟩ := Stops.last_call hs2
      refine ⟨e, getLast?_append_some _ _ _ he, hf, ?_⟩
      have hop : bundleStepLabel e.call.op = "error when creating icon set" := by
        simp only [List.mem_cons, List.mem_singleton, List.not_mem_nil, or_false] at hc
        rcases hc with h | h <;> rw [h] <;> rfl
      rw [hop]
      exact strings.HasPrefix_Wrap _ _
    | none =>
      have hs3 := copyAppBinary_stops P b (filepath.Join [d, n ++ ".app"]) s2
      simp only [Eff.bind_val, Eff.bind_log, Eff.bind_st] at h ⊢
      generalize copyAppBinary P b (filepath.Join [d, n ++ ".app"]) s2 = o3 at hs3 h ⊢
      rcases o3 with ⟨v3, s3, l3⟩
      simp only at hs3 h ⊢
      cases v3 with
      | some e3 =>
        simp only [Eff.pure_val, Eff.pure_log, List.append_nil, Option.some.injEq] at h ⊢
        subst h
        obtain ⟨e, he, hf, hc⟩ := Stops.last_call hs3
        refine ⟨e, getLast?_append_some _ _ _ (getLast?_append_some _ _ _ he), hf, ?_⟩
        have hop : e.call.op = .CopyFile := by
          simp only [List.mem_singleton] at hc
          rw [hc]
          rfl
        rw [hop]
        exact strings.HasPrefix_Wrap _ _
      | none =>
        have hs4 := createInfoPlistFile_stops P b (n ++ ".app") d bid s3
        simp only [Eff.bind_val, Eff.bind_log, Eff.bind_st] at h ⊢
        generalize createInfoPlistFile P b (n ++ ".app") d bid s3 = o4 at hs4 h ⊢
        rcases o4 with ⟨v4, s4, l4⟩
        simp only at hs4 h ⊢
        cases v4 with
        | some e4 =>
          simp only [Eff.pure_val, Eff.pure_log, List.append_nil, Option.some.injEq] at h ⊢
          subst h
          obtain ⟨e, he, hf, hc⟩ := Stops.last_call hs4
          refine ⟨e, getLast?_append_some _ _ _
            (getLast?_append_some _ _ _ (getLast?_append_some _ _ _ he)), hf, ?_⟩
          have hop : e.call.op = .WriteFile := by
            simp only [List.mem_singleton] at hc
            rw [hc]
            rfl
          rw [hop]
          exact strings.HasPrefix_Wrap _ _
        | none => simp at h

/-- C25: `createAppBundle` performs its steps in order and aborts at the
first failure. Its calls are the first calls of the list: MkdirAll of the
four directories, GenerateIcons, GenerateIconSet, CopyFile of the binary
and WriteFile of `Info.plist`. No call but the last one returned an error;
none is a DeleteDir. It returns an error exactly when a call returned one:
then the path is empty, the failed call is the last call made, and the
error begins with the label of its step and ends with the message of the
error of that call. Otherwise every call of the list was made and the
bundle path is returned. -/
theorem createAppBundle_aborts_at_first_failure (P : Providers σ) (n b i bid d : String)
    (s : σ) :
    (createAppBundle P n b i bid d s).log.map Event.call <+:
      [.MkdirAll (filepath.Join [d, n ++ ".app"]) os.ModePerm,
       .MkdirAll (filepath.Join [d, "icon.iconset"]) os.ModePerm,
       .MkdirAll (filepath.Join [d, n ++ ".app", "Contents/MacOS"]) os.ModePerm,
       .MkdirAll (filepath.Join [d, n ++ ".app", "Contents/Resources"]) os.ModePerm,
       .GenerateIcons i (filepath.Join [d, "icon.iconset"]) [16, 32, 64, 128, 256, 512, 1024],
       .GenerateIconSet (filepath.Join [d, "icon.iconset"])
         (filepath.Join [d, n ++ ".app", "Contents/Resources"]),
       .CopyFile b (filepath.Join [filepath.Join [d, n ++ ".app"], "Contents/MacOS"]),
       .WriteFile
         (filepath.Join [filepath.Join [d, n ++ ".app", "Contents"], "Info.plist"])
         (strings.Replace
           (strings.Replace infoPlistTpl "\x7b\x7b.AppName\x7d\x7d" (filepath.Base b) (-1))
           "\x7b\x7b.BundleIdentifier\x7d\x7d" bid (-1))
         os.ModePerm] ∧
    (∀ e ∈ (createAppBundle P n b i bid d s).log.dropLast, e.err = none) ∧
    (∀ e ∈ (createAppBundle P n b i bid d s).log, e.call.op ≠ .DeleteDir) ∧
    ((createAppBundle P n b i bid d s).val.2 ≠ none ↔
      ∃ e ∈ (createAppBundle P n b i bid d s).log, e.err ≠ none) ∧
    (∀ err, (createAppBundle P n b i bid d s).val.2 = some err →
      (createAppBundle P n b i bid d s).val.1 = "" ∧
      ∃ e cause, (createAppBundle P n b i bid d s).log.getLast? = some e ∧
        e.err = some cause ∧
        strings.HasPrefix err.msg (bundleStepLabel e.call.op ++ ": ") = true ∧
        strings.HasSuffix err.msg cause.msg = true) ∧
    ((createAppBundle P n b i bid d s).val.2 = none →
      (createAppBundle P n b i bid d s).val.1 = filepath.Join [d, n ++ ".app"] ∧
      (createAppBundle P n b i bid d s).log.map Event.call =
        bundleCalls n b i bid d) := by
  have hs := createAppBundle_stops P n b i bid d s
  have hfound : ∀ e ∈ (createAppBundle P n b i bid d s).log, e.found = false := by
    intro e he
    cases hf : e.found with
    | false => rfl
    | true =>
      have h1 := hs.2.2.2 e he hf
      have h2 := (bundleCalls_ops n b i bid d e.call
        (hs.1.subset (List.mem_map.mpr ⟨e, he, rfl⟩))).1
      exact absurd h1 h2
  have herr : ∀ e ∈ (createAppBundle P n b i bid d s).log, e.failed = true → e.err ≠ none := by
    intro e he hf h0
    have := (Event.failed_eq_false_iff e).mpr ⟨h0, hfound e he⟩
    rw [hf] at this
    cases this
  refine ⟨hs.1, ?_, ?_, ?_, ?_, ?_⟩
  · intro e he
    exact ((Event.failed_eq_false_iff e).mp (hs.2.1 e he)).1
  · intro e he
    exact (bundleCalls_ops n b i bid d e.call
      (hs.1.subset (List.mem_map.mpr ⟨e, he, rfl⟩))).2
  · constructor
    · intro hne
      cases hv : (createAppBundle P n b i bid d s).val.2 with
      | none => exact absurd hv hne
      | some err =>
        obtain ⟨e, he, hf, _⟩ := createAppBundle_label P n b i bid d s err hv
        exact ⟨e, List.mem_of_getLast?_eq_some he,
          herr e (List.mem_of_getLast?_eq_some he) hf⟩
    · rintro ⟨e, he, hne⟩ hnone
      have hall := hs.ok_iff.mp (by simp [failedV, hnone])
      have := ((Event.failed_eq_false_iff e).mp (hall e he)).1
      exact hne this
  · intro err hv
    constructor
    · rcases createAppBundle_val P n b i bid d s with h | ⟨e, h⟩
      · rw [h] at hv
        cases hv
      · rw [h]
    · obtain ⟨e, he, hf, hp⟩ := createAppBundle_label P n b i bid d s err hv
      have hmem := List.mem_of_getLast?_eq_some he
      cases hc : e.err with
      | none => exact absurd hc (herr e hmem hf)
      | some cause =>
        obtain ⟨r, hr, hsuf⟩ := createAppBundle_blames P n b i bid d s e hmem cause hc
        rw [hv] at hr
        cases hr
        exact ⟨e, cause, he, hc, hp, hsuf⟩
  · intro hv
    constructor
    · rcases createAppBundle_val P n b i bid d s with h | ⟨e, h⟩
      · rw [h]
      · rw [h] at hv
        cases hv
    · have h3 := hs.2.2.1
      have hfv : failedV (createAppBundle P n b i bid d s).val = false := by
        simp [failedV, hv]
      rw [hfv] at h3
      simp only [Bool.false_eq_true, if_false] at h3
      exact h3.1

/-- The cases of `Test_createAppBundle`: the happy path and the failing
copy of the binary, after which nothing is written. -/
theorem createAppBundle_table :
    (createAppBundle happy.providers "testAppName" "testAppBinaryPath" "testIconPath"
        "testBundleIdentifier" "testOutputDir" ()).val =
      ("testOutputDir/testAppName.app", none) ∧
    (createAppBundle copyFileFails.providers "testAppName" "testAppBinaryPath" "testIconPath"
        "testBundleIdentifier" "testOutputDir" ()).val =
      ("", some ⟨"error when copying app binary: error when copying file " ++
        "[testAppBinaryPath] to [testOutputDir/testAppName.app/Contents/MacOS]: " ++
        "permission denied", false⟩) ∧
    (createAppBundle copyFileFails.providers "testAppName" "testAppBinaryPath" "testIconPath"
        "testBundleIdentifier" "testOutputDir" ()).log.map (fun e => (e.call.op, e.err.isSome)) =
      [(.MkdirAll, false), (.MkdirAll, false), (.MkdirAll, false), (.MkdirAll, false),
       (.GenerateIcons, false), (.GenerateIconSet, false), (.CopyFile, true)] := by
  decide

end dmg

namespace retry
variable {σ ε : Type}

/-- The last attempt: the loop is the run of the polled function. -/
theorem doLoop_zero (sleep : Nat → Eff σ ε Unit) (strategy : LinearBackoff)
    (fn : Eff σ ε (Option GoError)) (a : Nat) (s : σ) :
    (doLoop sleep strategy fn 0 a s).log = (fn s).log ∧
      (doLoop sleep strategy fn 0 a s).val = (a, (fn s).val) := by
  cases hv : (fn s).val <;> simp [doLoop, bind, Eff.andThen, pure, Eff.ret, hv]

/-- An attempt that succeeds ends the loop. -/
theorem doLoop_ok (sleep : Nat → Eff σ ε Unit) (strategy : LinearBackoff)
    (fn : Eff σ ε (Option GoError)) (more a : Nat) (s : σ) (hv : (fn s).val = none) :
    (doLoop sleep strategy fn more a s).log = (fn s).log ∧
      (doLoop sleep strategy fn more a s).val = (a, none) := by
  cases more <;> simp [doLoop, bind, Eff.andThen, pure, Eff.ret, hv]

/-- An attempt that fails while attempts are left is followed by the sleep
of the strategy and by the rest of the loop. -/
theorem doLoop_retry (sleep : Nat → Eff σ ε Unit) (strategy : LinearBackoff)
    (fn : Eff σ ε (Option GoError)) (n a : Nat) (s : σ) (e : GoError)
    (hv : (fn s).val = some e) :
    (doLoop sleep strategy fn (n + 1) a s).log =
        (fn s).log ++ ((sleep (strategy.delay a) (fn s).st).log ++
          (doLoop sleep strategy fn n (a + 1) (sleep (strategy.delay a) (fn s).st).st).log) ∧
      (doLoop sleep strategy fn (n + 1) a s).val =
        (doLoop sleep strategy fn n (a + 1) (sleep (strategy.delay a) (fn s).st).st).val := by
  simp [doLoop, bind, Eff.andThen, hv]

/-- Every call of the loop is a call of the polled function or of a sleep. -/
theorem doLoop_log (sleep : Nat → Eff σ ε Unit) (strategy : LinearBackoff)
    (fn : Eff σ ε (Option GoError)) (Q : ε → Prop)
    (hQ : ∀ w, ∀ ev ∈ (fn w).log, Q ev) (hS : ∀ d w, ∀ ev ∈ (sleep d w).log, Q ev) :
    ∀ (more a : Nat) (s : σ), ∀ ev ∈ (doLoop sleep strategy fn more a s).log, Q ev := by
  intro more
  induction more with
  | zero =>
    intro a s ev hev
    rw [(doLoop_zero sleep strategy fn a s).1] at hev
    exact hQ s ev hev
  | succ n ih =>
    intro a s ev hev
    cases hv : (fn s).val with
    | none =>
      rw [(doLoop_ok sleep strategy fn (n + 1) a s hv).1] at hev
      exact hQ s ev hev
    | some e =>
      rw [(doLoop_retry sleep strategy fn n a s e hv).1] at hev
      rcases List.mem_append.mp hev with h | h
      · exact hQ s ev h
      · rcases List.mem_append.mp h with h | h
        · exact hS _ _ ev h
        · exact ih _ _ ev h

/-- The loop begins with a run of the polled function. -/
theorem doLoop_log_prefix (sleep : Nat → Eff σ ε Unit) (strategy : LinearBackoff)
    (fn : Eff σ ε (Option GoError)) (more a : Nat) (s : σ) :
    (fn s).log <+: (doLoop sleep strategy fn more a s).log := by
  cases hv : (fn s).val with
  | none =>
    rw [(doLoop_ok sleep strategy fn more a s hv).1]
  | some e =>
    cases more with
    | zero => rw [(doLoop_zero sleep strategy fn a s).1]
    | succ n =>
      rw [(doLoop_retry sleep strategy fn n a s e hv).1]
      exact List.prefix_append _ _

end retry

namespace hdiutil
variable {σ : Type}

/-- The body of `MountDMG`, with the polled function literal named. -/
theorem MountDMG_eq (O : Os σ) (dmgVolName dmgPath : String) :
    MountDMG O dmgVolName dmgPath = (do
      match ← O.execCommand "hdiutil" ["attach", dmgPath] with
      | (_, some err) =>
        pure (some (errors.Wrap err ("error when attaching dmg with name " ++ dmgPath)))
      | (_, none) =>
        match ← retry.Do O.sleep (mountedPoll O ("/Volumes/" ++ dmgVolName))
            (retry.NewLinearBackoff 100 1000 10) with
        | (_, some err) =>
          pure (some (errors.Wrap err
            ("error when waiting for volume " ++ dmgPath ++ " to be mounted")))
        | (_, none) => pure none) := rfl

/-- The body of `UnmountDMG`, with the polled function literal named. -/
theorem UnmountDMG_eq (O : Os σ) (volName : String) :
    UnmountDMG O volName = (do
      match ← O.execCommand "hdiutil" ["detach", volName] with
      | (_, some err) =>
        pure (some (errors.Wrap err ("error when detaching dmg with name " ++ volName)))
      | (_, none) =>
        match ← retry.Do O.sleep (unmountedPoll O volName)
            (retry.NewLinearBackoff 100 1000 10) with
        | (_, some err) =>
          pure (some (errors.Wrap err
            ("error when waiting for volume " ++ volName ++ " to be unmounted")))
        | (_, none) => pure none) := rfl

theorem mountedPoll_val (O : Os σ) (name : String) (x : σ) :
    (mountedPoll O name x).val = (O.osStat name x).1.2 := by
  rcases hs : O.osStat name x with ⟨⟨info, e2⟩, s2⟩
  cases e2 <;> simp [mountedPoll, Os.stat, hs]

theorem mountedPoll_log (O : Os σ) (name : String) (x : σ) :
    (mountedPoll O name x).log = [⟨.osStat name, (O.osStat name x).1.2⟩] := by
  rcases hs : O.osStat name x with ⟨⟨info, e2⟩, s2⟩
  cases e2 <;> simp [mountedPoll, Os.stat, hs]

theorem unmountedPoll_log (O : Os σ) (name : String) (x : σ) :
    (unmountedPoll O name x).log = [⟨.osStat name, (O.osStat name x).1.2⟩] := by
  rcases hs : O.osStat name x with ⟨⟨info, e2⟩, s2⟩
  cases hn : os.IsNotExist e2 <;> simp [unmountedPoll, Os.stat, hs, hn]

theorem sleep_log (O : Os σ) (ms : Nat) (x : σ) :
    (O.sleep ms x).log = [⟨.timeSleep ms, none⟩] := rfl

/-- The poll of `MountDMG` when `osStat` fails in every world: the calls
are those of `pollCalls`, the last call is an `osStat` and its error is the
result. -/
theorem mountedPoll_all_fail (O : Os σ) (name : String) (strategy : retry.LinearBackoff)
    (hstat : ∀ w, (O.osStat name w).1.2 ≠ none) :
    ∀ (more a : Nat) (s : σ),
      (retry.doLoop O.sleep strategy (mountedPoll O name) more a s).log.map OsEvent.call =
          pollCalls name strategy more a ∧
        ∃ cause,
          (retry.doLoop O.sleep strategy (mountedPoll O name) more a s).log.getLast? =
            some ⟨.osStat name, some cause⟩ ∧
          (retry.doLoop O.sleep strategy (mountedPoll O name) more a s).val.2 = some cause := by
  intro more
  induction more with
  | zero =>
    intro a s
    obtain ⟨h1, h2⟩ := retry.doLoop_zero O.sleep strategy (mountedPoll O name) a s
    rw [h1, h2, mountedPoll_log, mountedPoll_val]
    cases hc : (O.osStat name s).1.2 with
    | none => exact absurd hc (hstat s)
    | some cause => exact ⟨rfl, cause, rfl, rfl⟩
  | succ n ih =>
    intro a s
    cases hc : (O.osStat name s).1.2 with
    | none => exact absurd hc (hstat s)
    | some e =>
      have hv : (mountedPoll O name s).val = some e := by rw [mountedPoll_val, hc]
      obtain ⟨h1, h2⟩ := retry.doLoop_retry O.sleep strategy (mountedPoll O name) n a s e hv
      obtain ⟨i1, cause, i2, i3⟩ := ih (a + 1)
        (O.sleep (strategy.delay a) (mountedPoll O name s).st).st
      rw [h1, h2, mountedPoll_log, sleep_log]
      refine ⟨?_, cause, ?_, i3⟩
      · simp only [List.map_append, List.map_cons, List.map_nil, i1]
        rfl
      · rw [List.getLast?_append, List.getLast?_append, i2]
        rfl

/-- C11: when the attach command succeeds and `osStat` of
`/Volumes/dmgVolName` fails in every world, `MountDMG` ends after the attach
command and ten polls of that path, with between two polls the sleeps of
the linear backoff of 100 ms initial delay and 1 s increment: 100, 1100,
and so on up to 8100 milliseconds. It returns the error
`error when waiting for volume <dmgPath> to be mounted: ` followed by the
message of the error of the last poll. -/
theorem MountDMG_gives_up (O : Os σ) (dmgVolName dmgPath : String) (s : σ)
    (hattach : (O.ExecCommand "hdiutil" ["attach", dmgPath] s).1.2 = none)
    (hstat : ∀ w, (O.osStat ("/Volumes/" ++ dmgVolName) w).1.2 ≠ none) :
    (MountDMG O dmgVolName dmgPath s).log.map OsEvent.call =
      [.ExecCommand "hdiutil" ["attach", dmgPath],
       .osStat ("/Volumes/" ++ dmgVolName), .timeSleep 100,
       .osStat ("/Volumes/" ++ dmgVolName), .timeSleep 1100,
       .osStat ("/Volumes/" ++ dmgVolName), .timeSleep 2100,
       .osStat ("/Volumes/" ++ dmgVolName), .timeSleep 3100,
       .osStat ("/Volumes/" ++ dmgVolName), .timeSleep 4100,
       .osStat ("/Volumes/" ++ dmgVolName), .timeSleep 5100,
       .osStat ("/Volumes/" ++ dmgVolName), .timeSleep 6100,
       .osStat ("/Volumes/" ++ dmgVolName), .timeSleep 7100,
       .osStat ("/Volumes/" ++ dmgVolName), .timeSleep 8100,
       .osStat ("/Volumes/" ++ dmgVolName)] ∧
    ∃ cause : GoError,
      (MountDMG O dmgVolName dmgPath s).log.getLast? =
        some ⟨.osStat ("/Volumes/" ++ dmgVolName), some cause⟩ ∧
      (MountDMG O dmgVolName dmgPath s).val =
        some ⟨"error when waiting for volume " ++ dmgPath ++ " to be mounted: " ++ cause.msg,
          false⟩ := by
  rcases he : O.ExecCommand "hdiutil" ["attach", dmgPath] s with ⟨⟨out, e⟩, s1⟩
  rw [he] at hattach
  simp only at hattach
  subst hattach
  obtain ⟨h1, cause, h2, h3⟩ := mountedPoll_all_fail O ("/Volumes/" ++ dmgVolName)
    (retry.NewLinearBackoff 100 1000 10) hstat 9 1 s1
  have hlog : (MountDMG O dmgVolName dmgPath s).log =
      ⟨.ExecCommand "hdiutil" ["attach", dmgPath], none⟩ ::
        (retry.doLoop O.sleep (retry.NewLinearBackoff 100 1000 10)
          (mountedPoll O ("/Volumes/" ++ dmgVolName)) 9 1 s1).log := by
    rw [MountDMG_eq]
    simp only [Eff.bind_log, Eff.bind_val, Eff.bind_st, Os.execCommand, he, retry.Do]
    rw [show ((retry.NewLinearBackoff 100 1000 10).maxAttempts - 1 : Nat) = 9 from rfl]
    generalize retry.doLoop _ _ _ 9 1 s1 = r
    rcases r with ⟨⟨n, v⟩, st, lg⟩
    cases v <;> simp
  have hval : (MountDMG O dmgVolName dmgPath s).val =
      some (errors.Wrap cause ("error when waiting for volume " ++ dmgPath ++
        " to be mounted")) := by
    rw [MountDMG_eq]
    simp only [Eff.bind_log, Eff.bind_val, Eff.bind_st, Os.execCommand, he, retry.Do]
    rw [show ((retry.NewLinearBackoff 100 1000 10).maxAttempts - 1 : Nat) = 9 from rfl]
    generalize retry.doLoop _ _ _ 9 1 s1 = r at h3
    rcases r with ⟨⟨n, v⟩, st, lg⟩
    simp only at h3
    subst h3
    simp
  refine ⟨?_, cause, ?_, ?_⟩
  · rw [hlog, List.map_cons, h1]
    rfl
  · rw [hlog]
    generalize (retry.doLoop O.sleep (retry.NewLinearBackoff 100 1000 10)
      (mountedPoll O ("/Volumes/" ++ dmgVolName)) 9 1 s1).log = l at h2
    cases l with
    | nil => simp at h2
    | cons x xs => rw [List.getLast?_cons_cons]; exact h2
  · rw [hval]
    simp [errors.Wrap, String.append_assoc]

/-- Witness of C11: the case of `TestMountDMG` in which the command succeeds
and `osStat` always fails with `some error`. -/
theorem MountDMG_gives_up_witness :
    (MountDMG (mockOs none (none, some ⟨"some error", false⟩)) "" "Test" ()).val =
      some ⟨"error when waiting for volume Test to be mounted: some error", false⟩ ∧
    ((MountDMG (mockOs none (none, some ⟨"some error", false⟩)) "" "Test" ()).log.filter
      (fun ev => decide (ev.call = .osStat "/Volumes/"))).length = 10 ∧
    ∃ cause : GoError,
      (MountDMG (mockOs none (none, some ⟨"some error", false⟩)) "" "Test" ()).log.getLast? =
        some ⟨.osStat ("/Volumes/" ++ ""), some cause⟩ ∧
      (MountDMG (mockOs none (none, some ⟨"some error", false⟩)) "" "Test" ()).val =
        some ⟨"error when waiting for volume " ++ "Test" ++ " to be mounted: " ++ cause.msg,
          false⟩ :=
  ⟨by decide, by decide,
    (MountDMG_gives_up (mockOs none (none, some ⟨"some error", false⟩)) "" "Test" ()
      rfl (fun _ => by simp [mockOs])).2⟩

end hdiutil

namespace hdiutil
variable {σ : Type}

/-- The calls of `CreateDMG`: the one command, whose error is wrapped. -/
theorem CreateDMG_run (O : Os σ) (size fs volName layout output : String) (s : σ) :
    (CreateDMG O size fs volName layout output s).log =
      [⟨.ExecCommand "hdiutil"
          ["create", "-size", size, "-fs", fs, "-volname", volName, "-layout", layout, "-o",
            output],
        (O.ExecCommand "hdiutil"
          ["create", "-size", size, "-fs", fs, "-volname", volName, "-layout", layout, "-o",
            output] s).1.2⟩] ∧
    (CreateDMG O size fs volName layout output s).val =
      (O.ExecCommand "hdiutil"
          ["create", "-size", size, "-fs", fs, "-volname", volName, "-layout", layout, "-o",
            output] s).1.2.map
        (fun err => errors.Wrap err ("error when creating dmg with name " ++ volName)) := by
  rcases he : O.ExecCommand "hdiutil"
    ["create", "-size", size, "-fs", fs, "-volname", volName, "-layout", layout, "-o",
      output] s with ⟨⟨out, e⟩, s1⟩
  cases e <;> simp [CreateDMG, Os.execCommand, he]

/-- The calls of `ConvertDMG`: the one command, whose error is wrapped. -/
theorem ConvertDMG_run (O : Os σ) (dmgPath dmgOutputFileName : String) (s : σ) :
    (ConvertDMG O dmgPath dmgOutputFileName s).log =
      [⟨.ExecCommand "hdiutil" ["convert", dmgPath, "-format", "UDZO", "-o", dmgOutputFileName],
        (O.ExecCommand "hdiutil"
          ["convert", dmgPath, "-format", "UDZO", "-o", dmgOutputFileName] s).1.2⟩] ∧
    (ConvertDMG O dmgPath dmgOutputFileName s).val =
      (O.ExecCommand "hdiutil"
          ["convert", dmgPath, "-format", "UDZO", "-o", dmgOutputFileName] s).1.2.map
        (fun err => errors.Wrap err ("error when converting dmg file " ++ dmgPath)) := by
  rcases he : O.ExecCommand "hdiutil"
    ["convert", dmgPath, "-format", "UDZO", "-o", dmgOutputFileName] s with ⟨⟨out, e⟩, s1⟩
  cases e <;> simp [ConvertDMG, Os.execCommand, he]

/-- The calls of `MountDMG`: the attach command; when it fails nothing
else, and when it succeeds an `osStat` of `/Volumes/dmgVolName` and then
nothing but such calls and sleeps. -/
theorem MountDMG_run (O : Os σ) (dmgVolName dmgPath : String) (s : σ) :
    (∀ err, (O.ExecCommand "hdiutil" ["attach", dmgPath] s).1.2 = some err →
      (MountDMG O dmgVolName dmgPath s).log =
          [⟨.ExecCommand "hdiutil" ["attach", dmgPath], some err⟩] ∧
        (MountDMG O dmgVolName dmgPath s).val =
          some (errors.Wrap err ("error when attaching dmg with name " ++ dmgPath))) ∧
    ((O.ExecCommand "hdiutil" ["attach", dmgPath] s).1.2 = none →
      ∃ first polls,
        (MountDMG O dmgVolName dmgPath s).log =
          ⟨.ExecCommand "hdiutil" ["attach", dmgPath], none⟩ ::
            ⟨.osStat ("/Volumes/" ++ dmgVolName), first⟩ :: polls ∧
        ∀ ev ∈ polls, ev.call = .osStat ("/Volumes/" ++ dmgVolName) ∨
          ∃ ms, ev.call = .timeSleep ms) := by
  rcases he : O.ExecCommand "hdiutil" ["attach", dmgPath] s with ⟨⟨out, e⟩, s1⟩
  constructor
  · intro err herr
    simp only at herr
    subst herr
    simp [MountDMG, Os.execCommand, he]
  · intro herr
    simp only at herr
    subst herr
    have hl : (MountDMG O dmgVolName dmgPath s).log =
        ⟨.ExecCommand "hdiutil" ["attach", dmgPath], none⟩ ::
          (retry.doLoop O.sleep (retry.NewLinearBackoff 100 1000 10)
            (mountedPoll O ("/Volumes/" ++ dmgVolName)) 9 1 s1).log := by
      rw [MountDMG_eq]
      simp only [Eff.bind_log, Eff.bind_val, Eff.bind_st, Os.execCommand, he, retry.Do]
      rw [show ((retry.NewLinearBackoff 100 1000 10).maxAttempts - 1 : Nat) = 9 from rfl]
      generalize retry.doLoop _ _ _ 9 1 s1 = r
      rcases r with ⟨⟨n, v⟩, st, lg⟩
      cases v <;> simp
    have hp := retry.doLoop_log_prefix O.sleep (retry.NewLinearBackoff 100 1000 10)
      (mountedPoll O ("/Volumes/" ++ dmgVolName)) 9 1 s1
    have hall := retry.doLoop_log O.sleep (retry.NewLinearBackoff 100 1000 10)
      (mountedPoll O ("/Volumes/" ++ dmgVolName))
      (fun ev => ev.call = .osStat ("/Volumes/" ++ dmgVolName) ∨ ∃ ms, ev.call = .timeSleep ms)
      (fun w ev hev => by
        rw [mountedPoll_log] at hev
        simp only [List.mem_singleton] at hev
        rw [hev]
        exact Or.inl rfl)
      (fun d w ev hev => by
        rw [sleep_log] at hev
        simp only [List.mem_singleton] at hev
        rw [hev]
        exact Or.inr ⟨d, rfl⟩) 9 1 s1
    rw [mountedPoll_log] at hp
    obtain ⟨polls, hpolls⟩ := hp
    rw [← hpolls] at hl hall
    exact ⟨_, polls, hl, fun ev hev => hall ev (List.mem_cons_of_mem _ hev)⟩

/-- The calls of `UnmountDMG`: the detach command; when it fails nothing
else, and when it succeeds an `osStat` of the volume and then nothing but
such calls and sleeps. -/
theorem UnmountDMG_run (O : Os σ) (volName : String) (s : σ) :
    (∀ err, (O.ExecCommand "hdiutil" ["detach", volName] s).1.2 = some err →
      (UnmountDMG O volName s).log =
          [⟨.ExecCommand "hdiutil" ["detach", volName], some err⟩] ∧
        (UnmountDMG O volName s).val =
          some (errors.Wrap err ("error when detaching dmg with name " ++ volName))) ∧
    ((O.ExecCommand "hdiutil" ["detach", volName] s).1.2 = none →
      ∃ first polls,
        (UnmountDMG O volName s).log =
          ⟨.ExecCommand "hdiutil" ["detach", volName], none⟩ ::
            ⟨.osStat volName, first⟩ :: polls ∧
        ∀ ev ∈ polls, ev.call = .osStat volName ∨ ∃ ms, ev.call = .timeSleep ms) := by
  rcases he : O.ExecCommand "hdiutil" ["detach", volName] s with ⟨⟨out, e⟩, s1⟩
  constructor
  · intro err herr
    simp only at herr
    subst herr
    simp [UnmountDMG, Os.execCommand, he]
  · intro herr
    simp only at herr
    subst herr
    have hl : (UnmountDMG O volName s).log =
        ⟨.ExecCommand "hdiutil" ["detach", volName], none⟩ ::
          (retry.doLoop O.sleep (retry.NewLinearBackoff 100 1000 10)
            (unmountedPoll O volName) 9 1 s1).log := by
      rw [UnmountDMG_eq]
      simp only [Eff.bind_log, Eff.bind_val, Eff.bind_st, Os.execCommand, he, retry.Do]
      rw [show ((retry.NewLinearBackoff 100 1000 10).maxAttempts - 1 : Nat) = 9 from rfl]
      generalize retry.doLoop _ _ _ 9 1 s1 = r
      rcases r with ⟨⟨n, v⟩, st, lg⟩
      cases v <;> simp
    have hp := retry.doLoop_log_prefix O.sleep (retry.NewLinearBackoff 100 1000 10)
      (unmountedPoll O volName) 9 1 s1
    have hall := retry.doLoop_log O.sleep (retry.NewLinearBackoff 100 1000 10)
      (unmountedPoll O volName)
      (fun ev => ev.call = .osStat volName ∨ ∃ ms, ev.call = .timeSleep ms)
      (fun w ev hev => by
        rw [unmountedPoll_log] at hev
        simp only [List.mem_singleton] at hev
        rw [hev]
        exact Or.inl rfl)
      (fun d w ev hev => by
        rw [sleep_log] at hev
        simp only [List.mem_singleton] at hev
        rw [hev]
        exact Or.inr ⟨d, rfl⟩) 9 1 s1
    rw [unmountedPoll_log] at hp
    obtain ⟨polls, hpolls⟩ := hp
    rw [← hpolls] at hl hall
    exact ⟨_, polls, hl, fun ev hev => hall ev (List.mem_cons_of_mem _ hev)⟩

theorem filter_isExec_polls (polls : List OsEvent) (name : String)
    (h : ∀ ev ∈ polls, ev.call = .osStat name ∨ ∃ ms, ev.call = .timeSleep ms) :
    (polls.map OsEvent.call).filter OsCall.isExec = [] := by
  rw [List.filter_eq_nil_iff]
  intro c hc
  obtain ⟨ev, hev, rfl⟩ := List.mem_map.mp hc
  rcases h ev hev with h1 | ⟨ms, h1⟩ <;> rw [h1] <;> simp [OsCall.isExec]

/-- C23: each of `CreateDMG`, `MountDMG`, `UnmountDMG` and `ConvertDMG` runs
the `hdiutil` command exactly once in a call: it is the only external
command of the log, for every behaviour of the operating system. When that
command fails the log holds nothing else, so no `osStat` for `MountDMG` and
`UnmountDMG`, and the result is the error of the command behind
`error when creating dmg with name`, `error when attaching dmg with name`,
`error when detaching dmg with name`, `error when converting dmg file`
and the operand. -/
theorem hdiutil_command_run_once (O : Os σ)
    (size fs volName layout output dmgVolName dmgPath mounted src dst : String) (s : σ) :
    ((CreateDMG O size fs volName layout output s).log.map OsEvent.call =
        [.ExecCommand "hdiutil"
          ["create", "-size", size, "-fs", fs, "-volname", volName, "-layout", layout, "-o",
            output]] ∧
      ∀ err, (O.ExecCommand "hdiutil"
          ["create", "-size", size, "-fs", fs, "-volname", volName, "-layout", layout, "-o",
            output] s).1.2 = some err →
        (CreateDMG O size fs volName layout output s).val =
          some ⟨"error when creating dmg with name " ++ volName ++ ": " ++ err.msg, false⟩) ∧
    (((MountDMG O dmgVolName dmgPath s).log.map OsEvent.call).filter OsCall.isExec =
        [.ExecCommand "hdiutil" ["attach", dmgPath]] ∧
      ∀ err, (O.ExecCommand "hdiutil" ["attach", dmgPath] s).1.2 = some err →
        (MountDMG O dmgVolName dmgPath s).log =
            [⟨.ExecCommand "hdiutil" ["attach", dmgPath], some err⟩] ∧
          (MountDMG O dmgVolName dmgPath s).val =
            some ⟨"error when attaching dmg with name " ++ dmgPath ++ ": " ++ err.msg,
              false⟩) ∧
    (((UnmountDMG O mounted s).log.map OsEvent.call).filter OsCall.isExec =
        [.ExecCommand "hdiutil" ["detach", mounted]] ∧
      ∀ err, (O.ExecCommand "hdiutil" ["detach", mounted] s).1.2 = some err →
        (UnmountDMG O mounted s).log =
            [⟨.ExecCommand "hdiutil" ["detach", mounted], some err⟩] ∧
          (UnmountDMG O mounted s).val =
            some ⟨"error when detaching dmg with name " ++ mounted ++ ": " ++ err.msg,
              false⟩) ∧
    ((ConvertDMG O src dst s).log.map OsEvent.call =
        [.ExecCommand "hdiutil" ["convert", src, "-format", "UDZO", "-o", dst]] ∧
      ∀ err, (O.ExecCommand "hdiutil"
          ["convert", src, "-format", "UDZO", "-o", dst] s).1.2 = some err →
        (ConvertDMG O src dst s).val =
          some ⟨"error when converting dmg file " ++ src ++ ": " ++ err.msg, false⟩) := by
  refine ⟨⟨?_, ?_⟩, ⟨?_, ?_⟩, ⟨?_, ?_⟩, ⟨?_, ?_⟩⟩
  · rw [(CreateDMG_run O size fs volName layout output s).1]
    rfl
  · intro err h
    rw [(CreateDMG_run O size fs volName layout output s).2, h]
    rfl
  · cases h : (O.ExecCommand "hdiutil" ["attach", dmgPath] s).1.2 with
    | some err =>
      rw [((MountDMG_run O dmgVolName dmgPath s).1 err h).1]
      rfl
    | none =>
      obtain ⟨first, polls, hl, hp⟩ := (MountDMG_run O dmgVolName dmgPath s).2 h
      rw [hl, List.map_cons, List.map_cons, List.filter_cons_of_pos (by rfl),
        List.filter_cons_of_neg (by simp [OsCall.isExec]), filter_isExec_polls polls _ hp]
  · intro err h
    exact (MountDMG_run O dmgVolName dmgPath s).1 err h
  · cases h : (O.ExecCommand "hdiutil" ["detach", mounted] s).1.2 with
    | some err =>
      rw [((UnmountDMG_run O mounted s).1 err h).1]
      rfl
    | none =>
      obtain ⟨first, polls, hl, hp⟩ := (UnmountDMG_run O mounted s).2 h
      rw [hl, List.map_cons, List.map_cons, List.filter_cons_of_pos (by rfl),
        List.filter_cons_of_neg (by simp [OsCall.isExec]), filter_isExec_polls polls _ hp]
  · intro err h
    exact (UnmountDMG_run O mounted s).1 err h
  · rw [(ConvertDMG_run O src dst s).1]
    rfl
  · intro err h
    rw [(ConvertDMG_run O src dst s).2, h]
    rfl

/-- The cases of hdiutil_test.go in which the command fails. -/
theorem hdiutil_failing_command_table :
    (CreateDMG (mockOs (some ⟨"some error", false⟩) (none, none)) "100m" "APFS" "Test"
        "GPTSPUD" "test.dmg" ()).val =
      some ⟨"error when creating dmg with name Test: some error", false⟩ ∧
    (MountDMG (mockOs (some ⟨"some error", false⟩) (none, none)) "" "Test" ()).val =
      some ⟨"error when attaching dmg with name Test: some error", false⟩ ∧
    (MountDMG (mockOs (some ⟨"some error", false⟩) (none, none)) "" "Test" ()).log =
      [⟨.ExecCommand "hdiutil" ["attach", "Test"], some ⟨"some error", false⟩⟩] ∧
    (UnmountDMG (mockOs (some ⟨"some error", false⟩) (none, none)) "Test" ()).val =
      some ⟨"error when detaching dmg with name Test: some error", false⟩ ∧
    (UnmountDMG (mockOs (some ⟨"some error", false⟩) (none, none)) "Test" ()).log =
      [⟨.ExecCommand "hdiutil" ["detach", "Test"], some ⟨"some error", false⟩⟩] ∧
    (ConvertDMG (mockOs (some ⟨"some error", false⟩) (none, none)) "test.dmg" "out.dmg"
        ()).val =
      some ⟨"error when converting dmg file test.dmg: some error", false⟩ := by
  decide

end hdiutil

namespace dmg
variable {σ τ : Type}

/-- C27: the mount point is named after the volume label and used
throughout. `mountDMGTemplate` makes the one call MoundDMG with the label V
and the path of the container; it returns `/Volumes/V` when that call
succeeds and an empty path with the error of the call when it fails.
`createAppDmg` makes the calls of the list below, in which, with V the name
of the bundle, the symlink `/Applications` and then the bundle are placed
into `/Volumes/V` and `/Volumes/V` is the argument of UnmountDMG: its calls
are the first calls of that list, and they are the whole list unless the
last call made failed. In package hdiutil, `MountDMG` with the label V
begins with the attach command, then polls `/Volumes/V` and makes no other
call than polls of `/Volumes/V` and sleeps; `UnmountDMG` of `/Volumes/V`
begins with the detach command on `/Volumes/V`, then polls that path and
makes no other call than polls of it and sleeps. -/
theorem mount_point_used_throughout (P : Providers σ) (V p a t o : String) (s : σ)
    (O : hdiutil.Os τ) (w : τ) :
    ((P.MoundDMG V p s).1 = none →
      (mountDMGTemplate P V p s).val = ("/Volumes/" ++ V, none)) ∧
    (∀ e, (P.MoundDMG V p s).1 = some e → (mountDMGTemplate P V p s).val = ("", some e)) ∧
    (mountDMGTemplate P V p s).log.map Event.call = [.MoundDMG V p] ∧
    (createAppDmg P a t o s).log.map Event.call <+:
      [.FileExists
         (filepath.Join [o, strings.TrimSuffix (filepath.Base a) ".app" ++ ".dmg"]),
       .CreateDMG "100m" "APFS" (strings.TrimSuffix (filepath.Base a) ".app") "GPTSPUD"
         (filepath.Join [t, strings.TrimSuffix (filepath.Base a) ".app" ++ "-template.dmg"]),
       .MoundDMG (strings.TrimSuffix (filepath.Base a) ".app")
         (filepath.Join [t, strings.TrimSuffix (filepath.Base a) ".app" ++ "-template.dmg"]),
       .CreateSymlink "/Applications"
         ("/Volumes/" ++ strings.TrimSuffix (filepath.Base a) ".app"),
       .CopyDir a ("/Volumes/" ++ strings.TrimSuffix (filepath.Base a) ".app"),
       .UnmountDMG ("/Volumes/" ++ strings.TrimSuffix (filepath.Base a) ".app"),
       .ConvertDMG
         (filepath.Join [t, strings.TrimSuffix (filepath.Base a) ".app" ++ "-template.dmg"])
         (filepath.Join [o, filepath.Base (strings.TrimSuffix a ".app") ++ ".dmg"])] ∧
    ((createAppDmg P a t o s).log.map Event.call =
      [.FileExists
         (filepath.Join [o, strings.TrimSuffix (filepath.Base a) ".app" ++ ".dmg"]),
       .CreateDMG "100m" "APFS" (strings.TrimSuffix (filepath.Base a) ".app") "GPTSPUD"
         (filepath.Join [t, strings.TrimSuffix (filepath.Base a) ".app" ++ "-template.dmg"]),
       .MoundDMG (strings.TrimSuffix (filepath.Base a) ".app")
         (filepath.Join [t, strings.TrimSuffix (filepath.Base a) ".app" ++ "-template.dmg"]),
       .CreateSymlink "/Applications"
         ("/Volumes/" ++ strings.TrimSuffix (filepath.Base a) ".app"),
       .CopyDir a ("/Volumes/" ++ strings.TrimSuffix (filepath.Base a) ".app"),
       .UnmountDMG ("/Volumes/" ++ strings.TrimSuffix (filepath.Base a) ".app"),
       .ConvertDMG
         (filepath.Join [t, strings.TrimSuffix (filepath.Base a) ".app" ++ "-template.dmg"])
         (filepath.Join [o, filepath.Base (strings.TrimSuffix a ".app") ++ ".dmg"])] ∨
      ∃ e, (createAppDmg P a t o s).log.getLast? = some e ∧ e.failed = true) ∧
    ((hdiutil.MountDMG O V p w).log.head?.map hdiutil.OsEvent.call =
        some (.ExecCommand "hdiutil" ["attach", p]) ∧
      (∀ ev ∈ (hdiutil.MountDMG O V p w).log,
        ev.call = .ExecCommand "hdiutil" ["attach", p] ∨
          ev.call = .osStat ("/Volumes/" ++ V) ∨ ∃ ms, ev.call = .timeSleep ms) ∧
      ((O.ExecCommand "hdiutil" ["attach", p] w).1.2 = none →
        ((hdiutil.MountDMG O V p w).log.map hdiutil.OsEvent.call).take 2 =
          [.ExecCommand "hdiutil" ["attach", p], .osStat ("/Volumes/" ++ V)])) ∧
    ((hdiutil.UnmountDMG O ("/Volumes/" ++ V) w).log.head?.map hdiutil.OsEvent.call =
        some (.ExecCommand "hdiutil" ["detach", "/Volumes/" ++ V]) ∧
      (∀ ev ∈ (hdiutil.UnmountDMG O ("/Volumes/" ++ V) w).log,
        ev.call = .ExecCommand "hdiutil" ["detach", "/Volumes/" ++ V] ∨
          ev.call = .osStat ("/Volumes/" ++ V) ∨ ∃ ms, ev.call = .timeSleep ms) ∧
      ((O.ExecCommand "hdiutil" ["detach", "/Volumes/" ++ V] w).1.2 = none →
        ((hdiutil.UnmountDMG O ("/Volumes/" ++ V) w).log.map hdiutil.OsEvent.call).take 2 =
          [.ExecCommand "hdiutil" ["detach", "/Volumes/" ++ V],
            .osStat ("/Volumes/" ++ V)])) := by
  have hs := createAppDmg_stops P a t o s
  refine ⟨?_, ?_, ?_, hs.1, ?_, ⟨?_, ?_, ?_⟩, ⟨?_, ?_, ?_⟩⟩
  · intro h
    simp [mountDMGTemplate, Providers.moundDMG, perform, bind, Eff.andThen, pure, Eff.ret, h]
  · intro e h
    simp [mountDMGTemplate, Providers.moundDMG, perform, bind, Eff.andThen, pure, Eff.ret, h]
  · simp only [mountDMGTemplate, Providers.moundDMG, Eff.bind_log, perform_log, perform_val,
      perform_st]
    generalize (P.MoundDMG V p s).1 = v
    cases v <;> simp
  · have h3 := hs.2.2.1
    cases hf : failedV (createAppDmg P a t o s).val with
    | true =>
      rw [hf] at h3
      exact Or.inr h3
    | false =>
      rw [hf] at h3
      exact Or.inl h3.1
  · cases h : (O.ExecCommand "hdiutil" ["attach", p] w).1.2 with
    | some err => rw [((hdiutil.MountDMG_run O V p w).1 err h).1]; rfl
    | none =>
      obtain ⟨first, polls, hl, _⟩ := (hdiutil.MountDMG_run O V p w).2 h
      rw [hl]; rfl
  · intro ev hev
    cases h : (O.ExecCommand "hdiutil" ["attach", p] w).1.2 with
    | some err =>
      rw [((hdiutil.MountDMG_run O V p w).1 err h).1, List.mem_singleton] at hev
      left
      rw [hev]
    | none =>
      obtain ⟨first, polls, hl, hp⟩ := (hdiutil.MountDMG_run O V p w).2 h
      rw [hl, List.mem_cons, List.mem_cons] at hev
      rcases hev with hev | hev | hev
      · left
        rw [hev]
      · right; left
        rw [hev]
      · exact Or.inr (hp ev hev)
  · intro h
    obtain ⟨first, polls, hl, _⟩ := (hdiutil.MountDMG_run O V p w).2 h
    rw [hl]; rfl
  · cases h : (O.ExecCommand "hdiutil" ["detach", "/Volumes/" ++ V] w).1.2 with
    | some err => rw [((hdiutil.UnmountDMG_run O ("/Volumes/" ++ V) w).1 err h).1]; rfl
    | none =>
      obtain ⟨first, polls, hl, _⟩ := (hdiutil.UnmountDMG_run O ("/Volumes/" ++ V) w).2 h
      rw [hl]; rfl
  · intro ev hev
    cases h : (O.ExecCommand "hdiutil" ["detach", "/Volumes/" ++ V] w).1.2 with
    | some err =>
      rw [((hdiutil.UnmountDMG_run O ("/Volumes/" ++ V) w).1 err h).1,
        List.mem_singleton] at hev
      left
      rw [hev]
    | none =>
      obtain ⟨first, polls, hl, hp⟩ := (hdiutil.UnmountDMG_run O ("/Volumes/" ++ V) w).2 h
      rw [hl, List.mem_cons, List.mem_cons] at hev
      rcases hev with hev | hev | hev
      · left
        rw [hev]
      · right; left
        rw [hev]
      · exact Or.inr (hp ev hev)
  · intro h
    obtain ⟨first, polls, hl, _⟩ := (hdiutil.UnmountDMG_run O ("/Volumes/" ++ V) w).2 h
    rw [hl]; rfl

/-- Witness of C27: on the happy path of `Test_createAppDmg` no call fails,
so every call of the list is made, with the mount point
`/Volumes/testAppBundleDirPath` in the calls between MoundDMG and
ConvertDMG; and the happy path of `Test_mountDMGTemplate`. -/
theorem mount_point_used_throughout_witness :
    (createAppDmg happy.providers "testAppBundleDirPath" "tmpWorkDir" "outputDir"
        ()).log.map Event.call =
      [.FileExists "outputDir/testAppBundleDirPath.dmg",
       .CreateDMG "100m" "APFS" "testAppBundleDirPath" "GPTSPUD"
         "tmpWorkDir/testAppBundleDirPath-template.dmg",
       .MoundDMG "testAppBundleDirPath" "tmpWorkDir/testAppBundleDirPath-template.dmg",
       .CreateSymlink "/Applications" "/Volumes/testAppBundleDirPath",
       .CopyDir "testAppBundleDirPath" "/Volumes/testAppBundleDirPath",
       .UnmountDMG "/Volumes/testAppBundleDirPath",
       .ConvertDMG "tmpWorkDir/testAppBundleDirPath-template.dmg"
         "outputDir/testAppBundleDirPath.dmg"] ∧
    (mountDMGTemplate happy.providers "dmgTemplateVolName" "dmgTemplatePath" ()).val =
      ("/Volumes/" ++ "dmgTemplateVolName", none) :=
  ⟨Eq.trans
    ((mount_point_used_throughout happy.providers "dmgTemplateVolName" "dmgTemplatePath"
        "testAppBundleDirPath" "tmpWorkDir" "outputDir" ()
        (hdiutil.mockOs none (none, none)) ()).2.2.2.2.1.resolve_right (by decide))
    (by decide),
   (mount_point_used_throughout happy.providers "dmgTemplateVolName" "dmgTemplatePath"
        "testAppBundleDirPath" "tmpWorkDir" "outputDir" ()
        (hdiutil.mockOs none (none, none)) ()).1 rfl⟩

/-- The happy path of `Test_mountDMGTemplate`, and the mount point in the
happy path of `TestCreate`. -/
theorem mount_point_table :
    (mountDMGTemplate happy.providers "dmgTemplateVolName" "dmgTemplatePath" ()).val =
      ("/Volumes/dmgTemplateVolName", none) ∧
    ((Create happy.providers testParams ()).log.map Event.call).filter
        (fun c => decide (c.op = .MoundDMG ∨ c.op = .CreateSymlink ∨ c.op = .CopyDir ∨
          c.op = .UnmountDMG)) =
      [.MoundDMG "testAppName" "outputDir/tmp/testAppName-template.dmg",
       .CreateSymlink "/Applications" "/Volumes/testAppName",
       .CopyDir "outputDir/tmp/testAppName.app" "/Volumes/testAppName",
       .UnmountDMG "/Volumes/testAppName"] := by
  decide

end dmg

namespace strings

/-- Over a stretch of the text followed by a character that is not in
`old`, the replacements stay within the stretch: its replacement holds
characters of the stretch and of `new` only, and each replacement made
passes over a character of the stretch at least. -/
theorem replaceChars_scan_chars (o : Char) (os new rest : List Char) (m : Char)
    (hm : m ∉ o :: os) :
    ∀ (n : Nat) (base : List Char) (limit : Nat), base.length ≤ n →
      ∃ x l, replaceChars (o :: os) new (base ++ m :: rest) 0 limit =
          x ++ replaceChars (o :: os) new (m :: rest) 0 l ∧
        (∀ c ∈ x, c ∈ base ∨ c ∈ new) ∧ limit ≤ l + base.length := by
  intro n
  induction n with
  | zero =>
    intro base limit hlen
    have : base = [] := List.length_eq_zero.mp (Nat.le_zero.mp hlen)
    subst this
    exact ⟨[], limit, rfl, by simp, by simp⟩
  | succ k ih =>
    intro base limit hlen
    cases base with
    | nil => exact ⟨[], limit, rfl, by simp, by simp⟩
    | cons c cs =>
      have hcs : cs.length ≤ k := by
        simp only [List.length_cons] at hlen
        omega
      cases limit with
      | zero =>
        refine ⟨c :: cs, 0, ?_, fun c hc => Or.inl hc, by simp⟩
        rw [replaceChars_zero, replaceChars_zero]
      | succ l =>
        cases hp : (o :: os).isPrefixOf (c :: cs ++ m :: rest) with
        | false =>
          obtain ⟨x, l2, hx, hmem, hl⟩ := ih cs (l + 1) hcs
          refine ⟨c :: x, l2, ?_, ?_, ?_⟩
          · rw [List.cons_append, replaceChars]
            rw [List.cons_append] at hp
            rw [hp]
            simp only [Bool.false_eq_true, if_false]
            rw [hx]
            rfl
          · intro a ha
            rcases List.mem_cons.mp ha with ha | ha
            · left; rw [ha]; exact List.mem_cons_self _ _
            · rcases hmem a ha with h | h
              · exact Or.inl (List.mem_cons_of_mem _ h)
              · exact Or.inr h
          · simp only [List.length_cons]
            omega
        | true =>
          rcases isPrefixOf_append_char (o :: os) (c :: cs) rest m hp with h1 | h1
          · rw [List.isPrefixOf_iff_prefix] at h1
            obtain ⟨t, ht⟩ := h1
            have hc : c = o ∧ cs = os ++ t := by
              simp only [List.cons_append, List.cons.injEq] at ht
              exact ⟨ht.1.symm, ht.2.symm⟩
            obtain ⟨hco, hcst⟩ := hc
            have htl : t.length ≤ k := by
              rw [hcst, List.length_append] at hcs
              omega
            obtain ⟨x, l2, hx, hmem, hl⟩ := ih t l htl
            refine ⟨new ++ x, l2, ?_, ?_, ?_⟩
            · rw [List.cons_append, replaceChars]
              rw [List.cons_append] at hp
              rw [hp]
              simp only [if_true]
              have hlen2 : (o :: os).length - 1 = os.length := by simp
              rw [hlen2, hcst, List.append_assoc, replaceChars_skip, hx, List.append_assoc]
            · intro a ha
              rcases List.mem_append.mp ha with ha | ha
              · exact Or.inr ha
              · rcases hmem a ha with h | h
                · left
                  rw [hcst]
                  exact List.mem_cons_of_mem _ (List.mem_append_right _ h)
                · exact Or.inr h
            · rw [hcst]
              simp only [List.length_cons, List.length_append]
              omega
          · exact absurd h1 hm

end strings

namespace dmg
variable {σ τ : Type}

set_option maxRecDepth 100000

/-- The second replacement of `createInfoPlistFile` when neither the name
of the executable nor the bundle identifier holds `<`: the text is the
three constant pieces of the template around a text without `<` and the
bundle identifier. -/
theorem Replace_bundleIdentifier_text (base i : String) (hbase : '<' ∉ base.data)
    (hi : '<' ∉ i.data) :
    ∃ x : String, '<' ∉ x.data ∧
      strings.Replace
          (plistPrefix ++ base ++ plistMiddle ++ "\x7b\x7b.BundleIdentifier\x7d\x7d" ++
            plistSuffix)
          "\x7b\x7b.BundleIdentifier\x7d\x7d" i (-1) =
        plistPrefix ++ x ++ plistMiddle ++ i ++ plistSuffix := by
  by_cases hb : "\x7b\x7b.BundleIdentifier\x7d\x7d" = i
  · refine ⟨base, hbase, ?_⟩
    rw [← hb, strings.Replace_same]
  · obtain ⟨M, hM⟩ : ∃ M, plistMiddle.data = '<' :: M := ⟨_, rfl⟩
    have hold : ("\x7b\x7b.BundleIdentifier\x7d\x7d" : String).data =
        '\x7b' :: "\x7b.BundleIdentifier\x7d\x7d".data := rfl
    have hP : '\x7b' ∉ plistPrefix.data := by decide
    have hMid : '\x7b' ∉ plistMiddle.data := by decide
    have hS : '\x7b' ∉ plistSuffix.data := by decide
    have hlt : '<' ∉ ('\x7b' :: "\x7b.BundleIdentifier\x7d\x7d".data) := by decide
    have hs : (plistPrefix ++ base ++ plistMiddle ++ "\x7b\x7b.BundleIdentifier\x7d\x7d" ++
          plistSuffix).data =
        plistPrefix.data ++ (base.data ++ '<' :: (M ++
          (('\x7b' :: "\x7b.BundleIdentifier\x7d\x7d".data) ++ (plistSuffix.data ++ [])))) := by
      simp only [String.data_append, List.append_assoc, hM, hold, List.cons_append,
        List.append_nil]
    have hL : base.data.length ≤
        (plistPrefix ++ base ++ plistMiddle ++ "\x7b\x7b.BundleIdentifier\x7d\x7d" ++
          plistSuffix).data.length := by
      rw [hs]
      simp only [List.length_append]
      omega
    rw [hM] at hMid
    have hdata : ∃ x : List Char, '<' ∉ x ∧
        (strings.Replace
          (plistPrefix ++ base ++ plistMiddle ++ "\x7b\x7b.BundleIdentifier\x7d\x7d" ++
            plistSuffix)
          "\x7b\x7b.BundleIdentifier\x7d\x7d" i (-1)).data =
        plistPrefix.data ++ (x ++ (('<' :: M) ++ (i.data ++ plistSuffix.data))) := by
      rw [strings.Replace_all _ _ _ hb (by decide), hold]
      generalize (plistPrefix ++ base ++ plistMiddle ++ "\x7b\x7b.BundleIdentifier\x7d\x7d" ++
            plistSuffix).data.length = L at hs hL ⊢
      rw [hs, strings.replaceChars_keep_head _ _ _ _ _ _ hP]
      obtain ⟨x, l, hx, hmem, hl⟩ := strings.replaceChars_scan_chars '\x7b'
        "\x7b.BundleIdentifier\x7d\x7d".data
        i.data (M ++ (('\x7b' :: "\x7b.BundleIdentifier\x7d\x7d".data) ++
          (plistSuffix.data ++ []))) '<' hlt base.data.length base.data (L + 1) (Nat.le_refl _)
      rw [hx]
      rw [show ('<' :: (M ++ (('\x7b' :: "\x7b.BundleIdentifier\x7d\x7d".data) ++
            (plistSuffix.data ++ [])))) =
          ('<' :: M) ++ (('\x7b' :: "\x7b.BundleIdentifier\x7d\x7d".data) ++
            (plistSuffix.data ++ [])) from rfl,
        strings.replaceChars_keep_head _ _ _ _ _ _ hMid]
      have hx0 : '<' ∉ x := by
        intro hc
        rcases hmem _ hc with h | h
        · exact hbase h
        · exact hi h
      cases l with
      | zero => omega
      | succ l2 =>
        refine ⟨x, hx0, ?_⟩
        rw [strings.replaceChars_match, strings.replaceChars_keep_head _ _ _ _ _ _ hS]
        have hnil : strings.replaceChars ('\x7b' :: "\x7b.BundleIdentifier\x7d\x7d".data)
            i.data [] 0 l2 = [] := by
          cases l2 <;> rfl
        rw [hnil]
        simp
    obtain ⟨x, hx0, hxy⟩ := hdata
    refine ⟨⟨x⟩, hx0, String.ext ?_⟩
    rw [hxy]
    simp only [String.data_append, List.append_assoc, hM]

end dmg

namespace xml

/-- Character data without `<` is read up to the next `<`. -/
theorem scan_chars_run (rest : List Char) :
    ∀ (t acc : List Char), '<' ∉ t →
      scan .chars acc (t ++ '<' :: rest) = charData (acc.reverse ++ t) ++ scan .tag [] rest
  | [], acc, _ => by simp [scan]
  | c :: cs, acc, h => by
    have hc : c ≠ '<' := fun e => h (e ▸ List.mem_cons_self _ _)
    have hcs : '<' ∉ cs := fun e => h (List.mem_cons_of_mem _ e)
    rw [List.cons_append, scan, if_neg hc, scan_chars_run rest cs (c :: acc) hcs]
    simp

/-- Character data without `<` before a text that begins with `<`. -/
theorem scan_chars_before (t r : List Char) (h : '<' ∉ t) :
    scan .chars [] (t ++ '<' :: r) = charData t ++ scan .chars [] ('<' :: r) := by
  rw [scan_chars_run r t [] h]
  simp [scan, charData]

set_option maxRecDepth 100000

/-- The items of the text of the template before the name of the
executable, whatever follows. -/
theorem scan_plistPrefix (rest : List Char) :
    scan .chars [] (dmg.plistPrefix.data ++ rest) =
      [.tag "?xml version=\"1.0\" encoding=\"UTF-8\"?", .chars "\n",
       .tag ("!DOCTYPE plist PUBLIC \"-//Apple//DTD PLIST 1.0//EN\" " ++
         "\"http://www.apple.com/DTDs/PropertyList-1.0.dtd\""),
       .chars "\n", .tag "plist version=\"1.0\"", .chars "\n", .tag "dict", .chars "\n\t",
       .tag "key", .chars "CFBundleExecutable", .tag "/key", .chars "\n\t", .tag "string"] ++
      scan .chars [] rest := by
  rfl

/-- The items of the text of the template between its two tokens, whatever
follows. -/
theorem scan_plistMiddle (rest : List Char) :
    scan .chars [] (dmg.plistMiddle.data ++ rest) =
      [.tag "/string", .chars "\n\t",
       .tag "key", .chars "CFBundleIconFile", .tag "/key", .chars "\n\t",
       .tag "string", .chars "icon.icns", .tag "/string", .chars "\n\t",
       .tag "key", .chars "CFBundleIdentifier", .tag "/key", .chars "\n\t", .tag "string"] ++
      scan .chars [] rest := by
  rfl

/-- The items of the text of the template after the bundle identifier. -/
theorem scan_plistSuffix :
    scan .chars [] dmg.plistSuffix.data =
      [.tag "/string", .chars "\n\t",
       .tag "key", .chars "NSHighResolutionCapable", .tag "/key", .chars "\n\t",
       .tag "true/", .chars "\n\t",
       .tag "key", .chars "LSUIElement", .tag "/key", .chars "\n\t",
       .tag "true/", .chars "\n", .tag "/dict", .chars "\n", .tag "/plist", .chars "\n"] := by
  decide

/-- The items of a property list made of the pieces of the template around
two texts without `<`. -/
theorem items_plist (x y : String) (hx : '<' ∉ x.data) (hy : '<' ∉ y.data) :
    items (dmg.plistPrefix ++ x ++ dmg.plistMiddle ++ y ++ dmg.plistSuffix) =
      [.tag "?xml version=\"1.0\" encoding=\"UTF-8\"?", .chars "\n",
       .tag ("!DOCTYPE plist PUBLIC \"-//Apple//DTD PLIST 1.0//EN\" " ++
         "\"http://www.apple.com/DTDs/PropertyList-1.0.dtd\""),
       .chars "\n", .tag "plist version=\"1.0\"", .chars "\n", .tag "dict", .chars "\n\t",
       .tag "key", .chars "CFBundleExecutable", .tag "/key", .chars "\n\t", .tag "string"] ++
      charData x.data ++
      [.tag "/string", .chars "\n\t",
       .tag "key", .chars "CFBundleIconFile", .tag "/key", .chars "\n\t",
       .tag "string", .chars "icon.icns", .tag "/string", .chars "\n\t",
       .tag "key", .chars "CFBundleIdentifier", .tag "/key", .chars "\n\t", .tag "string"] ++
      charData y.data ++
      [.tag "/string", .chars "\n\t",
       .tag "key", .chars "NSHighResolutionCapable", .tag "/key", .chars "\n\t",
       .tag "true/", .chars "\n\t",
       .tag "key", .chars "LSUIElement", .tag "/key", .chars "\n\t",
       .tag "true/", .chars "\n", .tag "/dict", .chars "\n", .tag "/plist", .chars "\n"] := by
  obtain ⟨M, hM⟩ : ∃ M, dmg.plistMiddle.data = '<' :: M := ⟨_, rfl⟩
  obtain ⟨S, hS⟩ : ∃ S, dmg.plistSuffix.data = '<' :: S := ⟨_, rfl⟩
  have h1 : (dmg.plistPrefix ++ x ++ dmg.plistMiddle ++ y ++ dmg.plistSuffix).data =
      dmg.plistPrefix.data ++ (x.data ++ '<' :: (M ++ (y.data ++ '<' :: S))) := by
    simp only [String.data_append, List.append_assoc, hM, hS, List.cons_append]
  have h2 : scan .chars [] ('<' :: (M ++ (y.data ++ '<' :: S))) =
      scan .chars [] (dmg.plistMiddle.data ++ (y.data ++ '<' :: S)) := by
    rw [hM]
    rfl
  unfold items
  rw [h1, scan_plistPrefix, scan_chars_before _ _ hx, h2, scan_plistMiddle,
    scan_chars_before _ _ hy, ← hS, scan_plistSuffix]
  simp only [List.append_assoc]

end xml

namespace dmg
variable {σ τ : Type}

set_option maxRecDepth 100000

/-- C26 (counterexample): for the binary path `dir/<!--` and the bundle
identifier `-->` the text written still holds the characters of the entry
`CFBundleIconFile`, but between `<!--` and `-->`: the items of the document
are those below, in which that entry is part of a comment, so the document
has no key `CFBundleIconFile` and no value `icon.icns`. -/
theorem createInfoPlistFile_comments_out_icon_entry :
    (createInfoPlistFile happy.providers "dir/<!--" "testAppName.app" "outputDir/tmp" "-->"
        ()).log.map Event.call =
      [.WriteFile "outputDir/tmp/testAppName.app/Contents/Info.plist"
        (plistPrefix ++ "<!--" ++ plistMiddle ++ "-->" ++ plistSuffix) 511] ∧
    strings.Contains (plistPrefix ++ "<!--" ++ plistMiddle ++ "-->" ++ plistSuffix)
      "\t<key>CFBundleIconFile</key>\n\t<string>icon.icns</string>\n" = true ∧
    xml.items (plistPrefix ++ "<!--" ++ plistMiddle ++ "-->" ++ plistSuffix) =
      [.tag "?xml version=\"1.0\" encoding=\"UTF-8\"?", .chars "\n",
       .tag ("!DOCTYPE plist PUBLIC \"-//Apple//DTD PLIST 1.0//EN\" " ++
         "\"http://www.apple.com/DTDs/PropertyList-1.0.dtd\""),
       .chars "\n", .tag "plist version=\"1.0\"", .chars "\n", .tag "dict", .chars "\n\t",
       .tag "key", .chars "CFBundleExecutable", .tag "/key", .chars "\n\t", .tag "string",
       .comment ("</string>\n\t<key>CFBundleIconFile</key>\n\t<string>icon.icns</string>\n" ++
         "\t<key>CFBundleIdentifier</key>\n\t<string>"),
       .tag "/string", .chars "\n\t",
       .tag "key", .chars "NSHighResolutionCapable", .tag "/key", .chars "\n\t",
       .tag "true/", .chars "\n\t",
       .tag "key", .chars "LSUIElement", .tag "/key", .chars "\n\t",
       .tag "true/", .chars "\n", .tag "/dict", .chars "\n", .tag "/plist", .chars "\n"] ∧
    xml.Item.chars "CFBundleIconFile" ∉
      xml.items (plistPrefix ++ "<!--" ++ plistMiddle ++ "-->" ++ plistSuffix) ∧
    xml.Item.chars "icon.icns" ∉
      xml.items (plistPrefix ++ "<!--" ++ plistMiddle ++ "-->" ++ plistSuffix) := by
  decide

/-- C26 (amended): for every binary path whose last element holds no `<`
and every bundle identifier that holds no `<`, the text that
`createInfoPlistFile` writes is `prefix ++ x ++ middle ++ identifier ++
suffix` with the constant pieces of the template whole and a text `x`
without `<`. Its items are those of the template, with `x` and the
identifier as the character data of two `string` elements: the key
`CFBundleIconFile` is followed by the string `icon.icns`,
`NSHighResolutionCapable` by `true` and `LSUIElement` by `true`. The file
that `iconutil.GenerateIconSet` asks `iconutil` to write is
`outputDir/icon.icns`, for every output directory, and its base name is
`icon.icns`, the value of `CFBundleIconFile`. -/
theorem createInfoPlistFile_constant_entries (P : Providers σ) (b n d i : String) (s : σ)
    (X : syscall.Executor τ) (iconsDir outputDir : String) (w : τ)
    (hb : '<' ∉ (filepath.Base b).data) (hi : '<' ∉ i.data) :
    (∃ x : String, '<' ∉ x.data ∧
      (createInfoPlistFile P b n d i s).log.map Event.call =
        [.WriteFile (filepath.Join [filepath.Join [d, n, "Contents"], "Info.plist"])
          (plistPrefix ++ x ++ plistMiddle ++ i ++ plistSuffix) os.ModePerm] ∧
      xml.items (plistPrefix ++ x ++ plistMiddle ++ i ++ plistSuffix) =
        [.tag "?xml version=\"1.0\" encoding=\"UTF-8\"?", .chars "\n",
         .tag ("!DOCTYPE plist PUBLIC \"-//Apple//DTD PLIST 1.0//EN\" " ++
           "\"http://www.apple.com/DTDs/PropertyList-1.0.dtd\""),
         .chars "\n", .tag "plist version=\"1.0\"", .chars "\n", .tag "dict", .chars "\n\t",
         .tag "key", .chars "CFBundleExecutable", .tag "/key", .chars "\n\t", .tag "string"] ++
        xml.charData x.data ++
        [.tag "/string", .chars "\n\t",
         .tag "key", .chars "CFBundleIconFile", .tag "/key", .chars "\n\t",
         .tag "string", .chars "icon.icns", .tag "/string", .chars "\n\t",
         .tag "key", .chars "CFBundleIdentifier", .tag "/key", .chars "\n\t", .tag "string"] ++
        xml.charData i.data ++
        [.tag "/string", .chars "\n\t",
         .tag "key", .chars "NSHighResolutionCapable", .tag "/key", .chars "\n\t",
         .tag "true/", .chars "\n\t",
         .tag "key", .chars "LSUIElement", .tag "/key", .chars "\n\t",
         .tag "true/", .chars "\n", .tag "/dict", .chars "\n", .tag "/plist", .chars "\n"] ∧
      strings.Contains (plistPrefix ++ x ++ plistMiddle ++ i ++ plistSuffix)
        "\t<key>CFBundleIconFile</key>\n\t<string>icon.icns</string>\n" = true ∧
      strings.Contains (plistPrefix ++ x ++ plistMiddle ++ i ++ plistSuffix)
        "\t<key>NSHighResolutionCapable</key>\n\t<true/>\n" = true ∧
      strings.Contains (plistPrefix ++ x ++ plistMiddle ++ i ++ plistSuffix)
        "\t<key>LSUIElement</key>\n\t<true/>\n" = true) ∧
    (iconutil.GenerateIconSet X iconsDir outputDir w).log.map (fun ev => (ev.name, ev.arg)) =
      [("iconutil", ["-c", "icns", "-o", outputDir ++ "/icon.icns", iconsDir])] ∧
    filepath.Base (outputDir ++ "/icon.icns") = "icon.icns" := by
  refine ⟨?_, ?_, ?_⟩
  · obtain ⟨x, hx, hxy⟩ := Replace_bundleIdentifier_text (filepath.Base b) i hb hi
    refine ⟨x, hx, ?_, xml.items_plist x i hx hi, ?_, ?_, ?_⟩
    · rw [createInfoPlistFile_calls, Replace_appName, hxy]
      rfl
    · have h := strings.Contains_of_piece (plistPrefix ++ x) plistMiddle (i ++ plistSuffix)
        "\t<key>CFBundleIconFile</key>\n\t<string>icon.icns</string>\n" (by decide)
      rw [← String.append_assoc] at h
      exact h
    · have h := strings.Contains_of_piece (plistPrefix ++ x ++ plistMiddle ++ i) plistSuffix ""
        "\t<key>NSHighResolutionCapable</key>\n\t<true/>\n" (by decide)
      rw [show plistPrefix ++ x ++ plistMiddle ++ i ++ plistSuffix ++ "" =
        plistPrefix ++ x ++ plistMiddle ++ i ++ plistSuffix from String.ext (by simp)] at h
      exact h
    · have h := strings.Contains_of_piece (plistPrefix ++ x ++ plistMiddle ++ i) plistSuffix ""
        "\t<key>LSUIElement</key>\n\t<true/>\n" (by decide)
      rw [show plistPrefix ++ x ++ plistMiddle ++ i ++ plistSuffix ++ "" =
        plistPrefix ++ x ++ plistMiddle ++ i ++ plistSuffix from String.ext (by simp)] at h
      exact h
  · generalize hx : X "iconutil" ["-c", "icns", "-o", outputDir ++ "/icon.icns", iconsDir] w = r
    rcases r with ⟨⟨o, e⟩, w1⟩
    cases e <;> simp [iconutil.GenerateIconSet, syscall.Executor.run, hx]
  · have h := filepath.Base_dir_append (outputDir.data ++ ['/']) "icon.icns".data
      (Or.inr ⟨_, rfl⟩) (by decide) (by decide)
    have e : outputDir ++ "/icon.icns" = ⟨(outputDir.data ++ ['/']) ++ "icon.icns".data⟩ := by
      apply String.ext
      simp only [String.data_append, List.append_assoc]
      rfl
    rw [e, h]

/-- Witness of C26 (amended): the binary path and the bundle identifier of
`TestCreate`; the items of the document written there. -/
theorem createInfoPlistFile_constant_entries_witness :
    '<' ∉ (filepath.Base "path/to/appBinary").data ∧ '<' ∉ "bundleIdentifier".data ∧
    (∃ x : String, '<' ∉ x.data ∧
      (createInfoPlistFile happy.providers "path/to/appBinary" "testAppName.app"
          "outputDir/tmp" "bundleIdentifier" ()).log.map Event.call =
        [.WriteFile
          (filepath.Join [filepath.Join ["outputDir/tmp", "testAppName.app", "Contents"],
            "Info.plist"])
          (plistPrefix ++ x ++ plistMiddle ++ "bundleIdentifier" ++ plistSuffix) os.ModePerm]) ∧
    xml.items (plistPrefix ++ "appBinary" ++ plistMiddle ++ "bundleIdentifier" ++ plistSuffix) =
      [.tag "?xml version=\"1.0\" encoding=\"UTF-8\"?", .chars "\n",
       .tag ("!DOCTYPE plist PUBLIC \"-//Apple//DTD PLIST 1.0//EN\" " ++
         "\"http://www.apple.com/DTDs/PropertyList-1.0.dtd\""),
       .chars "\n", .tag "plist version=\"1.0\"", .chars "\n", .tag "dict", .chars "\n\t",
       .tag "key", .chars "CFBundleExecutable", .tag "/key", .chars "\n\t",
       .tag "string", .chars "appBinary", .tag "/string", .chars "\n\t",
       .tag "key", .chars "CFBundleIconFile", .tag "/key", .chars "\n\t",
       .tag "string", .chars "icon.icns", .tag "/string", .chars "\n\t",
       .tag "key", .chars "CFBundleIdentifier", .tag "/key", .chars "\n\t",
       .tag "string", .chars "bundleIdentifier", .tag "/string", .chars "\n\t",
       .tag "key", .chars "NSHighResolutionCapable", .tag "/key", .chars "\n\t",
       .tag "true/", .chars "\n\t",
       .tag "key", .chars "LSUIElement", .tag "/key", .chars "\n\t",
       .tag "true/", .chars "\n", .tag "/dict", .chars "\n", .tag "/plist", .chars "\n"] :=
  ⟨by decide, by decide,
    (createInfoPlistFile_constant_entries happy.providers "path/to/appBinary" "testAppName.app"
      "outputDir/tmp" "bundleIdentifier" () (syscall.mockOsCommandExecutor none) "icons" "out" ()
      (by decide) (by decide)).1.imp (fun _ h => ⟨h.1, h.2.1⟩),
    by decide⟩

end dmg
